import Mathlib

/-!
# ALARA input preprocessing: composition and flux resolution

A shallow embedding of `src/Input/Component.C` and `src/Input/Flux.C`.

Modelling conventions.

* C++ `double` values are exact rationals (`ℚ`); C++ `int` values are
  integers (`Int`). In `readRTFLUX` every `int` expression that can leave the
  32-bit range (sizes, counts, offsets, indices, the sum `skip+numVols`) is
  wrapped by `wrapInt`, and the theorems state the range they need; elsewhere
  the values are list positions and counters that stay inside the range.
* A routine that can end the run returns an `Outcome`: `ok` for a normal
  return, `fatal n` for a call of `error(n, ...)`, `crash` for an uncaught
  C++ exception or undefined behaviour (null dereference, out-of-bounds
  access).
* Linked lists of `Component` live in an explicit heap: an address is an
  index into a list of nodes, `none` is the `NULL` pointer and `new` appends.
-/

namespace ALARA

/-! ## Outcomes -/

/-- Modelled from the spec: the reporting routine `error(code, ...)` is
fatal and ends the run at once. A routine therefore ends in one of three
ways: normal return, `error(code, ...)`, or a crash (uncaught exception or
undefined behaviour). -/
inductive Outcome (α : Type) where
  | ok (a : α)
  | fatal (code : Nat)
  | crash
  deriving DecidableEq, Repr

/-! ## Component type codes and nodes -/

/-- Modelled from the spec: type code of the sentinel head of a list. The
codes are declared in the missing header `Component.h`; the spec fixes the
kinds, not their numbers, and only their being distinct is relied on. -/
def COMP_HEAD : Int := 0
/-- Modelled from the spec: type code of the kind Material. -/
def COMP_MAT : Int := 1
/-- Modelled from the spec: type code of the kind Element. -/
def COMP_ELE : Int := 2
/-- Modelled from the spec: type code of the kind Isotope. -/
def COMP_ISO : Int := 3
/-- Modelled from the spec: type code of the kind Similar. -/
def COMP_SIM : Int := 4
/-- Modelled from the spec: type code of the kind TargetElement. -/
def TARGET_ELE : Int := 5
/-- Modelled from the spec: type code of the kind TargetIsotope. -/
def TARGET_ISO : Int := 6

/-- One node of a mixture's component list (`class Component`), `next`
being the address of the following node. -/
structure Component where
  type : Int
  density : ℚ
  volFraction : ℚ
  compName : String
  next : Option Nat
  deriving DecidableEq, Repr

/-- Modelled from the spec: entry of the element library
(`Component::EleLibEntry`, declared in the missing header `Component.h`),
with the fields `expandEle` and `getEleLib` use. -/
structure EleLibEntry where
  A : ℚ
  Z : Int
  density : ℚ
  numIsos : Int
  isoList : List (String × ℚ)
  deriving DecidableEq, Repr

/-- The element library `Component::eleLib`, a `std::map` from element key
to entry. -/
abbrev EleLib := String → Option EleLibEntry

/-- Modelled from the spec: the external `Mixture`, of which only the running
totals touched by `incrVolFrac` and `incrTotalDensity` are kept. -/
structure Mixture where
  volFraction : ℚ
  totalDensity : ℚ
  deriving DecidableEq, Repr

/-- Modelled from the spec: `Mixture::incrTotalDensity` adds its argument to
the running total density. -/
def Mixture.incrTotalDensity (mix : Mixture) (d : ℚ) : Mixture :=
  { mix with totalDensity := mix.totalDensity + d }

/-- Modelled from the spec: one entry of the solver-side flat list, built by
`Root(label, density, mix, comp)`. -/
structure Root where
  label : String
  density : ℚ
  deriving DecidableEq, Repr

/-- Modelled from the spec: `Root::merge` combines two flat lists without
dropping an entry; the combined list keeps the entries of the receiver
followed by those of the argument. -/
def Root.merge (rootList other : List Root) : List Root :=
  rootList ++ other

/-! ## std::string helpers -/

/-- Position of the first `c` in `s` (`std::string::find`); `none` is
`npos`. -/
def strFind : List Char → Char → Option Nat
  | [], _ => none
  | x :: xs, c => if x = c then some 0 else (strFind xs c).map (· + 1)

/-- Suffix of `s` from `pos` (`std::string::substr(pos)`); `none` is the
`std::out_of_range` exception thrown when `pos > size()`, which is always
the case for `npos`. -/
def strSubstr (s : String) : Option Nat → Option String
  | none => none
  | some pos => if pos ≤ s.length then some (String.mk (s.toList.drop pos)) else none

/-! ## Component::expandEle -/

/-- State left behind by an expansion routine: how it ended, the node it was
called on and the owning mixture. -/
structure Expansion where
  outcome : Outcome (List Root)
  comp : Component
  mix : Mixture
  deriving DecidableEq, Repr

/-- Density resolution at the start of `expandEle`:
`if (density >= 0) density *= ele.density; else density = -density;`. -/
def resolveDensity (density : ℚ) (ele : EleLibEntry) : ℚ :=
  if density ≥ 0 then density * ele.density else -density

/-- The isotope loop of `expandEle`: one `Root` per `(name, abundance)` pair,
merged into `rootList`; building the label throws when the component name
has no colon. -/
def expandEleLoop (compName : String) (Ndensity : ℚ) :
    List (String × ℚ) → List Root → Outcome (List Root)
  | [], rootList => Outcome.ok rootList
  | iso :: rest, rootList =>
    match strSubstr compName (strFind compName.toList ':') with
    | none => Outcome.crash
    | some sfx =>
      expandEleLoop compName Ndensity rest
        (Root.merge rootList [⟨sfx ++ "-" ++ iso.1, iso.2 * Ndensity / 100⟩])

/-- `Component::expandEle(mix, comp)` called on the node `self`; the constant
`AVAGADRO` of the missing header `alara.h` is a parameter. -/
def expandEle (AVAGADRO : ℚ) (eleLib : EleLib) (mix : Mixture) (self : Component) :
    Expansion :=
  match eleLib self.compName with
  | some ele =>
    let density := resolveDensity self.density ele
    let Ndensity := self.volFraction * density * AVAGADRO / ele.A
    { outcome := expandEleLoop self.compName Ndensity ele.isoList []
      comp := { self with density := density }
      mix := mix.incrTotalDensity (density * self.volFraction) }
  | none => { outcome := Outcome.fatal 310, comp := self, mix := mix }

/-- Library holding the single key `k`. -/
def singleLib (k : String) (e : EleLibEntry) : EleLib :=
  fun s => if s = k then some e else none

/-! ## Heap of components and Component::replaceSim -/

/-- Memory holding the nodes of all component lists: the address of a node
is its index. -/
abbrev Heap := List Component

/-- Overwrite the node at address `a` by `f` applied to it; `none` when `a`
is not an allocated address. -/
def Heap.update (h : Heap) (a : Nat) (f : Component → Component) : Option Heap :=
  match h[a]? with
  | some c => some (h.set a (f c))
  | none => none

/-- `Component::operator=` on values: type, name, density and volume fraction
are copied, `next` is kept. -/
def Component.assign (lhs rhs : Component) : Component :=
  { lhs with type := rhs.type, compName := rhs.compName, density := rhs.density,
             volFraction := rhs.volFraction }

/-- The statement `*dst = *src` with the self-assignment test of
`Component::operator=`. -/
def assignAt (h : Heap) (dst src : Nat) : Option Heap :=
  if dst ≠ src then
    match h[src]? with
    | some s => h.update dst (fun d => d.assign s)
    | none => none
  else
    match h[dst]? with
    | some _ => some h
    | none => none

/-- Modelled from the spec: the copy constructor `Component(const Component&)`
of the missing header `Component.h`; it copies all fields except the
ownership link, the copy being a detached single node. -/
def Component.copy (c : Component) : Component :=
  { c with next := none }

/-- Multiply the volume fraction of a node (`ptr->volFraction *= scale`). -/
def scaleVolFraction (scale : ℚ) (c : Component) : Component :=
  { c with volFraction := c.volFraction * scale }

/-- Set the successor of a node (`ptr->next = p`). -/
def setNext (p : Option Nat) (c : Component) : Component :=
  { c with next := p }

/-- The `while (newComp->next != NULL)` loop of `replaceSim`; it returns the
heap and `ptr` at loop exit, `none` when a null or dangling pointer is
dereferenced or the fuel runs out. -/
def replaceSimLoop (scale : ℚ) : Nat → Heap → Nat → Nat → Option (Heap × Nat)
  | 0, _, _, _ => none
  | fuel + 1, h, ptr, newComp =>
    match h[newComp]? with
    | none => none
    | some nc =>
      match nc.next with
      | none => some (h, ptr)
      | some nxt =>
        match h[nxt]? with
        | none => none
        | some n =>
          let a := h.length
          match (h ++ [n.copy]).update ptr (setNext (some a)) with
          | none => none
          | some h1 =>
            match h1.update a (scaleVolFraction scale) with
            | none => none
            | some h2 => replaceSimLoop scale fuel h2 a nxt

/-- `Component::replaceSim(newCompList)` called on the node at address
`self`; it returns the new heap and the returned pointer. -/
def replaceSim (h : Heap) (self newCompList : Nat) (fuel : Nat) : Option (Heap × Nat) :=
  match h[self]?, h[newCompList]? with
  | some this, some head =>
    let saveNext := this.next
    match head.next with
    | none => none
    | some newComp =>
      let scale := this.volFraction
      match assignAt h self newComp with
      | none => none
      | some h1 =>
        match h1.update self (scaleVolFraction scale) with
        | none => none
        | some h2 =>
          match replaceSimLoop scale fuel h2 self newComp with
          | none => none
          | some (h3, ptr) =>
            match h3.update ptr (setNext saveNext) with
            | none => none
            | some h4 => some (h4, ptr)
  | _, _ => none

/-- The nodes at addresses `as` are linked in this order, starting from the
pointer `p`, the successor of the last one being `q`. -/
def chain (h : Heap) : Option Nat → List Nat → Option Nat → Prop
  | p, [], q => p = q
  | p, a :: as, q => p = some a ∧ ∃ c, h[a]? = some c ∧ chain h c.next as q

/-- Node `c` carries the type, name and density of `n` and the volume
fraction of `n` multiplied by `scale`. -/
def scaledCopy (scale : ℚ) (c n : Component) : Prop :=
  c.type = n.type ∧ c.compName = n.compName ∧ c.density = n.density ∧
    c.volFraction = scale * n.volFraction

/-- Example heap: list `0 → 1 → 2` whose node `1` is a Similar reference
with fraction `1/2`, and donor list `3 → 4 → 5`. -/
def exampleHeap : Heap :=
  [⟨COMP_HEAD, 0, 1, "", some 1⟩, ⟨COMP_SIM, 0, 1/2, "other", some 2⟩,
   ⟨COMP_ELE, 1, 1/4, "x:fe", none⟩,
   ⟨COMP_HEAD, 0, 1, "", some 4⟩, ⟨COMP_MAT, 2, 1/3, "steel", some 5⟩,
   ⟨COMP_ELE, 3, 2/3, "x:cr", none⟩]

/-! ## Sequential loops -/

/-- Sequencing of outcomes: the continuation runs only after a normal
return. -/
def Outcome.bind {α β : Type} : Outcome α → (α → Outcome β) → Outcome β
  | Outcome.ok a, k => k a
  | Outcome.fatal code, _ => Outcome.fatal code
  | Outcome.crash, _ => Outcome.crash

/-- Run `body i`, `body (i+1)`, ... for `n` consecutive values of the loop
counter. -/
def forLoopFrom {σ : Type} (body : Int → σ → Outcome σ) : Nat → Int → σ → Outcome σ
  | 0, _, s => Outcome.ok s
  | n + 1, i, s => (body i s).bind (forLoopFrom body n (i + 1))

/-- The loop `for (int i = 0; i < n; i++) body`. -/
def forLoop {σ : Type} (n : Int) (body : Int → σ → Outcome σ) (s : σ) : Outcome σ :=
  forLoopFrom body n.toNat 0 s

/-! ## Arrays of doubles -/

/-- Read `l[i]`; `none` when the index is out of bounds. -/
def getI (l : List ℚ) (i : Int) : Option ℚ :=
  if 0 ≤ i then l[i.toNat]? else none

/-- Write `l[i] = v`; `none` when the index is out of bounds. -/
def setI (l : List ℚ) (i : Int) (v : ℚ) : Option (List ℚ) :=
  if 0 ≤ i ∧ i < l.length then some (l.set i.toNat v) else none

/-- The array `new double[n]`, whose indeterminate initial contents are
given by `uninit`; `none` when the size is negative. -/
def newDoubles (uninit : Nat → ℚ) (n : Int) : Option (List ℚ) :=
  if 0 ≤ n then some ((List.range n.toNat).map uninit) else none

/-! ## Flux descriptors and Flux::find -/

/-- Flux format code of the list head. -/
def FLUX_HEAD : Int := 0
/-- Flux format code of a text file. -/
def FLUX_D : Int := 1
/-- Flux format code of a binary RTFLUX file. -/
def FLUX_R : Int := 2
/-- Search result: no descriptor bears the name. -/
def FLUX_NOT_FOUND : Int := -1
/-- Search result: the file of the descriptor cannot be opened. -/
def FLUX_BAD_FNAME : Int := -2

/-- A flux description (`class Flux`). -/
structure Flux where
  format : Int
  skip : Int
  scale : ℚ
  fluxName : String
  fileName : String
  deriving DecidableEq, Repr

/-- `Flux::checkFname`: whether `fopen(fileName, "r")` succeeds, `openable`
telling which file names can be opened. -/
def Flux.checkFname (openable : String → Bool) (f : Flux) : Bool :=
  openable f.fileName

/-- The search loop of `Flux::find`, `i` being `ptr - fluxList.begin()`. -/
def findFrom (openable : String → Bool) (srchFlux : String) : List Flux → Nat → Int
  | [], _ => FLUX_NOT_FOUND
  | f :: rest, i =>
    if f.fluxName = srchFlux then
      if f.checkFname openable then (i : Int) else FLUX_BAD_FNAME
    else findFrom openable srchFlux rest (i + 1)

/-- `Flux::find(fluxList, srchFlux)`. -/
def Flux.find (openable : String → Bool) (fluxList : List Flux) (srchFlux : String) : Int :=
  findFrom openable srchFlux fluxList 0

/-! ## Text flux files -/

/-- Content of a text flux file: its whitespace-separated numeric values, and
whether whitespace (such as a final newline) follows the last value. -/
structure TextFile where
  vals : List ℚ
  trailing : Bool
  deriving DecidableEq, Repr

/-- State of a `std::ifstream` reading numbers: the values not yet
extracted and the two state bits the code depends on. -/
structure IStream where
  rest : List ℚ
  trailing : Bool
  eofbit : Bool
  failbit : Bool
  deriving DecidableEq, Repr

/-- Constructing `ifstream FluxData(fileName)`: a file that cannot be opened
gives a stream with `failbit` set. -/
def IStream.ofFile : Option TextFile → IStream
  | some f => ⟨f.vals, f.trailing, false, false⟩
  | none => ⟨[], false, false, true⟩

/-- The extraction `stream >> x` of a double: on a stream that is not good
only `failbit` is set; when skipping whitespace reaches the end of the file
`eofbit` and `failbit` are set; in both cases `x` is left as it was (`none`).
Otherwise the next value is stored, and `eofbit` is set when the end of the
file was reached while reading it, that is, when it was the last value and
nothing follows it. -/
def IStream.extract (s : IStream) : IStream × Option ℚ :=
  if s.eofbit || s.failbit then ({ s with failbit := true }, none)
  else
    match s.rest with
    | [] => ({ s with eofbit := true, failbit := true }, none)
    | v :: rest =>
      ({ s with rest := rest, eofbit := rest.isEmpty && !s.trailing }, some v)

/-- One `FluxData >> temp` of the skip loops of `xRef`. -/
def skipValue (_ : Int) (s : IStream) : Outcome IStream :=
  Outcome.ok s.extract.1

/-- One iteration of the inner load loop of `xRef`: the test of `eof()`
followed by `FluxData >> FluxMatrix[x][y]`, where `FluxMatrix[x]` points at
`MatrixStorage[x*numGrps]`. -/
def loadValue (numGrps x y : Int) (st : IStream × List ℚ) : Outcome (IStream × List ℚ) :=
  if st.1.eofbit then Outcome.fatal 622
  else
    match st.1.extract with
    | (s2, none) => Outcome.ok (s2, st.2)
    | (s2, some v) =>
      match setI st.2 (x * numGrps + y) v with
      | some m => Outcome.ok (s2, m)
      | none => Outcome.crash

/-- The `case FLUX_D` branch of `xRef`: the matrix handed to `storeMatrix`
when the branch completes. -/
def readFluxD (file : Option TextFile) (skip numVols numGrps : Int)
    (MatrixStorage : List ℚ) : Outcome (List ℚ) :=
  let s0 := IStream.ofFile file
  let skipped : Outcome IStream :=
    if skip > 0 then forLoop skip (fun _ => forLoop numGrps skipValue) s0
    else Outcome.ok s0
  skipped.bind fun s1 =>
    if s1.eofbit then Outcome.fatal 622
    else
      (forLoop numVols (fun x => forLoop numGrps (loadValue numGrps x))
        (s1, MatrixStorage)).bind fun st => Outcome.ok st.2

/-! ## Machine integers -/

/-- Value of a C++ `int` expression built from `+`, `-` and `*` whose
mathematical result is `x`: 32-bit two's-complement wrap-around, what the
compiled code computes when the result does not fit. Wrapping the result of
such an expression once gives the same value as wrapping after every
operation. -/
def wrapInt (x : Int) : Int :=
  (x + 2147483648) % 4294967296 - 2147483648

/-- The value `x` is representable in a 32-bit `int`. -/
def fitsInt (x : Int) : Prop :=
  -2147483648 ≤ x ∧ x < 2147483648

instance decidableFitsInt (x : Int) : Decidable (fitsInt x) :=
  instDecidableAnd

/-! ## Binary RTFLUX files and Flux::readRTFLUX -/

/-- Content of an RTFLUX file as `readRTFLUX` consumes it: the integers of
the dimension record, and the double-precision values of the data records
in file order (the record-length markers around them are read apart). -/
structure RTFLUXFile where
  ndim : Int
  ngrp : Int
  ninti : Int
  nintj : Int
  nintk : Int
  nblok : Int
  data : List ℚ
  deriving DecidableEq, Repr

/-- State left behind by `readRTFLUX`: how it ended, the caller's output
storage and the data values of the file not yet read. -/
structure RTResult where
  outcome : Outcome Unit
  MatrixStorage : List ℚ
  unread : List ℚ
  deriving DecidableEq, Repr

/-- The three tests under "error checking" of `readRTFLUX`, in order, each
ending the run through `error`; `none` when all pass. The sum `skip+numVols`
is an `int`. -/
def checkHeader (ndim ngrp ninti skip numVols numGrps : Int) : Option Nat :=
  if ndim > 1 then some 624
  else if ngrp < numGrps then some 623
  else if ninti < wrapInt (skip + numVols) then some 623
  else none

/-- First group of block `blkNum`: `blkNum * ((ngrp-1)/nblok + 1)`. -/
def grpLo (ngrp nblok blkNum : Int) : Int :=
  wrapInt (blkNum * (Int.tdiv (wrapInt (ngrp - 1)) nblok + 1))

/-- Unclipped last group of block `blkNum`:
`(blkNum+1) * ((ngrp-1)/nblok + 1) - 1`. -/
def grpUp (ngrp nblok blkNum : Int) : Int :=
  wrapInt ((blkNum + 1) * (Int.tdiv (wrapInt (ngrp - 1)) nblok + 1) - 1)

/-- Last group of block `blkNum`: `std::min(ngrp, grpUp)`. -/
def grpHi (ngrp nblok blkNum : Int) : Int :=
  min ngrp (grpUp ngrp nblok blkNum)

/-- Number of values requested for block `blkNum`:
`(grpHi - grpLo + 1) * ninti`, an `int`. -/
def blockCount (ngrp nblok ninti blkNum : Int) : Int :=
  wrapInt ((grpHi ngrp nblok blkNum - grpLo ngrp nblok blkNum + 1) * ninti)

/-- The call `fread(buf + off, SDOUBLE, cnt, binFile)`: as many of the `cnt`
values as the file still holds are copied to `buf[off ...]`; `none` when the
destination range does not lie inside the buffer. -/
def freadDoubles (buf : List ℚ) (off cnt : Int) (data : List ℚ) :
    Option (List ℚ × List ℚ) :=
  if 0 ≤ off ∧ 0 ≤ cnt ∧ off + cnt ≤ buf.length then
    let n := min cnt.toNat data.length
    some (buf.take off.toNat ++ data.take n ++ buf.drop (off.toNat + n), data.drop n)
  else none

/-- One iteration of the block loop of `readRTFLUX`, on the pair of the
buffer `fluxIn` and the unread data of the file; the offset `grpLo*ninti` is
an `int`. -/
def readBlock (ngrp nblok ninti blkNum : Int) (st : List ℚ × List ℚ) :
    Outcome (List ℚ × List ℚ) :=
  match freadDoubles st.1 (wrapInt (grpLo ngrp nblok blkNum * ninti))
      (blockCount ngrp nblok ninti blkNum) st.2 with
  | some st2 => Outcome.ok st2
  | none => Outcome.crash

/-- The block loop of `readRTFLUX`: allocation of `fluxIn`, whose size
`ninti*ngrp` is an `int`, and the reading of the `nblok` data blocks. -/
def readBlocks (uninit : Nat → ℚ) (ngrp nblok ninti : Int) (data : List ℚ) :
    Outcome (List ℚ × List ℚ) :=
  match newDoubles uninit (wrapInt (ninti * ngrp)) with
  | none => Outcome.crash
  | some fluxIn => forLoop nblok (readBlock ngrp nblok ninti) (fluxIn, data)

/-- One assignment of the transpose loop:
`MatrixStorage[volNum*numGrps+gNum] = fluxIn[gNum*ninti+(volNum+skip)]`, both
indices being `int` expressions. -/
def transposeValue (fluxIn : List ℚ) (ninti skip numGrps gNum volNum : Int)
    (MatrixStorage : List ℚ) : Outcome (List ℚ) :=
  match getI fluxIn (wrapInt (gNum * ninti + (volNum + skip))) with
  | none => Outcome.crash
  | some v =>
    match setI MatrixStorage (wrapInt (volNum * numGrps + gNum)) v with
    | some m => Outcome.ok m
    | none => Outcome.crash

/-- The transpose loops of `readRTFLUX`. -/
def transposeData (fluxIn : List ℚ) (ninti skip numVols numGrps : Int)
    (MatrixStorage : List ℚ) : Outcome (List ℚ) :=
  forLoop numGrps
    (fun gNum => forLoop numVols (transposeValue fluxIn ninti skip numGrps gNum))
    MatrixStorage

/-- `Flux::readRTFLUX(MatrixStorage, numVols, numGrps)` of a descriptor with
the given `skip`, on a file that `fopen` either opens (`some`) or not. -/
def readRTFLUX (uninit : Nat → ℚ) (file : Option RTFLUXFile) (skip : Int)
    (MatrixStorage : List ℚ) (numVols numGrps : Int) : RTResult :=
  match file with
  | none => ⟨Outcome.crash, MatrixStorage, []⟩
  | some f =>
    match checkHeader f.ndim f.ngrp f.ninti skip numVols numGrps with
    | some code => ⟨Outcome.fatal code, MatrixStorage, f.data⟩
    | none =>
      match readBlocks uninit f.ngrp f.nblok f.ninti f.data with
      | Outcome.ok (fluxIn, unread) =>
        match transposeData fluxIn f.ninti skip numVols numGrps MatrixStorage with
        | Outcome.ok m => ⟨Outcome.ok (), m, unread⟩
        | Outcome.fatal code => ⟨Outcome.fatal code, MatrixStorage, unread⟩
        | Outcome.crash => ⟨Outcome.crash, MatrixStorage, unread⟩
      | Outcome.fatal code => ⟨Outcome.fatal code, MatrixStorage, f.data⟩
      | Outcome.crash => ⟨Outcome.crash, MatrixStorage, f.data⟩

/-! ## Flux::xRef -/

/-- The files a run can open: text flux files and RTFLUX files by name. -/
structure FileSystem where
  text : String → Option TextFile
  rtflux : String → Option RTFLUXFile

/-- The `switch ((*ptr)->format)` of `xRef` for one flux description: the
storage as it is when `storeMatrix` is reached. -/
def xRefFlux (fs : FileSystem) (uninit : Nat → ℚ) (numVols numGrps : Int) (f : Flux)
    (MatrixStorage : List ℚ) : Outcome (List ℚ) :=
  if f.format = FLUX_D then
    readFluxD (fs.text f.fileName) f.skip numVols numGrps MatrixStorage
  else if f.format = FLUX_R then
    match readRTFLUX uninit (fs.rtflux f.fileName) f.skip MatrixStorage numVols numGrps with
    | ⟨Outcome.ok _, m, _⟩ => Outcome.ok m
    | ⟨Outcome.fatal code, _, _⟩ => Outcome.fatal code
    | ⟨Outcome.crash, _, _⟩ => Outcome.crash
  else Outcome.ok MatrixStorage

/-- The loop of `xRef` over the flux descriptions; the result lists the
calls `storeMatrix(FluxMatrix, scale)` in order, each with the content of
the matrix at the call. -/
def xRefLoop (fs : FileSystem) (uninit : Nat → ℚ) (numVols numGrps : Int) :
    List Flux → List ℚ → Outcome (List (List ℚ × ℚ))
  | [], _ => Outcome.ok []
  | f :: rest, MatrixStorage =>
    (xRefFlux fs uninit numVols numGrps f MatrixStorage).bind fun m =>
      (xRefLoop fs uninit numVols numGrps rest m).bind fun stored =>
        Outcome.ok ((m, f.scale) :: stored)

/-- `Flux::xRef(fluxList, volList)`, where `numVols` is `volList->count()`
and `numGrps` is `VolFlux::getNumGroups()`: the row pointers
`new double*[numVols]` and the storage `new double[numVols*numGrps]` are
allocated once, then every flux description is processed in turn. -/
def xRef (fs : FileSystem) (uninit : Nat → ℚ) (numVols numGrps : Int)
    (fluxList : List Flux) : Outcome (List (List ℚ × ℚ)) :=
  if numVols < 0 then Outcome.crash
  else
    match newDoubles uninit (numVols * numGrps) with
    | none => Outcome.crash
    | some MatrixStorage => xRefLoop fs uninit numVols numGrps fluxList MatrixStorage

/-- Example RTFLUX file: one dimension, 2 groups, 5 intervals, one block. -/
def exampleRTFLUX : RTFLUXFile :=
  ⟨1, 2, 5, 1, 1, 1, [10, 11, 12, 13, 14, 20, 21, 22, 23, 24]⟩

/-- Example RTFLUX file whose dimension record says `ndim = 0`. -/
def exampleZeroDim : RTFLUXFile :=
  ⟨0, 1, 1, 1, 1, 1, [5]⟩

/-- Example RTFLUX file whose dimension record announces 65536 groups and
65536 intervals in one block; `ninti*ngrp` is 2^32. -/
def exampleHuge : RTFLUXFile :=
  ⟨1, 65536, 65536, 1, 1, 1, [1, 2]⟩

/-- Example RTFLUX file whose dimension record says two dimensions. -/
def exampleTwoDim : RTFLUXFile :=
  ⟨2, 2, 5, 1, 1, 1, []⟩

/-- Example RTFLUX file with 3 groups in 2 blocks and one interval. -/
def exampleUneven : RTFLUXFile :=
  ⟨1, 3, 1, 1, 1, 2, [10, 11, 12]⟩

/-- The stream over `file` is in good state after `c` values have been
extracted: the remaining values are those from position `c` on, `failbit` is
clear, and `eofbit` can be set only once all values are consumed. -/
def goodAt (file : TextFile) (c : Int) (s : IStream) : Prop :=
  0 ≤ c ∧ s.rest = file.vals.drop c.toNat ∧ s.trailing = file.trailing ∧
    s.failbit = false ∧ (s.eofbit = true → (file.vals.length : Int) ≤ c)

/-- Example file system: the text file `flux.txt` holds the three values
`1 2 3` followed by a newline, the text file `flux2.txt` the six values
`1 2 3 4 5 6` with nothing after the last. -/
def exampleFS : FileSystem :=
  { text := fun name =>
      if name = "flux.txt" then some ⟨[1, 2, 3], true⟩
      else if name = "flux2.txt" then some ⟨[1, 2, 3, 4, 5, 6], false⟩
      else none
    rtflux := fun _ => none }

/-- Example flux description reading `flux.txt` as text, without skipping. -/
def exampleFlux : Flux :=
  ⟨FLUX_D, 0, 1, "flux_1", "flux.txt"⟩

/-- Example flux description reading `flux2.txt` as text, skipping one
interval. -/
def exampleFlux2 : Flux :=
  ⟨FLUX_D, 1, 2, "flux_2", "flux2.txt"⟩

/-- Example element library: iron with two isotopes, under the key `fe`. -/
def exampleEleLib : EleLib :=
  singleLib "fe" ⟨56, 26, 787 / 100, 2, [("54", 6), ("56", 94)]⟩

/-! ## Token streams of the library files -/

/-- One whitespace-separated token of a library file: its text, and the
value the extraction of a `double` and of an `int` make of it (`none` when
the token is not a number of that kind). -/
structure Tok where
  text : String
  real : Option ℚ
  whole : Option Int
  deriving DecidableEq, Repr

/-- A token that is a name. -/
def Tok.name (s : String) : Tok := ⟨s, none, none⟩

/-- A token that is a decimal number with the given text. -/
def Tok.number (s : String) (x : ℚ) : Tok := ⟨s, some x, none⟩

/-- A token that is an integer with the given text. -/
def Tok.integer (s : String) (n : Int) : Tok := ⟨s, some n, some n⟩

/-- State of a `std::ifstream` over a library file: the tokens of the whole
file, the tokens not yet extracted, whether whitespace follows the last
token, and the state bits. -/
structure TokStream where
  file : List Tok
  rest : List Tok
  trailing : Bool
  eofbit : Bool
  failbit : Bool
  deriving DecidableEq, Repr

/-- The stream right after a library file has been opened. -/
def TokStream.ofFile (file : List Tok) (trailing : Bool) : TokStream :=
  ⟨file, file, trailing, false, false⟩

/-- The stream after a token has been extracted: `eofbit` is set when the
end of the file was reached while reading it. -/
def TokStream.advance (s : TokStream) (rest : List Tok) : TokStream :=
  { s with rest := rest, eofbit := rest.isEmpty && !s.trailing }

/-- The call `seekg(0L, ios::beg)` (C++11 wording): `eofbit` is cleared
first; the stream is repositioned to the start unless `failbit` is set. -/
def TokStream.seekg0 (s : TokStream) : TokStream :=
  if s.failbit then { s with eofbit := false }
  else { s with rest := s.file, eofbit := false }

/-- Modelled from the spec: `clearComment` skips comment lines before a token
group; the token stream holds no comment, so nothing changes. -/
def clearComment (s : TokStream) : TokStream := s

/-- The extraction `stream >> str` into a `std::string` holding `cur`: on a
stream that is not good, or when only whitespace is left, the string is left
as it was. -/
def readString (s : TokStream) (cur : String) : TokStream × String :=
  if s.eofbit || s.failbit then ({ s with failbit := true }, cur)
  else
    match s.rest with
    | [] => ({ s with eofbit := true, failbit := true }, cur)
    | t :: rest => (s.advance rest, t.text)

/-- The extraction `stream >> buf` into a `char buf[64]` holding `cur`;
`none` when the token and its terminating zero do not fit the buffer. -/
def readCharBuf (s : TokStream) (cur : String) : Option (TokStream × String) :=
  if s.eofbit || s.failbit then some ({ s with failbit := true }, cur)
  else
    match s.rest with
    | [] => some ({ s with eofbit := true, failbit := true }, cur)
    | t :: rest => if t.text.length < 64 then some (s.advance rest, t.text) else none

/-- The extraction `stream >> x` into a `double` holding `cur`; a token that
is not a number sets `failbit`, stays in the stream and stores zero. -/
def readDouble (s : TokStream) (cur : ℚ) : TokStream × ℚ :=
  if s.eofbit || s.failbit then ({ s with failbit := true }, cur)
  else
    match s.rest with
    | [] => ({ s with eofbit := true, failbit := true }, cur)
    | t :: rest =>
      match t.real with
      | some x => (s.advance rest, x)
      | none => ({ s with failbit := true }, 0)

/-- The extraction `stream >> n` into an `int` holding `cur`; a token that
is not an integer sets `failbit`, stays in the stream and stores zero. -/
def readInt (s : TokStream) (cur : Int) : TokStream × Int :=
  if s.eofbit || s.failbit then ({ s with failbit := true }, cur)
  else
    match s.rest with
    | [] => ({ s with eofbit := true, failbit := true }, cur)
    | t :: rest =>
      match t.whole with
      | some n => (s.advance rest, n)
      | none => ({ s with failbit := true }, 0)

/-! ## Component::getEleLib -/

/-- Assignment `eleLib[key] = e` on the element library. -/
def EleLib.set (eleLib : EleLib) (key : String) (e : EleLibEntry) : EleLib :=
  fun k => if k = key then some e else eleLib k

/-- The entry `eleLib[key]`, inserted value-initialised by `operator[]` when
the key is absent. -/
def EleLib.at (eleLib : EleLib) (key : String) : EleLibEntry :=
  match eleLib key with
  | some e => e
  | none => ⟨0, 0, 0, 0, []⟩

/-- Local variables and library of `getEleLib` while the file is read. -/
structure EleLibState where
  stream : TokStream
  eleKey : String
  isoInfo : String × ℚ
  eleLib : EleLib

/-- The loop `while (numIsos-->0)` of `getEleLib`, run `n` times: each turn
reads `isoInfo.first` and `isoInfo.second` and appends `isoInfo` to the
isotope list of `eleLib[eleKey]`. -/
def getEleLibIsos : Nat → EleLibState → EleLibState
  | 0, st => st
  | n + 1, st =>
    let r1 := readString (clearComment st.stream) st.isoInfo.1
    let r2 := readDouble r1.1 st.isoInfo.2
    let isoInfo : String × ℚ := (r1.2, r2.2)
    let e := st.eleLib.at st.eleKey
    getEleLibIsos n
      { stream := r2.1, eleKey := st.eleKey, isoInfo := isoInfo,
        eleLib := st.eleLib.set st.eleKey { e with isoList := e.isoList ++ [isoInfo] } }

/-- One turn of the loop `while (!eleLibFile.eof())` of `getEleLib`, where
`blank_element` is the default-initialised entry. -/
def getEleLibRecord (blank_element : EleLibEntry) (st : EleLibState) : EleLibState :=
  let r0 := readString (clearComment st.stream) st.eleKey
  let eleKey := r0.2
  let rA := readDouble r0.1 blank_element.A
  let rZ := readInt rA.1 blank_element.Z
  let rD := readDouble rZ.1 blank_element.density
  let rN := readInt rD.1 blank_element.numIsos
  let e : EleLibEntry :=
    { A := rA.2, Z := rZ.2, density := rD.2, numIsos := rN.2, isoList := [] }
  getEleLibIsos rN.2.toNat
    { stream := rN.1, eleKey := eleKey, isoInfo := st.isoInfo,
      eleLib := st.eleLib.set eleKey e }

/-- The loop `while (!eleLibFile.eof())` of `getEleLib`; `none` when the fuel
runs out. -/
def getEleLibLoop (blank_element : EleLibEntry) : Nat → EleLibState → Option EleLibState
  | 0, _ => none
  | fuel + 1, st =>
    if st.stream.eofbit then some st
    else getEleLibLoop blank_element fuel (getEleLibRecord blank_element st)

/-- `Component::getEleLib` on an element file that either opens (`some`,
with its tokens and whether whitespace follows the last one) or not: the
library after the call, `eleLib` being the library before it and
`blank_element` the default-initialised entry (its numbers are
indeterminate, its isotope list is empty). -/
def getEleLib (blank_element : EleLibEntry) (file : Option (List Tok × Bool))
    (eleLib : EleLib) (fuel : Nat) : Option (Outcome EleLib) :=
  match file with
  | none => some (Outcome.fatal 110)
  | some (toks, trailing) =>
    match getEleLibLoop blank_element fuel
        ⟨TokStream.ofFile toks trailing, "", ("", 0), eleLib⟩ with
    | none => none
    | some st => some (Outcome.ok st.eleLib)

/-- The library a successful load returns at key `k`. -/
def loadedEntry (r : Option (Outcome EleLib)) (k : String) : Option EleLibEntry :=
  match r with
  | some (Outcome.ok lib) => lib k
  | _ => none

/-- Labels of the entries emitted on a normal return. -/
def rootLabels : Outcome (List Root) → Option (List String)
  | Outcome.ok roots => some (roots.map Root.label)
  | _ => none

/-- Example element file: the single record `h 1.008 1 0.09 2` with the
isotopes `1 99.985` and `2 0.015`. -/
def exampleEleFile : List Tok :=
  [Tok.name "h", Tok.number "1.008" (1008 / 1000), Tok.integer "1" 1,
   Tok.number "0.09" (9 / 100), Tok.integer "2" 2,
   Tok.integer "1" 1, Tok.number "99.985" (99985 / 1000),
   Tok.integer "2" 2, Tok.number "0.015" (15 / 1000)]

/-- Example element library with the qualified key `region:Fe`. -/
def exampleQualifiedLib : EleLib :=
  singleLib "region:Fe" ⟨56, 26, 787 / 100, 1, [("fe56", 100)]⟩

/-- Example element library with the plain key `Fe`. -/
def examplePlainLib : EleLib :=
  singleLib "Fe" ⟨56, 26, 787 / 100, 1, [("fe56", 100)]⟩

/-! ## Component::expandMat -/

/-- Local variables of `expandMat` that the extractions write. -/
structure MatLocals where
  testName : String
  eleName : String
  matDens : ℚ
  eleDens : ℚ
  numEles : Int
  eleZ : Int
  deriving DecidableEq, Repr

/-- State left behind by `expandMat`: how it ended, the node it was called
on, the owning mixture and the material library stream. -/
structure MatExpansion where
  outcome : Outcome (List Root)
  comp : Component
  mix : Mixture
  matLib : TokStream
  deriving DecidableEq, Repr

/-- The statements `clearComment(matLib); matLib >> testName >> matDens >>
numEles;`; `none` when the name overruns `testName[64]`. -/
def readMatHeader (s : TokStream) (loc : MatLocals) : Option (TokStream × MatLocals) :=
  match readCharBuf (clearComment s) loc.testName with
  | none => none
  | some (s1, testName) =>
    let r2 := readDouble s1 loc.matDens
    let r3 := readInt r2.1 loc.numEles
    some (r3.1, { loc with testName := testName, matDens := r2.2, numEles := r3.2 })

/-- The statements `clearComment(matLib); matLib >> eleName >> eleDens >>
eleZ;`; `none` when the name overruns `eleName[64]`. -/
def readMatElement (s : TokStream) (loc : MatLocals) : Option (TokStream × MatLocals) :=
  match readCharBuf (clearComment s) loc.eleName with
  | none => none
  | some (s1, eleName) =>
    let r2 := readDouble s1 loc.eleDens
    let r3 := readInt r2.1 loc.eleZ
    some (r3.1, { loc with eleName := eleName, eleDens := r2.2, eleZ := r3.2 })

/-- The body of the loop `while (numEles-->0)` that skips the elements of a
material, run `n` times. -/
def skipMatElements : Nat → TokStream → MatLocals → Option (TokStream × MatLocals)
  | 0, s, loc => some (s, loc)
  | n + 1, s, loc =>
    match readMatElement s loc with
    | none => none
    | some (s1, loc1) => skipMatElements n s1 loc1

/-- Value of `numEles` once a loop `while (numEles-->0)` has ended. -/
def numElesAfter (numEles : Int) : Int :=
  min numEles 0 - 1

/-- The search loop
`while (strcmp(testName,compName.c_str()) && !matLib.eof())` of `expandMat`:
the stream and the locals at loop exit; `none` when the fuel runs out. -/
def scanMat (compName : String) :
    Nat → TokStream → MatLocals → Option (Outcome (TokStream × MatLocals))
  | 0, _, _ => none
  | fuel + 1, s, loc =>
    if loc.testName ≠ compName ∧ s.eofbit = false then
      match skipMatElements loc.numEles.toNat s loc with
      | none => some Outcome.crash
      | some (s1, loc1) =>
        match readMatHeader s1 { loc1 with numEles := numElesAfter loc.numEles } with
        | none => some Outcome.crash
        | some (s2, loc2) => scanMat compName fuel s2 loc2
    else some (Outcome.ok (s, loc))

/-- The transient node `new Component(COMP_ELE, eleName, eleDens)` built by
`expandMat`; its volume fraction is the default argument `volFracDefault` of
the constructor declared in the missing header `Component.h`. -/
def transientElement (volFracDefault : ℚ) (eleName : String) (eleDens : ℚ) : Component :=
  ⟨COMP_ELE, eleDens, volFracDefault, eleName, none⟩

/-- The body of the loop `while (numEles-->0)` of the found branch of
`expandMat`, run `n` times, for a material node of (already scaled) density
`density` and volume fraction `volFraction`. -/
def expandMatElements (AVAGADRO volFracDefault : ℚ) (eleLib : EleLib)
    (density volFraction : ℚ) :
    Nat → TokStream → MatLocals → Mixture → List Root →
      Outcome (List Root) × TokStream × Mixture
  | 0, s, _, mix, rootList => (Outcome.ok rootList, s, mix)
  | n + 1, s, loc, mix, rootList =>
    match readMatElement s loc with
    | none => (Outcome.crash, s, mix)
    | some (s1, loc1) =>
      let eleDens := loc1.eleDens * (-density * volFraction / 100)
      let e := expandEle AVAGADRO eleLib mix
        (transientElement volFracDefault loc1.eleName eleDens)
      match e.outcome with
      | Outcome.ok elementRootList =>
        expandMatElements AVAGADRO volFracDefault eleLib density volFraction n s1
          { loc1 with eleDens := eleDens } e.mix (Root.merge rootList elementRootList)
      | Outcome.fatal code => (Outcome.fatal code, s1, e.mix)
      | Outcome.crash => (Outcome.crash, s1, e.mix)

/-- `Component::expandMat(mix)` called on the node `self`, with the material
library stream `matLib` as earlier calls left it and `uninit` the
indeterminate initial content of the local variables; `none` when the fuel
of the search loop runs out. -/
def expandMat (AVAGADRO volFracDefault : ℚ) (eleLib : EleLib) (uninit : MatLocals)
    (matLib : TokStream) (mix : Mixture) (self : Component) (fuel : Nat) :
    Option MatExpansion :=
  let s0 := matLib.seekg0
  match readMatHeader s0 uninit with
  | none => some ⟨Outcome.crash, self, mix, s0⟩
  | some (s1, loc1) =>
    match scanMat self.compName fuel s1 loc1 with
    | none => none
    | some (Outcome.ok (s2, loc2)) =>
      if s2.eofbit = false then
        let density := self.density * loc2.matDens
        let r := expandMatElements AVAGADRO volFracDefault eleLib density self.volFraction
          loc2.numEles.toNat s2 loc2 mix []
        some ⟨r.1, { self with density := density }, r.2.2, r.2.1⟩
      else some ⟨Outcome.fatal 311, self, mix, s2⟩
    | some (Outcome.fatal code) => some ⟨Outcome.fatal code, self, mix, s1⟩
    | some Outcome.crash => some ⟨Outcome.crash, self, mix, s1⟩

/-- One record of the material library: name, reference density and the
element triples (name, density, Z); its element count is the number of
triples. -/
structure MatRecord where
  name : String
  density : ℚ
  elements : List (String × ℚ × Int)
  deriving DecidableEq, Repr

/-- Tokens of one element triple. -/
def elementToks (e : String × ℚ × Int) : List Tok :=
  [Tok.name e.1, ⟨"", some e.2.1, none⟩, ⟨"", some e.2.2, some e.2.2⟩]

/-- Tokens of one record: `name density elementCount` and the triples. -/
def MatRecord.toks (r : MatRecord) : List Tok :=
  [Tok.name r.name, ⟨"", some r.density, none⟩,
    ⟨"", some (r.elements.length : Int), some (r.elements.length : Int)⟩] ++
    r.elements.flatMap elementToks

/-- Tokens of a material library given as a sequence of records. -/
def matLibToks (records : List MatRecord) : List Tok :=
  records.flatMap MatRecord.toks

/-- Uninitialised locals used in the examples. -/
def exampleLocals : MatLocals := ⟨"?", "?", 0, 0, 0, 0⟩

/-- Example material library: `steel` with one element, then the empty
material `void` as last record. -/
def exampleMatLib : List MatRecord :=
  [⟨"steel", 78 / 10, [("m:fe", 100, 26)]⟩, ⟨"void", 1, []⟩]

/-- Example element library for `exampleMatLib`. -/
def exampleMatEleLib : EleLib :=
  singleLib "m:fe" ⟨56, 26, 787 / 100, 2, [("54", 6), ("56", 94)]⟩

/-! ## Component::expand -/

/-- What an expansion pass works with besides the lists: the constant
`AVAGADRO`, the default volume fraction of the `Component` constructor, the
element library, the indeterminate initial locals of `expandMat` and the
fuel given to each search of the material library. -/
structure ExpandEnv where
  AVAGADRO : ℚ
  volFracDefault : ℚ
  eleLib : EleLib
  uninit : MatLocals
  matFuel : Nat

/-- State left behind by `expand`: how it ended, the heap, the mixture and
the material library stream. -/
structure Pass where
  outcome : Outcome (List Root)
  heap : Heap
  mix : Mixture
  matLib : TokStream
  deriving DecidableEq, Repr

/-- The loop `while (ptr->next != NULL)` of `expand` with its `switch` on
the type of the node; `none` when the fuel runs out. -/
def expandLoop (env : ExpandEnv) :
    Nat → Heap → Nat → Mixture → TokStream → List Root → Option Pass
  | 0, _, _, _, _, _ => none
  | fuel + 1, h, ptr, mix, matLib, rootList =>
    match h[ptr]? with
    | none => some ⟨Outcome.crash, h, mix, matLib⟩
    | some p =>
      match p.next with
      | none => some ⟨Outcome.ok rootList, h, mix, matLib⟩
      | some nxt =>
        match h[nxt]? with
        | none => some ⟨Outcome.crash, h, mix, matLib⟩
        | some c =>
          if c.type = COMP_MAT then
            match expandMat env.AVAGADRO env.volFracDefault env.eleLib env.uninit matLib mix c
                env.matFuel with
            | none => none
            | some r =>
              match r.outcome with
              | Outcome.ok compRootList =>
                expandLoop env fuel (h.set nxt r.comp) nxt r.mix r.matLib
                  (Root.merge rootList compRootList)
              | Outcome.fatal code => some ⟨Outcome.fatal code, h.set nxt r.comp, r.mix, r.matLib⟩
              | Outcome.crash => some ⟨Outcome.crash, h.set nxt r.comp, r.mix, r.matLib⟩
          else if c.type = COMP_ELE ∨ c.type = TARGET_ELE then
            let e := expandEle env.AVAGADRO env.eleLib mix c
            match e.outcome with
            | Outcome.ok compRootList =>
              expandLoop env fuel (h.set nxt e.comp) nxt e.mix matLib
                (Root.merge rootList compRootList)
            | Outcome.fatal code => some ⟨Outcome.fatal code, h.set nxt e.comp, e.mix, matLib⟩
            | Outcome.crash => some ⟨Outcome.crash, h.set nxt e.comp, e.mix, matLib⟩
          else if c.type = TARGET_ISO then
            expandLoop env fuel h nxt mix matLib
              (Root.merge rootList [⟨c.compName, c.density⟩])
          else expandLoop env fuel h nxt mix matLib rootList

/-- `Component::expand(mix)` called on the head at address `self`. -/
def expand (env : ExpandEnv) (h : Heap) (self : Nat) (mix : Mixture) (matLib : TokStream)
    (fuel : Nat) : Option Pass :=
  expandLoop env fuel h self mix matLib []

/-! ## Expansion as the specification words it -/

/-- The kinds of composition node of the data model. -/
inductive Kind where
  | head
  | material
  | element
  | isotope
  | similar
  | targetElement
  | targetIsotope
  | unknown
  deriving DecidableEq, Repr

/-- Kind denoted by a type code. -/
def kindOf (type : Int) : Kind :=
  if type = COMP_HEAD then Kind.head
  else if type = COMP_MAT then Kind.material
  else if type = COMP_ELE then Kind.element
  else if type = COMP_ISO then Kind.isotope
  else if type = COMP_SIM then Kind.similar
  else if type = TARGET_ELE then Kind.targetElement
  else if type = TARGET_ISO then Kind.targetIsotope
  else Kind.unknown

/-- Result of one node as the specification words it: a Material node gives
the result of `expandMat`, an Element or TargetElement node the result of
`expandEle`, a TargetIsotope node one entry with the node's name and its
density as it is, every other node no entry. -/
def nodeEntries (env : ExpandEnv) (node : Component) (mix : Mixture) (matLib : TokStream) :
    Option (Outcome (List Root) × Mixture × TokStream) :=
  match kindOf node.type with
  | Kind.material =>
    (expandMat env.AVAGADRO env.volFracDefault env.eleLib env.uninit matLib mix node
      env.matFuel).map fun r => (r.outcome, r.mix, r.matLib)
  | Kind.element =>
    some ((expandEle env.AVAGADRO env.eleLib mix node).outcome,
      (expandEle env.AVAGADRO env.eleLib mix node).mix, matLib)
  | Kind.targetElement =>
    some ((expandEle env.AVAGADRO env.eleLib mix node).outcome,
      (expandEle env.AVAGADRO env.eleLib mix node).mix, matLib)
  | Kind.targetIsotope => some (Outcome.ok [⟨node.compName, node.density⟩], mix, matLib)
  | _ => some (Outcome.ok [], mix, matLib)

/-- Expansion of the real nodes of a list as the specification words it:
the merge, in list order, of the results of the nodes; the first node that
does not return normally ends the pass. -/
def expandByKind (env : ExpandEnv) :
    List Component → Mixture → TokStream → Option (Outcome (List Root) × Mixture × TokStream)
  | [], mix, matLib => some (Outcome.ok [], mix, matLib)
  | node :: rest, mix, matLib =>
    match nodeEntries env node mix matLib with
    | none => none
    | some (Outcome.ok entries, mix1, matLib1) =>
      match expandByKind env rest mix1 matLib1 with
      | none => none
      | some (Outcome.ok more, mix2, matLib2) =>
        some (Outcome.ok (Root.merge entries more), mix2, matLib2)
      | some (Outcome.fatal code, mix2, matLib2) => some (Outcome.fatal code, mix2, matLib2)
      | some (Outcome.crash, mix2, matLib2) => some (Outcome.crash, mix2, matLib2)
    | some (Outcome.fatal code, mix1, matLib1) => some (Outcome.fatal code, mix1, matLib1)
    | some (Outcome.crash, mix1, matLib1) => some (Outcome.crash, mix1, matLib1)

/-- Expansion of the element triples of a matched material record as the
specification words it: for each triple, in record order, the expansion of a
transient Element node named after the triple with density
`-(elementDensity × D × volumeFraction / 100)`, all results merged; the first
expansion that does not return normally ends it. -/
def expandTransients (AVAGADRO volFracDefault : ℚ) (eleLib : EleLib) (D volumeFraction : ℚ) :
    List (String × ℚ × Int) → Mixture → Outcome (List Root) × Mixture
  | [], mix => (Outcome.ok [], mix)
  | t :: rest, mix =>
    let e := expandEle AVAGADRO eleLib mix
      ⟨COMP_ELE, -(t.2.1 * D * volumeFraction / 100), volFracDefault, t.1, none⟩
    match e.outcome with
    | Outcome.ok entries =>
      match expandTransients AVAGADRO volFracDefault eleLib D volumeFraction rest e.mix with
      | (Outcome.ok more, mix2) => (Outcome.ok (Root.merge entries more), mix2)
      | (Outcome.fatal code, mix2) => (Outcome.fatal code, mix2)
      | (Outcome.crash, mix2) => (Outcome.crash, mix2)
    | Outcome.fatal code => (Outcome.fatal code, e.mix)
    | Outcome.crash => (Outcome.crash, e.mix)

/-- What a pass shows apart from the heap. -/
def Pass.view (r : Pass) : Outcome (List Root) × Mixture × TokStream :=
  (r.outcome, r.mix, r.matLib)

/-- Example environment with the element `m:fe`. -/
def exampleEnv : ExpandEnv :=
  ⟨1, 1, exampleMatEleLib, exampleLocals, 10⟩

/-- Example heap: a list `0 → 1 → 2 → 3 → 4` with two Element nodes of the
same name, an Isotope node and a TargetIsotope node. -/
def exampleMixtureHeap : Heap :=
  [⟨COMP_HEAD, 0, 1, "", some 1⟩, ⟨COMP_ELE, 1, 1 / 2, "m:fe", some 2⟩,
   ⟨COMP_ISO, 1, 1, "h-3", some 3⟩, ⟨COMP_ELE, 2, 1 / 4, "m:fe", some 4⟩,
   ⟨TARGET_ISO, 5, 1 / 8, "co-60", none⟩]

/-- The nodes stored at the addresses `addrs`, in this order. -/
def nodesAt (h : Heap) (addrs : List Nat) : List Component :=
  addrs.filterMap fun a => h[a]?

/-- The entries `acc` put in front of the entries of a normal return. -/
def prependRoots (acc : List Root) : Outcome (List Root) → Outcome (List Root)
  | Outcome.ok roots => Outcome.ok (Root.merge acc roots)
  | Outcome.fatal code => Outcome.fatal code
  | Outcome.crash => Outcome.crash

/-- What an Element node adds to the total density of its mixture: its
resolved density times its volume fraction. -/
def elementContribution (env : ExpandEnv) (node : Component) : ℚ :=
  (expandEle env.AVAGADRO env.eleLib ⟨0, 0⟩ node).comp.density * node.volFraction

/-- Example material library stream, whitespace following the last record. -/
def exampleMatStream : TokStream :=
  TokStream.ofFile (matLibToks exampleMatLib) true

/-- Example heap: the list `0 → 1 → 2` of two Element nodes. -/
def exampleElementsHeap : Heap :=
  [⟨COMP_HEAD, 0, 1, "", some 1⟩, ⟨COMP_ELE, 1, 1 / 2, "m:fe", some 2⟩,
   ⟨COMP_ELE, -3, 1 / 4, "m:fe", none⟩]

/-- Example heap: the list `0 → 2 → 1` of the same two Element nodes in the
other order. -/
def exampleElementsHeapSwapped : Heap :=
  [⟨COMP_HEAD, 0, 1, "", some 2⟩, ⟨COMP_ELE, 1, 1 / 2, "m:fe", none⟩,
   ⟨COMP_ELE, -3, 1 / 4, "m:fe", some 1⟩]

/-- The stream is in step with the library: the tokens `rest` are those not
yet extracted, whitespace follows the last token exactly when `T` holds,
`failbit` is clear, and `eofbit` is set only if nothing at all is left. -/
def Synced (s : TokStream) (rest : List Tok) (T : Bool) : Prop :=
  s.rest = rest ∧ s.trailing = T ∧ s.failbit = false ∧
    (s.eofbit = true → rest = [] ∧ T = false)

/-- What a call of `expandMat` shows, the total density as the increment
over the total `before` the call. -/
def MatExpansion.view (before : Mixture) (r : MatExpansion) :
    Outcome (List Root) × ℚ × ℚ × TokStream :=
  (r.outcome, r.comp.density, r.mix.totalDensity - before.totalDensity, r.matLib)

/-- Example material library stream as an earlier lookup may leave it:
every token extracted and `eofbit` set. -/
def exampleMatStreamAtEnd : TokStream :=
  ⟨matLibToks exampleMatLib, [], false, true, false⟩

/-- Example material library stream just opened, nothing following the last
record. -/
def exampleMatStreamFresh : TokStream :=
  TokStream.ofFile (matLibToks exampleMatLib) false

/-- Other values of the uninitialised locals: the name buffer happens to
hold the name searched for. -/
def exampleLocalsOther : MatLocals := ⟨"steel", "m:fe", 3, 7, 2, 1⟩

/-- What a call of `expandMat` shows apart from the stream: the `view`
without its last component. -/
def MatExpansion.summary (before : Mixture) (r : MatExpansion) :
    Outcome (List Root) × ℚ × ℚ :=
  (r.outcome, r.comp.density, r.mix.totalDensity - before.totalDensity)

/-! ## The transpose loops with their accesses recorded -/

/-- One assignment of the transpose loop,
`MatrixStorage[volNum*numGrps+gNum] = fluxIn[gNum*ninti+(volNum+skip)]`, on
the pair of the storage and the record of the accesses made so far: the pair
(index read in `fluxIn`, index written in `MatrixStorage`) is appended to
the record. -/
def transposeValueLogged (fluxIn : List ℚ) (ninti skip numGrps gNum volNum : Int)
    (st : List ℚ × List (Int × Int)) : Outcome (List ℚ × List (Int × Int)) :=
  match getI fluxIn (wrapInt (gNum * ninti + (volNum + skip))) with
  | none => Outcome.crash
  | some v =>
    match setI st.1 (wrapInt (volNum * numGrps + gNum)) v with
    | some m =>
      Outcome.ok (m, st.2 ++ [(wrapInt (gNum * ninti + (volNum + skip)),
        wrapInt (volNum * numGrps + gNum))])
    | none => Outcome.crash

/-- The transpose loops of `readRTFLUX` with their accesses recorded in
execution order. -/
def transposeDataLogged (fluxIn : List ℚ) (ninti skip numVols numGrps : Int)
    (MatrixStorage : List ℚ) : Outcome (List ℚ × List (Int × Int)) :=
  forLoop numGrps
    (fun gNum => forLoop numVols (transposeValueLogged fluxIn ninti skip numGrps gNum))
    (MatrixStorage, [])

/-! ## Lemmas on loops and arrays -/

theorem forLoopFrom_inv {σ : Type} (body : Int → σ → Outcome σ) (I : Int → σ → Prop) :
    ∀ (n : Nat) (i : Int) (s : σ), I i s →
      (∀ (j : Int) (t : σ), i ≤ j → j < i + n → I j t →
        ∃ t2, body j t = Outcome.ok t2 ∧ I (j + 1) t2) →
      ∃ s2, forLoopFrom body n i s = Outcome.ok s2 ∧ I (i + n) s2
  | 0, i, s, h0, _ => ⟨s, rfl, by simpa using h0⟩
  | n + 1, i, s, h0, hstep => by
    obtain ⟨t2, hb, hI⟩ := hstep i s (le_refl i) (by push_cast; omega) h0
    obtain ⟨s2, hrun, hfin⟩ := forLoopFrom_inv body I n (i + 1) t2 hI
      (fun j t hj1 hj2 hIj => hstep j t (by omega) (by push_cast; omega) hIj)
    refine ⟨s2, ?_, ?_⟩
    · simp only [forLoopFrom, hb, Outcome.bind]
      exact hrun
    · have e : i + ((n + 1 : Nat) : Int) = i + 1 + (n : Int) := by push_cast; ring
      rw [e]
      exact hfin

theorem forLoop_inv {σ : Type} (n : Int) (body : Int → σ → Outcome σ) (I : Int → σ → Prop)
    (s : σ) (h0 : I 0 s)
    (hstep : ∀ (j : Int) (t : σ), 0 ≤ j → j < n → I j t →
      ∃ t2, body j t = Outcome.ok t2 ∧ I (j + 1) t2) :
    ∃ s2, forLoop n body s = Outcome.ok s2 ∧ I (max n 0) s2 := by
  obtain ⟨s2, hrun, hfin⟩ := forLoopFrom_inv body I n.toNat 0 s h0
    (fun j t hj1 hj2 hIj => hstep j t hj1 (by omega) hIj)
  refine ⟨s2, hrun, ?_⟩
  have e : (0 : Int) + (n.toNat : Int) = max n 0 := by
    rw [Int.toNat_eq_max]
    simp
  rw [← e]
  exact hfin

theorem forLoopFrom_preserves {σ : Type} (body : Int → σ → Outcome σ) (P : σ → Prop)
    (hbody : ∀ (j : Int) (t t2 : σ), P t → body j t = Outcome.ok t2 → P t2) :
    ∀ (n : Nat) (i : Int) (s s2 : σ), P s → forLoopFrom body n i s = Outcome.ok s2 → P s2
  | 0, _, s, s2, hP, hrun => by
    simp only [forLoopFrom] at hrun
    cases hrun
    exact hP
  | n + 1, i, s, s2, hP, hrun => by
    simp only [forLoopFrom] at hrun
    cases hb : body i s with
    | ok t =>
      rw [hb] at hrun
      exact forLoopFrom_preserves body P hbody n (i + 1) t s2 (hbody i s t hP hb) hrun
    | fatal code =>
      rw [hb] at hrun
      simp [Outcome.bind] at hrun
    | crash =>
      rw [hb] at hrun
      simp [Outcome.bind] at hrun

theorem forLoopFrom_not_fatal {σ : Type} (body : Int → σ → Outcome σ)
    (hbody : ∀ (j : Int) (t : σ) (code : Nat), body j t ≠ Outcome.fatal code) :
    ∀ (n : Nat) (i : Int) (s : σ) (code : Nat), forLoopFrom body n i s ≠ Outcome.fatal code
  | 0, _, s, code => by simp [forLoopFrom]
  | n + 1, i, s, code => by
    simp only [forLoopFrom]
    cases hb : body i s with
    | ok t => exact forLoopFrom_not_fatal body hbody n (i + 1) t code
    | fatal c => exact absurd hb (hbody i s c)
    | crash => simp [Outcome.bind]

theorem getI_lt {l : List ℚ} {i : Int} (h0 : 0 ≤ i) (h1 : i < l.length) :
    ∃ v, getI l i = some v := by
  have hlt : i.toNat < l.length := by omega
  exact ⟨l[i.toNat], by simp [getI, h0, List.getElem?_eq_getElem hlt]⟩

theorem setI_lt {l : List ℚ} {i : Int} (v : ℚ) (h0 : 0 ≤ i) (h1 : i < l.length) :
    setI l i v = some (l.set i.toNat v) := by
  simp [setI, h0, h1]

theorem setI_length {l l2 : List ℚ} {i : Int} {v : ℚ} (h : setI l i v = some l2) :
    l2.length = l.length := by
  unfold setI at h
  split at h
  · cases h
    simp
  · cases h

theorem getI_setI {l l2 : List ℚ} {i : Int} {v : ℚ} (h : setI l i v = some l2) (j : Int) :
    getI l2 j = if j = i then some v else getI l j := by
  unfold setI at h
  split at h
  · rename_i hb
    cases h
    by_cases hj : 0 ≤ j
    · by_cases hji : j = i
      · subst hji
        simp only [getI, hj, if_true]
        exact List.getElem?_set_self (by omega)
      · simp only [getI, hj, if_true, hji, if_false]
        exact List.getElem?_set_ne (by omega)
    · have hji : j ≠ i := by omega
      simp [getI, hj, hji]
  · cases h

theorem index_inj (n a b c d : Int) (hc : 0 ≤ c) (hcn : c < n) (hd : 0 ≤ d) (hdn : d < n)
    (h : a * n + c = b * n + d) : a = b ∧ c = d := by
  have hab : a = b := by
    rcases lt_trichotomy a b with hlt | heq | hgt
    · have := mul_nonneg (show (0 : Int) ≤ b - a - 1 by omega) (show (0 : Int) ≤ n by omega)
      nlinarith
    · exact heq
    · have := mul_nonneg (show (0 : Int) ≤ a - b - 1 by omega) (show (0 : Int) ≤ n by omega)
      nlinarith
  subst hab
  exact ⟨rfl, by omega⟩

theorem index_bound (n m a c : Int) (ha : 0 ≤ a) (ham : a < m) (hc : 0 ≤ c) (hcn : c < n) :
    0 ≤ a * n + c ∧ a * n + c < m * n := by
  have h1 := mul_nonneg ha (show (0 : Int) ≤ n by omega)
  have h2 := mul_nonneg (show (0 : Int) ≤ m - 1 - a by omega) (show (0 : Int) ≤ n by omega)
  constructor
  · omega
  · nlinarith

/-! ## Theorems: expandEle -/

/-- C1 (as written, refuted): an Element node with density `-2` against a
library reference density `5` resolves to `2`, not to `10`. -/
theorem expandEle_sign_counterexample :
    (expandEle 1 (singleLib "x:fe" ⟨56, 26, 5, 0, []⟩) ⟨0, 0⟩
        ⟨COMP_ELE, -2, 1, "x:fe", none⟩).comp.density = 2 ∧
    (expandEle 1 (singleLib "x:fe" ⟨56, 26, 5, 0, []⟩) ⟨0, 0⟩
        ⟨COMP_ELE, -2, 1, "x:fe", none⟩).comp.density ≠ |(-2 : ℚ)| * 5 := by
  refine ⟨?_, ?_⟩
  · simp [expandEle, singleLib, resolveDensity]
  · simp [expandEle, singleLib, resolveDensity]
    norm_num

/-- C1 (amended): for every node found in the element library, expandEle
leaves in the node the resolved density, which is `density × reference
density` when the node's density is non-negative and `|density|` when it is
negative; this is also the density used for the mixture's total. -/
theorem expandEle_sign_convention (AVAGADRO : ℚ) (eleLib : EleLib) (mix : Mixture)
    (self : Component) (ele : EleLibEntry) (hfound : eleLib self.compName = some ele) :
    (0 ≤ self.density →
      (expandEle AVAGADRO eleLib mix self).comp.density = self.density * ele.density) ∧
    (self.density < 0 →
      (expandEle AVAGADRO eleLib mix self).comp.density = |self.density|) ∧
    (expandEle AVAGADRO eleLib mix self).mix.totalDensity =
      mix.totalDensity +
        (expandEle AVAGADRO eleLib mix self).comp.density * self.volFraction := by
  refine ⟨?_, ?_, ?_⟩
  · intro h
    simp [expandEle, hfound, resolveDensity, h]
  · intro h
    simp [expandEle, hfound, resolveDensity, not_le.mpr h, abs_of_neg h]
  · simp [expandEle, hfound, Mixture.incrTotalDensity]

/-- Witness for C1 (amended): density `3` against reference density `5`. -/
theorem expandEle_sign_convention_witness :
    (singleLib "x:fe" ⟨56, 26, 5, 0, []⟩) "x:fe" = some ⟨56, 26, 5, 0, []⟩ ∧
    (expandEle 1 (singleLib "x:fe" ⟨56, 26, 5, 0, []⟩) ⟨0, 0⟩
        ⟨COMP_ELE, 3, 1, "x:fe", none⟩).comp.density = 3 * 5 :=
  ⟨by simp [singleLib],
   (expandEle_sign_convention 1 (singleLib "x:fe" ⟨56, 26, 5, 0, []⟩) ⟨0, 0⟩
      ⟨COMP_ELE, 3, 1, "x:fe", none⟩ ⟨56, 26, 5, 0, []⟩ (by simp [singleLib])).1
      (by norm_num)⟩

/-! ## Lemmas on linked chains -/

theorem chain_congr {h h2 : Heap} : ∀ (as : List Nat) (p q : Option Nat),
    (∀ a ∈ as, h2[a]? = h[a]?) → chain h p as q → chain h2 p as q
  | [], _, _, _, hc => hc
  | a :: as, p, q, hsame, hc => by
    obtain ⟨hp, c, hca, hrest⟩ := hc
    refine ⟨hp, c, ?_, chain_congr as _ _ (fun b hb => hsame b (List.mem_cons_of_mem _ hb)) hrest⟩
    rw [hsame a (List.mem_cons_self _ _)]
    exact hca

theorem chain_append {h : Heap} : ∀ (as bs : List Nat) (p q : Option Nat),
    chain h p (as ++ bs) q ↔ ∃ m, chain h p as m ∧ chain h m bs q
  | [], bs, p, q => by
    constructor
    · intro hc
      exact ⟨p, rfl, hc⟩
    · rintro ⟨m, hm, hc⟩
      have hpm : p = m := hm
      rw [hpm]
      exact hc
  | a :: as, bs, p, q => by
    constructor
    · rintro ⟨hp, c, hca, hrest⟩
      obtain ⟨m, h1, h2⟩ := (chain_append as bs c.next q).mp hrest
      exact ⟨m, ⟨hp, c, hca, h1⟩, h2⟩
    · rintro ⟨m, ⟨hp, c, hca, h1⟩, h2⟩
      exact ⟨hp, c, hca, (chain_append as bs c.next q).mpr ⟨m, h1, h2⟩⟩

theorem chain_lt {h : Heap} : ∀ (as : List Nat) (p q : Option Nat),
    chain h p as q → ∀ a ∈ as, a < h.length
  | [], _, _, _, a, ha => by simp at ha
  | b :: as, p, q, hc, a, ha => by
    obtain ⟨_, c, hcb, hrest⟩ := hc
    rcases List.mem_cons.mp ha with rfl | hmem
    · by_contra hlt
      rw [List.getElem?_eq_none (not_lt.mp hlt)] at hcb
      exact Option.noConfusion hcb
    · exact chain_lt as _ _ hrest a hmem

theorem chain_det {h : Heap} : ∀ (as bs : List Nat) (p : Option Nat),
    chain h p as none → chain h p bs none → as = bs
  | [], [], _, _, _ => rfl
  | [], b :: bs, p, h1, h2 => by
    have e1 : p = none := h1
    have e2 : p = some b := h2.1
    rw [e1] at e2
    exact Option.noConfusion e2
  | a :: as, [], p, h1, h2 => by
    have e1 : p = none := h2
    have e2 : p = some a := h1.1
    rw [e1] at e2
    exact Option.noConfusion e2
  | a :: as, b :: bs, p, h1, h2 => by
    obtain ⟨hp1, c1, hc1, hr1⟩ := h1
    obtain ⟨hp2, c2, hc2, hr2⟩ := h2
    have hab : a = b := by
      rw [hp1] at hp2
      exact Option.some.inj hp2
    subst hab
    rw [hc1] at hc2
    have hcc : c1 = c2 := Option.some.inj hc2
    subst hcc
    rw [chain_det as bs c1.next hr1 hr2]

theorem chain_nodup {h : Heap} : ∀ (as : List Nat) (p : Option Nat),
    chain h p as none → as.Nodup
  | [], _, _ => List.nodup_nil
  | a :: as, p, hc => by
    obtain ⟨_, c, hca, hrest⟩ := hc
    refine List.nodup_cons.mpr ⟨?_, chain_nodup as _ hrest⟩
    intro hmem
    obtain ⟨l1, l2, hsplit⟩ := List.append_of_mem hmem
    rw [hsplit] at hrest
    obtain ⟨m, _, hm2⟩ := (chain_append l1 (a :: l2) c.next none).mp hrest
    obtain ⟨_, c2, hc2, hr2⟩ := hm2
    rw [hca] at hc2
    have hcc : c = c2 := Option.some.inj hc2
    subst hcc
    have hfull : chain h c.next (l1 ++ a :: l2) none :=
      (chain_append l1 (a :: l2) c.next none).mpr ⟨m, by assumption, ⟨by assumption, c, hca, hr2⟩⟩
    have hlen := congrArg List.length (chain_det _ _ _ hfull hr2)
    simp at hlen
    omega

theorem getElem?_some_lt {h : Heap} {a : Nat} {c : Component} (hc : h[a]? = some c) :
    a < h.length := by
  by_contra hlt
  rw [List.getElem?_eq_none (not_lt.mp hlt)] at hc
  exact Option.noConfusion hc

/-! ## Lemmas on replaceSim -/

theorem replaceSimLoop_spec (scale : ℚ) (saveNext : Option Nat) :
    ∀ (rest : List Nat) (h : Heap) (ptr nc fuel : Nat) (P : Component),
      h[ptr]? = some P → chain h (some nc) (nc :: rest) none →
      (∀ a ∈ nc :: rest, a ≠ ptr) → rest.length < fuel →
      ∃ h3 hf ret nx, replaceSimLoop scale fuel h ptr nc = some (h3, ret) ∧
        h3.update ret (setNext saveNext) = some hf ∧
        (ptr :: List.range' h.length rest.length).getLast? = some ret ∧
        hf.length = h.length + rest.length ∧
        (∀ a, a < h.length → a ≠ ptr → hf[a]? = h[a]?) ∧
        chain hf (some ptr) (ptr :: List.range' h.length rest.length) saveNext ∧
        hf[ptr]? = some (setNext nx P) ∧
        (∀ i b, rest[i]? = some b →
          ∃ c n, hf[h.length + i]? = some c ∧ h[b]? = some n ∧ scaledCopy scale c n) := by
  intro rest
  induction rest with
  | nil =>
    intro h ptr nc fuel P hP hc _ hfuel
    obtain ⟨_, c, hcn, hnext⟩ := hc
    have hnone : c.next = none := hnext
    have hlt : ptr < h.length := getElem?_some_lt hP
    cases fuel with
    | zero => simp at hfuel
    | succ f =>
      refine ⟨h, h.set ptr (setNext saveNext P), ptr, saveNext, ?_, ?_, ?_, ?_, ?_, ?_, ?_, ?_⟩
      · simp [replaceSimLoop, hcn, hnone]
      · simp [Heap.update, hP]
      · simp
      · simp
      · intro a _ hap
        exact List.getElem?_set_ne (Ne.symm hap)
      · refine ⟨rfl, setNext saveNext P, ?_, rfl⟩
        exact List.getElem?_set_self hlt
      · exact List.getElem?_set_self hlt
      · intro i b hib
        simp at hib
  | cons n2 rest ih =>
    intro h ptr nc fuel P hP hc hne hfuel
    obtain ⟨_, c, hcn, hnext⟩ := hc
    obtain ⟨hcnext, c2, hc2, hrest⟩ := hnext
    have hlt : ptr < h.length := getElem?_some_lt hP
    have hn2lt : n2 < h.length := getElem?_some_lt hc2
    cases fuel with
    | zero => simp at hfuel
    | succ f =>
      -- the heap after one iteration
      let h1 : Heap := (h ++ [c2.copy]).set ptr (setNext (some h.length) P)
      let h2 : Heap := h1.set h.length (scaleVolFraction scale c2.copy)
      have hstep1 : (h ++ [c2.copy]).update ptr (setNext (some h.length)) = some h1 := by
        simp [Heap.update, List.getElem?_append_left hlt, hP, h1]
      have hh1a : h1[h.length]? = some c2.copy := by
        simp only [h1]
        rw [List.getElem?_set_ne (Nat.ne_of_lt hlt)]
        simp
      have hstep2 : h1.update h.length (scaleVolFraction scale) = some h2 := by
        simp [Heap.update, hh1a, h2]
      have hlen1 : h1.length = h.length + 1 := by simp [h1]
      have hlen2 : h2.length = h.length + 1 := by simp [h2, hlen1]
      have hframe2 : ∀ a, a < h.length → a ≠ ptr → h2[a]? = h[a]? := by
        intro a ha hap
        simp only [h2, h1]
        rw [List.getElem?_set_ne (Nat.ne_of_gt ha), List.getElem?_set_ne (Ne.symm hap),
          List.getElem?_append_left ha]
      have hh2a : h2[h.length]? = some (scaleVolFraction scale c2.copy) := by
        simp only [h2]
        exact List.getElem?_set_self (by rw [hlen1]; omega)
      have hh2p : h2[ptr]? = some (setNext (some h.length) P) := by
        simp only [h2, h1]
        rw [List.getElem?_set_ne (Nat.ne_of_gt hlt)]
        exact List.getElem?_set_self (by simp; omega)
      have hrestlt : ∀ b ∈ n2 :: rest, b < h.length :=
        chain_lt (n2 :: rest) c.next none ⟨hcnext, c2, hc2, hrest⟩
      have hsame : ∀ b ∈ n2 :: rest, h2[b]? = h[b]? := fun b hb =>
        hframe2 b (hrestlt b hb) (hne b (List.mem_cons_of_mem _ hb))
      have hchain2 : chain h2 (some n2) (n2 :: rest) none :=
        chain_congr (n2 :: rest) _ _ hsame ⟨rfl, c2, hc2, hrest⟩
      have hne2 : ∀ b ∈ n2 :: rest, b ≠ h.length := fun b hb =>
        Nat.ne_of_lt (hrestlt b hb)
      obtain ⟨h3, hf, ret, nx, hloop, hfin, hlast, hlenf, hframef, hchainf, hfa, hcopies⟩ :=
        ih h2 h.length n2 f (scaleVolFraction scale c2.copy) hh2a hchain2 hne2
          (by simp at hfuel; omega)
      rw [hlen2] at hlast hlenf hchainf hcopies
      have hfp : hf[ptr]? = some (setNext (some h.length) P) := by
        rw [hframef ptr (by rw [hlen2]; omega) (Nat.ne_of_lt hlt), hh2p]
      refine ⟨h3, hf, ret, some h.length, ?_, hfin, ?_, ?_, ?_, ?_, hfp, ?_⟩
      · simp only [replaceSimLoop, hcn, hcnext, hc2, hstep1, hstep2]
        exact hloop
      · simp only [List.length_cons, List.range'_succ]
        rw [List.getLast?_cons_cons]
        exact hlast
      · simp only [List.length_cons]
        omega
      · intro a ha hap
        rw [hframef a (by rw [hlen2]; omega) (Nat.ne_of_lt ha), hframe2 a ha hap]
      · simp only [List.length_cons, List.range'_succ]
        exact ⟨rfl, _, hfp, hchainf⟩
      · intro i b hib
        cases i with
        | zero =>
          simp at hib
          subst hib
          refine ⟨_, c2, hfa, hc2, ?_⟩
          simp [scaledCopy, setNext, scaleVolFraction, Component.copy, mul_comm]
        | succ j =>
          simp at hib
          obtain ⟨c3, n3, h1c, h2n, hsc⟩ := hcopies j b hib
          refine ⟨c3, n3, ?_, ?_, hsc⟩
          · rw [← h1c]
            congr 1
            omega
          · rw [← hsame b (List.mem_cons_of_mem _ (List.getElem?_mem hib))]
            exact h2n

theorem chain_getLast {h : Heap} : ∀ (as : List Nat) (p q : Option Nat) (r : Nat),
    chain h p as q → as.getLast? = some r → ∃ c, h[r]? = some c ∧ c.next = q
  | [], _, _, _, _, hr => by simp at hr
  | [a], _, _, r, hc, hr => by
    obtain ⟨_, c, hca, hq⟩ := hc
    simp at hr
    subst hr
    exact ⟨c, hca, hq⟩
  | a :: b :: as, _, _, r, hc, hr => by
    obtain ⟨_, c, _, hrest⟩ := hc
    rw [List.getLast?_cons_cons] at hr
    exact chain_getLast (b :: as) _ _ r hrest hr

theorem replaceSim_spec (h : Heap) (x nHead n1 : Nat) (rest : List Nat) (X hd : Component)
    (fuel : Nat) (hX : h[x]? = some X) (hhd : h[nHead]? = some hd)
    (hN : chain h hd.next (n1 :: rest) none) (hdisj : x ∉ n1 :: rest)
    (hfuel : rest.length < fuel) :
    ∃ hf ret N1, replaceSim h x nHead fuel = some (hf, ret) ∧
      (x :: List.range' h.length rest.length).getLast? = some ret ∧
      hf.length = h.length + rest.length ∧
      (∀ a, a < h.length → a ≠ x → hf[a]? = h[a]?) ∧
      chain hf (some x) (x :: List.range' h.length rest.length) X.next ∧
      h[n1]? = some N1 ∧
      (∃ c, hf[x]? = some c ∧ scaledCopy X.volFraction c N1) ∧
      (∀ i b, rest[i]? = some b →
        ∃ c n, hf[h.length + i]? = some c ∧ h[b]? = some n ∧
          scaledCopy X.volFraction c n) := by
  obtain ⟨hnext, N1, hN1, hrest⟩ := hN
  have hxlt : x < h.length := getElem?_some_lt hX
  have hxn1 : x ≠ n1 := fun e => hdisj (e ▸ List.mem_cons_self _ _)
  have hne : ∀ a ∈ n1 :: rest, a ≠ x := fun a ha e => hdisj (e ▸ ha)
  let P : Component := scaleVolFraction X.volFraction (X.assign N1)
  let hb : Heap := h.set x P
  have hassign : assignAt h x n1 = some (h.set x (X.assign N1)) := by
    simp [assignAt, hxn1, hN1, Heap.update, hX]
  have hscale : Heap.update (h.set x (X.assign N1)) x (scaleVolFraction X.volFraction) =
      some hb := by
    simp [Heap.update, List.getElem?_set_self hxlt, hb, P]
  have hbP : hb[x]? = some P := List.getElem?_set_self hxlt
  have hblen : hb.length = h.length := by simp [hb]
  have hbframe : ∀ a, a ≠ x → hb[a]? = h[a]? := fun a ha =>
    List.getElem?_set_ne (Ne.symm ha)
  have hbchain : chain hb (some n1) (n1 :: rest) none :=
    chain_congr (n1 :: rest) _ _ (fun a ha => hbframe a (hne a ha)) ⟨rfl, N1, hN1, hrest⟩
  obtain ⟨h3, hf, ret, nx, hloop, hfin, hlast, hlenf, hframef, hchainf, hfx, hcopies⟩ :=
    replaceSimLoop_spec X.volFraction X.next rest hb x n1 fuel P hbP hbchain hne hfuel
  rw [hblen] at hlast hlenf hchainf hcopies hframef
  refine ⟨hf, ret, N1, ?_, hlast, hlenf, ?_, hchainf, hN1, ⟨_, hfx, ?_⟩, ?_⟩
  · simp only [replaceSim, hX, hhd, hnext, hassign, hscale, hloop, hfin]
  · intro a ha hax
    rw [hframef a ha hax, hbframe a hax]
  · simp [scaledCopy, setNext, P, scaleVolFraction, Component.assign, mul_comm]
  · intro i b hib
    obtain ⟨c, n, hc, hn, hsc⟩ := hcopies i b hib
    refine ⟨c, n, hc, ?_, hsc⟩
    rw [← hbframe b (hne b (List.mem_cons_of_mem _ (List.getElem?_mem hib)))]
    exact hn

/-! ## Theorems: replaceSim -/

/-- C2: replaceSim on a node `x` (fraction `f`, successor `X.next`) of the
list `pre ++ x :: post`, with a donor list of `k ≥ 1` real nodes `ns` that does
not contain `x`, returns (given fuel `k`) a heap in which the list is
`pre ++ (x :: news) ++ post` with `k - 1` freshly allocated nodes `news`; the
`i`-th spliced node has volume fraction `f ×` that of the `i`-th donor node,
the successor of the last spliced node is the old successor of `x`, the nodes
of `pre` and `post` are untouched, and the returned pointer is the last
spliced node. -/
theorem replaceSim_preserves_count_and_scales (h : Heap) (m : Option Nat)
    (x nHead : Nat) (pre post ns : List Nat) (X hd : Component) (fuel : Nat)
    (hM : chain h m (pre ++ x :: post) none) (hX : h[x]? = some X)
    (hhd : h[nHead]? = some hd) (hN : chain h hd.next ns none)
    (hk : 1 ≤ ns.length) (hdisj : x ∉ ns) (hfuel : ns.length ≤ fuel) :
    ∃ hf ret news, replaceSim h x nHead fuel = some (hf, ret) ∧
      (x :: news).length = ns.length ∧
      (∀ a ∈ news, h.length ≤ a) ∧
      chain hf m (pre ++ (x :: news) ++ post) none ∧
      (pre ++ (x :: news) ++ post).length = (pre ++ x :: post).length + (ns.length - 1) ∧
      (∀ (i a b : Nat), (x :: news)[i]? = some a → ns[i]? = some b →
        ∃ (c n : Component), hf[a]? = some c ∧ h[b]? = some n ∧
          c.volFraction = X.volFraction * n.volFraction) ∧
      (x :: news).getLast? = some ret ∧
      (∃ c, hf[ret]? = some c ∧ c.next = X.next) ∧
      (∀ a ∈ pre ++ post, hf[a]? = h[a]?) := by
  cases ns with
  | nil => simp at hk
  | cons n1 rest =>
    obtain ⟨hf, ret, N1, hrun, hlast, _, hframe, hchain, hN1, ⟨c0, hc0, hsc0⟩, hcopies⟩ :=
      replaceSim_spec h x nHead n1 rest X hd fuel hX hhd hN hdisj
        (by simp at hfuel; omega)
    have hnodup := chain_nodup _ _ hM
    have hlt := chain_lt _ _ _ hM
    obtain ⟨mid, hpre, hxpost⟩ := (chain_append pre (x :: post) m none).mp hM
    obtain ⟨hmid, X2, hX2, hpost⟩ := hxpost
    rw [hX] at hX2
    have hXX : X = X2 := Option.some.inj hX2
    subst hXX
    have hxpre : ∀ a ∈ pre, a ≠ x := by
      intro a ha e
      subst e
      have := (List.nodup_append.mp hnodup).2.2
      exact this ha (List.mem_cons_self _ _)
    have hxpost2 : ∀ a ∈ post, a ≠ x := by
      intro a ha e
      subst e
      exact (List.nodup_cons.mp (List.nodup_append.mp hnodup).2.1).1 ha
    have hsame : ∀ a ∈ pre ++ post, hf[a]? = h[a]? := by
      intro a ha
      rcases List.mem_append.mp ha with hp | hp
      · exact hframe a (hlt a (List.mem_append_left _ hp)) (hxpre a hp)
      · exact hframe a (hlt a (List.mem_append_right _ (List.mem_cons_of_mem _ hp)))
          (hxpost2 a hp)
    refine ⟨hf, ret, List.range' h.length rest.length, hrun, by simp, ?_, ?_, ?_, ?_, hlast,
      chain_getLast _ _ _ ret hchain hlast, hsame⟩
    · intro a ha
      exact (List.mem_range'_1.mp ha).1
    · rw [List.append_assoc]
      refine (chain_append pre _ m none).mpr ⟨mid, ?_, ?_⟩
      · exact chain_congr pre _ _ (fun a ha => hsame a (List.mem_append_left _ ha)) hpre
      · rw [hmid]
        refine (chain_append _ post (some x) none).mpr ⟨X.next, hchain, ?_⟩
        exact chain_congr post _ _ (fun a ha => hsame a (List.mem_append_right _ ha)) hpost
    · simp
      omega
    · intro i a b hia hib
      cases i with
      | zero =>
        simp at hia hib
        subst hia
        subst hib
        exact ⟨c0, N1, hc0, hN1, hsc0.2.2.2⟩
      | succ j =>
        simp at hia hib
        have hj : j < rest.length := (List.getElem?_eq_some.mp hib).1
        rw [List.getElem?_range' _ _ hj] at hia
        simp at hia
        subst hia
        obtain ⟨c, n, hc, hn, hsc⟩ := hcopies j b hib
        exact ⟨c, n, hc, hn, hsc.2.2.2⟩

/-- Witness for C2: the Similar node at address `1` of the example heap is
replaced by the two real nodes of the donor list headed at address `3`. -/
theorem replaceSim_preserves_count_and_scales_witness :
    ∃ hf ret news, replaceSim exampleHeap 1 3 2 = some (hf, ret) ∧
      (1 :: news).length = 2 ∧
      chain hf (some 0) ([0] ++ (1 :: news) ++ [2]) none ∧
      (1 :: news).getLast? = some ret := by
  obtain ⟨hf, ret, news, h1, h2, _, h4, _, _, h7, _⟩ :=
    replaceSim_preserves_count_and_scales exampleHeap (some 0) 1 3 [0] [2] [4, 5]
      ⟨COMP_SIM, 0, 1/2, "other", some 2⟩ ⟨COMP_HEAD, 0, 1, "", some 4⟩ 2
      (by simp [chain, exampleHeap]) (by simp [exampleHeap]) (by simp [exampleHeap])
      (by simp [chain, exampleHeap]) (by simp) (by simp) (by simp)
  exact ⟨hf, ret, news, h1, h2, h4, h7⟩

/-! ## Theorems: Flux::find -/

theorem findFrom_spec (openable : String → Bool) (s : String) :
    ∀ (L : List Flux) (i : Nat),
      (findFrom openable s L i = FLUX_NOT_FOUND ↔ ∀ d ∈ L, d.fluxName ≠ s) ∧
      (∀ (k : Nat) (d : Flux), L[k]? = some d → d.fluxName = s →
        (∀ (j : Nat) (e : Flux), j < k → L[j]? = some e → e.fluxName ≠ s) →
        findFrom openable s L i =
          if openable d.fileName then ((i + k : Nat) : Int) else FLUX_BAD_FNAME) ∧
      (0 ≤ findFrom openable s L i →
        ∃ (k : Nat) (d : Flux), L[k]? = some d ∧ d.fluxName = s ∧
          findFrom openable s L i = ((i + k : Nat) : Int))
  | [], i => by
    refine ⟨by simp [findFrom], ?_, ?_⟩
    · intro k d hk
      simp at hk
    · intro h
      simp [findFrom, FLUX_NOT_FOUND] at h
  | f :: rest, i => by
    obtain ⟨ih1, ih2, ih3⟩ := findFrom_spec openable s rest (i + 1)
    by_cases hf : f.fluxName = s
    · refine ⟨?_, ?_, ?_⟩
      · constructor
        · intro h
          by_cases ho : openable f.fileName
          · simp [findFrom, hf, Flux.checkFname, ho, FLUX_NOT_FOUND] at h
          · simp [findFrom, hf, Flux.checkFname, ho, FLUX_NOT_FOUND, FLUX_BAD_FNAME] at h
        · intro h
          exact absurd hf (h f (List.mem_cons_self _ _))
      · intro k d hk hd hfirst
        cases k with
        | zero =>
          simp at hk
          subst hk
          simp [findFrom, hf, Flux.checkFname]
        | succ j =>
          exact absurd hf (hfirst 0 f (Nat.succ_pos j) (by simp))
      · intro h
        by_cases ho : openable f.fileName
        · exact ⟨0, f, by simp, hf, by simp [findFrom, hf, Flux.checkFname, ho]⟩
        · simp [findFrom, hf, Flux.checkFname, ho, FLUX_BAD_FNAME] at h
    · have hstep : findFrom openable s (f :: rest) i = findFrom openable s rest (i + 1) := by
        simp [findFrom, hf]
      rw [hstep]
      refine ⟨?_, ?_, ?_⟩
      · rw [ih1]
        simp [hf]
      · intro k d hk hd hfirst
        cases k with
        | zero =>
          simp at hk
          subst hk
          exact absurd hd hf
        | succ j =>
          simp at hk
          rw [ih2 j d hk hd (fun j2 e hj he => hfirst (j2 + 1) e (by omega) (by simpa using he))]
          have : i + 1 + j = i + (j + 1) := by omega
          rw [this]
      · intro h
        obtain ⟨k, d, hk, hd, hres⟩ := ih3 h
        refine ⟨k + 1, d, by simpa using hk, hd, ?_⟩
        rw [hres]
        have : i + 1 + k = i + (k + 1) := by omega
        rw [this]

/-- C7: `Flux::find` returns `FLUX_NOT_FOUND` exactly when no descriptor of
the list bears the name (in particular on the empty list); when the first
descriptor bearing the name is at position `k`, it returns `k` if that
descriptor's file can be opened and `FLUX_BAD_FNAME` otherwise; and a
non-negative result is the position of a descriptor bearing the name. -/
theorem find_semantics (openable : String → Bool) (L : List Flux) (s : String) :
    (Flux.find openable L s = FLUX_NOT_FOUND ↔ ∀ d ∈ L, d.fluxName ≠ s) ∧
    Flux.find openable [] s = FLUX_NOT_FOUND ∧
    (∀ (k : Nat) (d : Flux), L[k]? = some d → d.fluxName = s →
      (∀ (j : Nat) (e : Flux), j < k → L[j]? = some e → e.fluxName ≠ s) →
      Flux.find openable L s = if openable d.fileName then (k : Int) else FLUX_BAD_FNAME) ∧
    (0 ≤ Flux.find openable L s →
      ∃ (k : Nat) (d : Flux), L[k]? = some d ∧ d.fluxName = s ∧
        Flux.find openable L s = (k : Int)) := by
  obtain ⟨h1, h2, h3⟩ := findFrom_spec openable s L 0
  refine ⟨h1, rfl, ?_, ?_⟩
  · intro k d hk hd hfirst
    have := h2 k d hk hd hfirst
    simpa [Flux.find] using this
  · intro h
    obtain ⟨k, d, hk, hd, hres⟩ := h3 h
    exact ⟨k, d, hk, hd, by simpa [Flux.find] using hres⟩

/-! ## Lemmas on readRTFLUX -/

theorem wrapInt_of_fits {x : Int} (h : fitsInt x) : wrapInt x = x := by
  unfold fitsInt at h
  unfold wrapInt
  omega

theorem wrapInt_fits (x : Int) : fitsInt (wrapInt x) := by
  unfold fitsInt wrapInt
  omega

theorem wrapInt_add_left (a b : Int) : wrapInt (wrapInt a + b) = wrapInt (a + b) := by
  unfold wrapInt
  omega

theorem wrapInt_mul_left (a b : Int) : wrapInt (wrapInt a * b) = wrapInt (a * b) := by
  have hk : wrapInt a = a - 4294967296 * ((a + 2147483648) / 4294967296) := by
    unfold wrapInt
    omega
  have he : (a - 4294967296 * ((a + 2147483648) / 4294967296)) * b + 2147483648 =
      a * b + 2147483648 + 4294967296 * (-((a + 2147483648) / 4294967296) * b) := by
    ring
  rw [hk]
  unfold wrapInt
  rw [he, Int.add_mul_emod_self_left]

theorem checkHeader_none_iff (ndim ngrp ninti skip numVols numGrps : Int)
    (hsum : fitsInt (skip + numVols)) :
    checkHeader ndim ngrp ninti skip numVols numGrps = none ↔
      ndim ≤ 1 ∧ numGrps ≤ ngrp ∧ skip + numVols ≤ ninti := by
  unfold checkHeader
  rw [wrapInt_of_fits hsum]
  by_cases h1 : ndim > 1
  · simp [h1]
  · by_cases h2 : ngrp < numGrps
    · simp [h1, h2]
    · by_cases h3 : ninti < skip + numVols
      · simp [h1, h2, h3]
      · simp only [h1, h2, h3, if_false, true_iff]
        omega

theorem freadDoubles_length {buf data : List ℚ} {off cnt : Int} {st : List ℚ × List ℚ}
    (h : freadDoubles buf off cnt data = some st) : st.1.length = buf.length := by
  unfold freadDoubles at h
  split at h
  · rename_i hb
    cases h
    simp only [List.length_append, List.length_take, List.length_drop]
    omega
  · cases h

theorem readBlocks_length {uninit : Nat → ℚ} {ngrp nblok ninti : Int}
    {data fluxIn unread : List ℚ}
    (h : readBlocks uninit ngrp nblok ninti data = Outcome.ok (fluxIn, unread)) :
    (fluxIn.length : Int) = wrapInt (ninti * ngrp) := by
  unfold readBlocks newDoubles at h
  by_cases hn : 0 ≤ wrapInt (ninti * ngrp)
  · simp only [hn, if_true] at h
    have hP := forLoopFrom_preserves (readBlock ngrp nblok ninti)
      (fun st => st.1.length = (wrapInt (ninti * ngrp)).toNat)
      (by
        intro j t t2 hP hb
        unfold readBlock at hb
        split at hb
        · rename_i st2 hfr
          cases hb
          rw [freadDoubles_length hfr]
          exact hP
        · cases hb)
      nblok.toNat 0 _ _ (by simp) h
    simp only at hP
    rw [hP]
    omega
  · simp [hn] at h

theorem index_fits (ninti ngrp skip numVols numGrps vol g : Int)
    (hskip : 0 ≤ skip) (hgrp : numGrps ≤ ngrp) (hint : skip + numVols ≤ ninti)
    (hsize : fitsInt (ninti * ngrp))
    (h1 : 0 ≤ vol) (h2 : vol < numVols) (h3 : 0 ≤ g) (h4 : g < numGrps) :
    wrapInt (g * ninti + (vol + skip)) = g * ninti + (vol + skip) ∧
    wrapInt (vol * numGrps + g) = vol * numGrps + g := by
  obtain ⟨hb1, hb2⟩ := index_bound ninti ngrp g (vol + skip) h3 (by omega) (by omega)
    (by omega)
  obtain ⟨hd1, hd2⟩ := index_bound numGrps numVols vol g h1 h2 h3 h4
  have hle : numVols * numGrps ≤ ninti * ngrp :=
    mul_le_mul (by omega) hgrp (by omega) (by omega)
  have hup := hsize.2
  rw [mul_comm ninti ngrp] at hup hle
  exact ⟨wrapInt_of_fits ⟨by omega, by omega⟩, wrapInt_of_fits ⟨by omega, by omega⟩⟩

theorem readRTFLUX_huge_any_data (uninit : Nat → ℚ) (data : List ℚ) (m : ℚ) :
    readRTFLUX uninit (some ⟨1, 65536, 65536, 1, 1, 1, data⟩) 0 [m] 1 1 =
      ⟨Outcome.crash, [m], data⟩ := by
  have hsize : wrapInt (65536 * 65536) = 0 := by decide
  have hcheck : checkHeader 1 65536 65536 0 1 1 = none := by decide
  have hlo : wrapInt (grpLo 65536 1 0 * 65536) = 0 := by decide
  have hcnt : blockCount 65536 1 65536 0 = 0 := by decide
  have hblocks : readBlocks uninit 65536 1 65536 data = Outcome.ok ([], data) := by
    have hnew : newDoubles uninit 0 = some [] := by rfl
    have hloop : forLoop 1 (readBlock 65536 1 65536) (([] : List ℚ), data) =
        Outcome.ok ([], data) := by
      have hbody : readBlock 65536 1 65536 0 (([] : List ℚ), data) = Outcome.ok ([], data) := by
        simp [readBlock, hlo, hcnt, freadDoubles]
      show (readBlock 65536 1 65536 0 (([] : List ℚ), data)).bind
        (forLoopFrom (readBlock 65536 1 65536) 0 (0 + 1)) = Outcome.ok ([], data)
      rw [hbody]
      rfl
    simp only [readBlocks, hsize, hnew, hloop]
  have htr : transposeData [] 65536 0 1 1 [m] = Outcome.crash := by rfl
  simp only [readRTFLUX, hcheck, hblocks, htr]

theorem readBlocks_not_fatal (uninit : Nat → ℚ) (ngrp nblok ninti : Int) (data : List ℚ)
    (code : Nat) : readBlocks uninit ngrp nblok ninti data ≠ Outcome.fatal code := by
  unfold readBlocks
  cases newDoubles uninit (wrapInt (ninti * ngrp)) with
  | none => simp
  | some fluxIn =>
    refine forLoopFrom_not_fatal (readBlock ngrp nblok ninti) ?_ _ _ _ code
    intro j t c
    unfold readBlock
    split <;> simp

theorem transposeData_not_fatal (fluxIn M : List ℚ) (ninti skip numVols numGrps : Int)
    (code : Nat) : transposeData fluxIn ninti skip numVols numGrps M ≠ Outcome.fatal code := by
  refine forLoopFrom_not_fatal _ ?_ _ _ _ code
  intro g t c
  refine forLoopFrom_not_fatal _ ?_ _ _ _ c
  intro v u c2
  unfold transposeValue
  split
  · simp
  · split <;> simp

theorem readRTFLUX_not_fatal (uninit : Nat → ℚ) (f : RTFLUXFile) (skip numVols numGrps : Int)
    (M : List ℚ) (hcheck : checkHeader f.ndim f.ngrp f.ninti skip numVols numGrps = none)
    (code : Nat) :
    (readRTFLUX uninit (some f) skip M numVols numGrps).outcome ≠ Outcome.fatal code := by
  simp only [readRTFLUX, hcheck]
  cases hb : readBlocks uninit f.ngrp f.nblok f.ninti f.data with
  | ok st =>
    obtain ⟨fluxIn, unread⟩ := st
    simp only
    cases ht : transposeData fluxIn f.ninti skip numVols numGrps M with
    | ok m => simp
    | fatal c => exact absurd ht (transposeData_not_fatal _ _ _ _ _ _ c)
    | crash => simp
  | fatal c => exact absurd hb (readBlocks_not_fatal _ _ _ _ _ c)
  | crash => simp

/-- C4 (code evaluated at the failing input): for `ngrp = 3`, `nblok = 2` the
second block starts at group 2 and is given the last group 3, outside
`0..2`; the two blocks request 4 × ninti values for a buffer of 3 × ninti, and
readRTFLUX writes past the end of the buffer. -/
theorem readRTFLUX_block_overrun :
    grpLo 3 2 1 = 2 ∧ grpHi 3 2 1 = 3 ∧
    blockCount 3 2 1 0 + blockCount 3 2 1 1 = 4 ∧
    (readRTFLUX (fun _ => 0) (some exampleUneven) 0 [0, 0, 0] 1 3).outcome =
      Outcome.crash := by
  refine ⟨by decide, by decide, by decide, by rfl⟩

/-- C5 (as written, refuted): a header with `ndim = 0` passes validation, and
readRTFLUX returns normally, although `ndim ≠ 1`. -/
theorem readRTFLUX_validation_counterexample :
    checkHeader exampleZeroDim.ndim exampleZeroDim.ngrp exampleZeroDim.ninti 0 1 1 = none ∧
    (readRTFLUX (fun _ => 0) (some exampleZeroDim) 0 [0] 1 1).outcome = Outcome.ok () ∧
    exampleZeroDim.ndim ≠ 1 := by
  refine ⟨by decide, by rfl, by decide⟩

/-- C5 (amended): when the sum `skip + numVols` is representable as `int`,
readRTFLUX raises no fatal error exactly when `ndim ≤ 1` (the file is not 2-D
or 3-D), `ngrp ≥ numGrps` and `ninti ≥ skip + numVols`; a header violating any
of the three ends the run with a fatal error while the output storage is as
the caller passed it and no data value of the file has been read. -/
theorem readRTFLUX_validation (uninit : Nat → ℚ) (f : RTFLUXFile)
    (skip numVols numGrps : Int) (M : List ℚ) (hsum : fitsInt (skip + numVols)) :
    ((∀ code : Nat,
        (readRTFLUX uninit (some f) skip M numVols numGrps).outcome ≠ Outcome.fatal code) ↔
      (f.ndim ≤ 1 ∧ numGrps ≤ f.ngrp ∧ skip + numVols ≤ f.ninti)) ∧
    (¬ (f.ndim ≤ 1 ∧ numGrps ≤ f.ngrp ∧ skip + numVols ≤ f.ninti) →
      ∃ code : Nat, readRTFLUX uninit (some f) skip M numVols numGrps =
        ⟨Outcome.fatal code, M, f.data⟩) := by
  have hiff := checkHeader_none_iff f.ndim f.ngrp f.ninti skip numVols numGrps hsum
  cases hc : checkHeader f.ndim f.ngrp f.ninti skip numVols numGrps with
  | none =>
    have hok := hiff.mp hc
    exact ⟨⟨fun _ => hok, fun _ code => readRTFLUX_not_fatal uninit f skip numVols numGrps M hc code⟩,
      fun hn => absurd hok hn⟩
  | some code =>
    have hrun : readRTFLUX uninit (some f) skip M numVols numGrps =
        ⟨Outcome.fatal code, M, f.data⟩ := by
      simp [readRTFLUX, hc]
    have hbad : ¬ (f.ndim ≤ 1 ∧ numGrps ≤ f.ngrp ∧ skip + numVols ≤ f.ninti) := by
      intro h
      rw [hiff.mpr h] at hc
      cases hc
    refine ⟨⟨fun hno => ?_, fun h => absurd h hbad⟩, fun _ => ⟨code, hrun⟩⟩
    exact absurd (by rw [hrun]) (hno code)

/-- Witness for C5: the file with 2 groups and 5 intervals read with
`skip = 1`: asking for 3 intervals and 2 groups raises no fatal error, asking
for 5 intervals ends the run with a fatal error before anything is read. -/
theorem readRTFLUX_validation_witness :
    (∀ code : Nat,
      (readRTFLUX (fun _ => 0) (some exampleRTFLUX) 1 [0, 0, 0, 0, 0, 0] 3 2).outcome ≠
        Outcome.fatal code) ∧
    ∃ code : Nat, readRTFLUX (fun _ => 0) (some exampleRTFLUX) 1 [0, 0, 0, 0, 0, 0] 5 2 =
      ⟨Outcome.fatal code, [0, 0, 0, 0, 0, 0], exampleRTFLUX.data⟩ :=
  ⟨(readRTFLUX_validation (fun _ => 0) exampleRTFLUX 1 3 2 [0, 0, 0, 0, 0, 0]
      (by decide)).1.mpr (by decide),
    (readRTFLUX_validation (fun _ => 0) exampleRTFLUX 1 5 2 [0, 0, 0, 0, 0, 0]
      (by decide)).2 (by decide)⟩

/-- C6 (as written, refuted): a file with too few groups and a file with too
few intervals end the run with the same category, 623. -/
theorem readRTFLUX_categories_counterexample :
    (readRTFLUX (fun _ => 0) (some exampleRTFLUX) 1 [0, 0, 0, 0, 0, 0] 2 3).outcome =
      Outcome.fatal 623 ∧
    (readRTFLUX (fun _ => 0) (some exampleRTFLUX) 1 [0, 0, 0, 0, 0, 0] 5 2).outcome =
      Outcome.fatal 623 := by
  refine ⟨by rfl, by rfl⟩

/-- C6 (amended): a 2-D or 3-D file ends the run with category 624; too few
groups and (the sum `skip + numVols` representable as `int`) too few
intervals both end it with category 623, which differs from 624. -/
theorem readRTFLUX_categories (uninit : Nat → ℚ) (f : RTFLUXFile)
    (skip numVols numGrps : Int) (M : List ℚ) :
    (1 < f.ndim →
      (readRTFLUX uninit (some f) skip M numVols numGrps).outcome = Outcome.fatal 624) ∧
    (f.ndim ≤ 1 → f.ngrp < numGrps →
      (readRTFLUX uninit (some f) skip M numVols numGrps).outcome = Outcome.fatal 623) ∧
    (f.ndim ≤ 1 → numGrps ≤ f.ngrp → fitsInt (skip + numVols) → f.ninti < skip + numVols →
      (readRTFLUX uninit (some f) skip M numVols numGrps).outcome = Outcome.fatal 623) ∧
    (Outcome.fatal 624 : Outcome Unit) ≠ Outcome.fatal 623 := by
  refine ⟨?_, ?_, ?_, by simp⟩
  · intro h1
    simp [readRTFLUX, checkHeader, h1]
  · intro h1 h2
    simp [readRTFLUX, checkHeader, not_lt.mpr h1, h2]
  · intro h1 h2 hsum h3
    simp [readRTFLUX, checkHeader, not_lt.mpr h1, not_lt.mpr h2, wrapInt_of_fits hsum, h3]

/-- Witness for C6: a two-dimensional file ends the run with 624; the file
with 2 groups and 5 intervals ends it with 623 when 4 groups are asked for,
and with 623 when `skip = 3` and 4 intervals are asked for. -/
theorem readRTFLUX_categories_witness :
    (readRTFLUX (fun _ => 0) (some exampleTwoDim) 0 [0] 1 1).outcome = Outcome.fatal 624 ∧
    (readRTFLUX (fun _ => 0) (some exampleRTFLUX) 0 [0, 0, 0, 0] 1 4).outcome =
      Outcome.fatal 623 ∧
    (readRTFLUX (fun _ => 0) (some exampleRTFLUX) 3 [0, 0, 0, 0] 4 1).outcome =
      Outcome.fatal 623 :=
  ⟨(readRTFLUX_categories (fun _ => 0) exampleTwoDim 0 1 1 [0]).1 (by decide),
    (readRTFLUX_categories (fun _ => 0) exampleRTFLUX 0 1 4 [0, 0, 0, 0]).2.1 (by decide)
      (by decide),
    (readRTFLUX_categories (fun _ => 0) exampleRTFLUX 3 4 1 [0, 0, 0, 0]).2.2.1 (by decide)
      (by decide) (by decide) (by decide)⟩

/-! ## Lemmas on the text branch of xRef -/

theorem extract_good (file : TextFile) (c : Int) (s : IStream) (hg : goodAt file c s)
    (hc : c < file.vals.length) :
    s.eofbit = false ∧
    ∃ s2 v, s.extract = (s2, some v) ∧ getI file.vals c = some v ∧ goodAt file (c + 1) s2 := by
  obtain ⟨h0, hrest, htr, hfail, heof⟩ := hg
  have heof2 : s.eofbit = false := by
    cases h : s.eofbit with
    | false => rfl
    | true => exact absurd (heof h) (by omega)
  have hlt : c.toNat < file.vals.length := by omega
  have hcons : s.rest = file.vals[c.toNat] :: file.vals.drop (c.toNat + 1) := by
    rw [hrest]
    exact List.drop_eq_getElem_cons hlt
  refine ⟨heof2, { s with rest := file.vals.drop (c.toNat + 1),
                          eofbit := (file.vals.drop (c.toNat + 1)).isEmpty && !s.trailing },
    file.vals[c.toNat], ?_, ?_, ?_⟩
  · unfold IStream.extract
    rw [heof2, hfail, hcons]
    rfl
  · simp [getI, h0, List.getElem?_eq_getElem hlt]
  · refine ⟨by omega, ?_, htr, hfail, ?_⟩
    · have e : (c + 1).toNat = c.toNat + 1 := by omega
      rw [e]
    · intro he
      simp only [Bool.and_eq_true, List.isEmpty_iff] at he
      have hl := congrArg List.length he.1
      simp at hl
      omega

theorem skip_spec (file : TextFile) (skip numGrps : Int) (hskip : 0 ≤ skip)
    (hG : 0 < numGrps) (hlen : skip * numGrps < file.vals.length) :
    ∃ s1, (if skip > 0 then forLoop skip (fun _ => forLoop numGrps skipValue)
            (IStream.ofFile (some file))
          else Outcome.ok (IStream.ofFile (some file))) = Outcome.ok s1 ∧
      goodAt file (skip * numGrps) s1 := by
  have hstart : goodAt file 0 (IStream.ofFile (some file)) := by
    refine ⟨le_refl _, by simp [IStream.ofFile], rfl, rfl, ?_⟩
    intro h
    simp [IStream.ofFile] at h
  by_cases hpos : skip > 0
  · rw [if_pos hpos]
    obtain ⟨s1, hrun, hfin⟩ := forLoop_inv skip (fun _ => forLoop numGrps skipValue)
      (fun i s => goodAt file (i * numGrps) s) (IStream.ofFile (some file))
      (by simpa using hstart)
      (by
        intro i s hi0 hi1 hI
        obtain ⟨s2, hrun2, hfin2⟩ := forLoop_inv numGrps skipValue
          (fun j t => goodAt file (i * numGrps + j) t) s (by simpa using hI)
          (by
            intro j t hj0 hj1 hJ
            have hb := (index_bound numGrps skip i j hi0 hi1 hj0 hj1).2
            obtain ⟨_, t2, v, hex, _, hgood⟩ := extract_good file _ t hJ (by omega)
            refine ⟨t2, by simp [skipValue, hex], ?_⟩
            show goodAt file (i * numGrps + (j + 1)) t2
            rw [← add_assoc]
            exact hgood)
        refine ⟨s2, hrun2, ?_⟩
        rw [max_eq_left (le_of_lt hG)] at hfin2
        have e : (i + 1) * numGrps = i * numGrps + numGrps := by ring
        show goodAt file ((i + 1) * numGrps) s2
        rw [e]
        exact hfin2)
    refine ⟨s1, hrun, ?_⟩
    rw [max_eq_left hskip] at hfin
    exact hfin
  · rw [if_neg hpos]
    have e : skip = 0 := by omega
    subst e
    exact ⟨_, rfl, by simpa using hstart⟩

theorem readFluxD_spec (file : TextFile) (skip numVols numGrps : Int) (M0 : List ℚ)
    (hskip : 0 ≤ skip) (hV : 0 < numVols) (hG : 0 < numGrps)
    (hlen : (skip + numVols) * numGrps ≤ file.vals.length)
    (hM : (M0.length : Int) = numVols * numGrps) :
    ∃ M, readFluxD (some file) skip numVols numGrps M0 = Outcome.ok M ∧
      M.length = M0.length ∧
      ∀ (x y : Int), 0 ≤ x → x < numVols → 0 ≤ y → y < numGrps →
        ∃ v, getI M (x * numGrps + y) = some v ∧
          getI file.vals ((skip + x) * numGrps + y) = some v := by
  have hVG : 0 < numVols * numGrps := mul_pos hV hG
  have hsplit : (skip + numVols) * numGrps = skip * numGrps + numVols * numGrps := by ring
  obtain ⟨s1, hskiprun, hgood1⟩ := skip_spec file skip numGrps hskip hG (by omega)
  have heof1 : s1.eofbit = false := (extract_good file _ s1 hgood1 (by omega)).1
  have hsrc : ∀ (x y : Int), 0 ≤ x → x < numVols → 0 ≤ y → y < numGrps →
      (skip + x) * numGrps + y < file.vals.length := by
    intro x y h1 h2 h3 h4
    have := (index_bound numGrps (skip + numVols) (skip + x) y (by omega) (by omega) h3 h4).2
    omega
  obtain ⟨st, hrun, hgoodf, hlenf, hent⟩ := forLoop_inv numVols
    (fun x => forLoop numGrps (loadValue numGrps x))
    (fun x (st : IStream × List ℚ) => goodAt file ((skip + x) * numGrps) st.1 ∧
      st.2.length = M0.length ∧
      ∀ (x2 y2 : Int), 0 ≤ x2 → x2 < x → 0 ≤ y2 → y2 < numGrps →
        getI st.2 (x2 * numGrps + y2) = getI file.vals ((skip + x2) * numGrps + y2))
    (s1, M0) ⟨by simpa using hgood1, rfl, fun x2 y2 h1 h2 _ _ => by omega⟩
    (by
      intro x st hx0 hx1 hI
      obtain ⟨hIgood, hIlen, hIent⟩ := hI
      obtain ⟨st2, hrun2, hgood2, hlen2, hold2, hnew2⟩ := forLoop_inv numGrps
        (loadValue numGrps x)
        (fun y (u : IStream × List ℚ) => goodAt file ((skip + x) * numGrps + y) u.1 ∧
          u.2.length = M0.length ∧
          (∀ (x2 y2 : Int), 0 ≤ x2 → x2 < x → 0 ≤ y2 → y2 < numGrps →
            getI u.2 (x2 * numGrps + y2) = getI file.vals ((skip + x2) * numGrps + y2)) ∧
          (∀ (y2 : Int), 0 ≤ y2 → y2 < y →
            getI u.2 (x * numGrps + y2) = getI file.vals ((skip + x) * numGrps + y2)))
        st ⟨by simpa using hIgood, hIlen, hIent, fun y2 h1 h2 => by omega⟩
        (by
          intro y u hy0 hy1 hJ
          obtain ⟨hJgood, hJlen, hJold, hJnew⟩ := hJ
          obtain ⟨heof, u2, v, hex, hv, hgood3⟩ :=
            extract_good file _ u.1 hJgood (hsrc x y hx0 hx1 hy0 hy1)
          obtain ⟨hd1, hd2⟩ := index_bound numGrps numVols x y hx0 hx1 hy0 hy1
          have hset := setI_lt (l := u.2) v hd1 (by rw [hJlen, hM]; exact hd2)
          refine ⟨(u2, u.2.set (x * numGrps + y).toNat v), ?_, ?_, ?_, ?_, ?_⟩
          · simp [loadValue, heof, hex, hset]
          · show goodAt file ((skip + x) * numGrps + (y + 1)) u2
            rw [← add_assoc]
            exact hgood3
          · simp [hJlen]
          · intro x2 y2 h1 h2 h3 h4
            simp only
            rw [getI_setI hset]
            have hne : x2 * numGrps + y2 ≠ x * numGrps + y := by
              intro e
              have := (index_inj numGrps x2 x y2 y h3 h4 hy0 hy1 e).1
              omega
            rw [if_neg hne]
            exact hJold x2 y2 h1 h2 h3 h4
          · intro y2 h1 h2
            simp only
            rw [getI_setI hset]
            by_cases hyy : y2 = y
            · subst hyy
              simp [hv]
            · have hne : x * numGrps + y2 ≠ x * numGrps + y := by
                intro e
                exact hyy (index_inj numGrps x x y2 y h1 (by omega) hy0 hy1 e).2
              rw [if_neg hne]
              exact hJnew y2 h1 (by omega))
      rw [max_eq_left (le_of_lt hG)] at hgood2 hnew2
      refine ⟨st2, hrun2, ?_, hlen2, ?_⟩
      · have e : (skip + (x + 1)) * numGrps = (skip + x) * numGrps + numGrps := by ring
        show goodAt file ((skip + (x + 1)) * numGrps) st2.1
        rw [e]
        exact hgood2
      · intro x2 y2 h1 h2 h3 h4
        by_cases hxx : x2 = x
        · subst hxx
          exact hnew2 y2 h3 h4
        · exact hold2 x2 y2 h1 (by omega) h3 h4)
  rw [max_eq_left (le_of_lt hV)] at hent
  refine ⟨st.2, ?_, hlenf, ?_⟩
  · unfold readFluxD
    simp only [hskiprun, Outcome.bind, heof1, hrun]
    simp
  · intro x y h1 h2 h3 h4
    obtain ⟨v, hv⟩ := getI_lt (l := file.vals) (i := (skip + x) * numGrps + y)
      (index_bound numGrps (skip + numVols) (skip + x) y (by omega) (by omega) h3 h4).1
      (hsrc x y h1 h2 h3 h4)
    exact ⟨v, by rw [hent x y h1 h2 h3 h4, hv], hv⟩

theorem xRef_single (fs : FileSystem) (uninit : Nat → ℚ) (numVols numGrps : Int) (f : Flux)
    (hV : 0 ≤ numVols) (hsize : 0 ≤ numVols * numGrps) :
    xRef fs uninit numVols numGrps [f] =
      (xRefFlux fs uninit numVols numGrps f
        ((List.range (numVols * numGrps).toNat).map uninit)).bind
        fun m => Outcome.ok [(m, f.scale)] := by
  simp only [xRef, not_lt.mpr hV, if_false, newDoubles, hsize, if_true, xRefLoop]
  cases xRefFlux fs uninit numVols numGrps f ((List.range (numVols * numGrps).toNat).map uninit)
    <;> rfl

/-! ## Theorems: the text branch of xRef -/

/-- C8 (code evaluated at the failing input): a text file holding the three
values `1 2 3` and a final newline, read into a `2 × 2` matrix without
skipping, needs four values; xRef raises no error and hands `storeMatrix` a
matrix whose last entry still has the content the storage had before the
read (here `7`). -/
theorem xRef_text_short_file_completes :
    xRef exampleFS (fun _ => 7) 2 2 [exampleFlux] = Outcome.ok [([1, 2, 3, 7], 1)] := by
  rfl

/-- C9: for a Default-text descriptor with `skip ≥ 0` whose file holds at
least `(skip + numVols) × numGrps` values `v`, and every `0 ≤ x < numVols`,
`0 ≤ y < numGrps`, xRef completes and the matrix handed to `storeMatrix`
satisfies `FluxMatrix[x][y] = v[(skip + x) × numGrps + y]`. -/
theorem xRef_text_layout (fs : FileSystem) (uninit : Nat → ℚ) (numVols numGrps : Int)
    (f : Flux) (file : TextFile) (hfmt : f.format = FLUX_D)
    (hfile : fs.text f.fileName = some file) (hskip : 0 ≤ f.skip)
    (hlen : (f.skip + numVols) * numGrps ≤ file.vals.length)
    (x y : Int) (hx0 : 0 ≤ x) (hx : x < numVols) (hy0 : 0 ≤ y) (hy : y < numGrps) :
    ∃ M v, xRef fs uninit numVols numGrps [f] = Outcome.ok [(M, f.scale)] ∧
      getI M (x * numGrps + y) = some v ∧
      getI file.vals ((f.skip + x) * numGrps + y) = some v := by
  have hV : 0 < numVols := by omega
  have hG : 0 < numGrps := by omega
  have hsize : 0 ≤ numVols * numGrps := le_of_lt (mul_pos hV hG)
  obtain ⟨M, hrun, _, hent⟩ := readFluxD_spec file f.skip numVols numGrps
    ((List.range (numVols * numGrps).toNat).map uninit) hskip hV hG hlen
    (by simp [Int.toNat_of_nonneg hsize])
  obtain ⟨v, hv1, hv2⟩ := hent x y hx0 hx hy0 hy
  refine ⟨M, v, ?_, hv1, hv2⟩
  rw [xRef_single fs uninit numVols numGrps f (le_of_lt hV) hsize]
  simp [xRefFlux, hfmt, hfile, hrun, Outcome.bind]

/-- Witness for C9: `flux2.txt` holds six values; with `skip = 1` and a
`2 × 2` matrix, entry `[1][1]` is the value at position `(1 + 1) × 2 + 1`. -/
theorem xRef_text_layout_witness :
    ∃ M, xRef exampleFS (fun _ => 0) 2 2 [exampleFlux2] = Outcome.ok [(M, 2)] ∧
      getI M (1 * 2 + 1) = some 6 := by
  obtain ⟨M, v, hrun, hv1, hv2⟩ := xRef_text_layout exampleFS (fun _ => 0) 2 2 exampleFlux2
    ⟨[1, 2, 3, 4, 5, 6], false⟩ rfl rfl (by decide) (by decide) 1 1 (by decide) (by decide)
    (by decide) (by decide)
  refine ⟨M, hrun, ?_⟩
  rw [hv1, ← hv2]
  rfl

/-! ## Theorems: isotope entries of expandEle -/

theorem expandEleLoop_colon (compName sfx : String) (Ndensity : ℚ)
    (hsfx : strSubstr compName (strFind compName.toList ':') = some sfx) :
    ∀ (isoList : List (String × ℚ)) (rootList : List Root),
      expandEleLoop compName Ndensity isoList rootList =
        Outcome.ok (rootList ++
          isoList.map fun iso => ⟨sfx ++ "-" ++ iso.1, iso.2 * Ndensity / 100⟩)
  | [], rootList => by simp [expandEleLoop]
  | iso :: rest, rootList => by
    simp only [expandEleLoop, hsfx, Root.merge]
    rw [expandEleLoop_colon compName sfx Ndensity hsfx rest]
    simp

theorem expandEleLoop_no_colon (compName : String) (Ndensity : ℚ)
    (hnone : strFind compName.toList ':' = none) (iso : String × ℚ)
    (rest : List (String × ℚ)) (rootList : List Root) :
    expandEleLoop compName Ndensity (iso :: rest) rootList = Outcome.crash := by
  simp only [expandEleLoop, hnone, strSubstr]

/-- C10 (code evaluated at the failing input): for the Element node named
`fe`, found in the library with two isotopes, expandEle resolves the density
and adds it to the mixture's total but ends in the exception thrown by
`substr` while building the first label, so no isotope entry is emitted. -/
theorem expandEle_no_colon_emits_nothing :
    (expandEle 1 exampleEleLib ⟨0, 0⟩ ⟨COMP_ELE, 1, 1, "fe", none⟩).outcome =
      Outcome.crash := by
  rfl

/-! ## Theorems: labels, library loading and material lookup at concrete inputs -/

/-- C11 (code evaluated at the failing inputs): for the node `region:Fe` and
the isotope `fe56` the emitted label is `:Fe-fe56`, the colon included, not
`Fe-fe56`; for the node `Fe`, whose name has no colon, building the label
throws and no entry is emitted. -/
theorem expandEle_label_keeps_colon_or_throws :
    rootLabels (expandEle 1 exampleQualifiedLib ⟨0, 0⟩
      ⟨COMP_ELE, 1, 1, "region:Fe", none⟩).outcome = some [":Fe-fe56"] ∧
    (":Fe-fe56" : String) ≠ "Fe-fe56" ∧
    (expandEle 1 examplePlainLib ⟨0, 0⟩ ⟨COMP_ELE, 1, 1, "Fe", none⟩).outcome =
      Outcome.crash := by
  refine ⟨by rfl, by decide, by rfl⟩

/-- C12 (code evaluated at the failing input): the library holds the single
record `steel 7.8 0` and nothing after it; the search for `steel` reads the
record, reaches the end of the file while reading its element count, and
`expandMat` raises error 311 although the name matched. With whitespace after
the record the same search succeeds. -/
theorem expandMat_last_record_not_found :
    (expandMat 1 1 exampleMatEleLib exampleLocals
        (TokStream.ofFile (matLibToks [⟨"steel", 78 / 10, []⟩]) false) ⟨0, 0⟩
        ⟨COMP_MAT, 1, 1, "steel", none⟩ 10).map (fun r => r.outcome) =
      some (Outcome.fatal 311) ∧
    (expandMat 1 1 exampleMatEleLib exampleLocals
        (TokStream.ofFile (matLibToks [⟨"steel", 78 / 10, []⟩]) true) ⟨0, 0⟩
        ⟨COMP_MAT, 1, 1, "steel", none⟩ 10).map (fun r => r.outcome) =
      some (Outcome.ok []) := by
  refine ⟨by rfl, by rfl⟩

/-- C14 (code evaluated at the failing input): the library ends with the
record `void 1 0` of an empty material and nothing after it; for the
Material node `void`, `expandMat` does not return an empty list but raises
error 311. -/
theorem expandMat_empty_material_at_end :
    (expandMat 1 1 exampleMatEleLib exampleLocals
        (TokStream.ofFile (matLibToks exampleMatLib) false) ⟨0, 0⟩
        ⟨COMP_MAT, 1, 1, "void", none⟩ 10).map (fun r => (r.outcome, r.mix)) =
      some (Outcome.fatal 311, ⟨0, 0⟩) := by
  rfl

/-- C18 (code evaluated at the failing input): the element file holds the
record of `h` with its two isotopes. When nothing follows the last token the
library maps `h` to the record; when a newline follows it, the loop runs
once more, the extraction of the key fails and leaves `h` in `eleKey`, and
the entry of `h` is overwritten by the blank entry. -/
theorem getEleLib_trailing_whitespace_blanks_last :
    loadedEntry (getEleLib ⟨7, 7, 7, 0, []⟩ (some (exampleEleFile, false))
        (fun _ => none) 20) "h" =
      some ⟨1008 / 1000, 1, 9 / 100, 2, [("1", 99985 / 1000), ("2", 15 / 1000)]⟩ ∧
    loadedEntry (getEleLib ⟨7, 7, 7, 0, []⟩ (some (exampleEleFile, true))
        (fun _ => none) 20) "h" =
      some ⟨7, 7, 7, 0, []⟩ := by
  refine ⟨by rfl, by rfl⟩

/-! ## Theorems: replaceSim, copies and frame -/

/-- C20: replaceSim on a node `x` of the list `pre ++ x :: post`, with a donor
list (head `nHead`, real nodes `ns`, `k ≥ 1`) that does not contain `x`,
returns (given fuel `k`) a heap in which the `i`-th spliced node has the type,
name and density of the `i`-th donor node and its volume fraction multiplied
by the fraction of `x`; the donor list is still linked through the same
addresses and each of its nodes is unchanged, as is every node of `pre` and
`post` and every other node that existed before the call. -/
theorem replaceSim_copies_and_frames (h : Heap) (m : Option Nat) (x nHead : Nat)
    (pre post ns : List Nat) (X : Component) (fuel : Nat)
    (hM : chain h m (pre ++ x :: post) none) (hX : h[x]? = some X)
    (hN : chain h (some nHead) (nHead :: ns) none)
    (hk : 1 ≤ ns.length) (hdisj : x ∉ nHead :: ns) (hfuel : ns.length ≤ fuel) :
    ∃ hf ret news, replaceSim h x nHead fuel = some (hf, ret) ∧
      (x :: news).length = ns.length ∧
      (∀ (i a b : Nat), (x :: news)[i]? = some a → ns[i]? = some b →
        ∃ (c n : Component), hf[a]? = some c ∧ h[b]? = some n ∧
          c.type = n.type ∧ c.compName = n.compName ∧ c.density = n.density ∧
          c.volFraction = X.volFraction * n.volFraction) ∧
      chain hf (some nHead) (nHead :: ns) none ∧
      (∀ a ∈ nHead :: ns, hf[a]? = h[a]?) ∧
      (∀ a ∈ pre ++ post, hf[a]? = h[a]?) ∧
      (∀ (a : Nat), a < h.length → a ≠ x → hf[a]? = h[a]?) := by
  obtain ⟨_, hd, hhd, hNs⟩ := hN
  cases ns with
  | nil => simp at hk
  | cons n1 rest =>
    have hdisj2 : x ∉ n1 :: rest := fun hmem => hdisj (List.mem_cons_of_mem _ hmem)
    obtain ⟨hf, ret, N1, hrun, _, _, hframe, _, hN1, ⟨c0, hc0, hsc0⟩, hcopies⟩ :=
      replaceSim_spec h x nHead n1 rest X hd fuel hX hhd hNs hdisj2
        (by simp at hfuel; omega)
    have hdonor_lt : ∀ a ∈ nHead :: n1 :: rest, a < h.length :=
      chain_lt (nHead :: n1 :: rest) (some nHead) none ⟨rfl, hd, hhd, hNs⟩
    have hdonor : ∀ a ∈ nHead :: n1 :: rest, hf[a]? = h[a]? := fun a ha =>
      hframe a (hdonor_lt a ha) (fun e => hdisj (e ▸ ha))
    have hnodup := chain_nodup _ _ hM
    have hlt := chain_lt _ _ _ hM
    have hxpre : ∀ a ∈ pre, a ≠ x := by
      intro a ha e
      subst e
      exact (List.nodup_append.mp hnodup).2.2 ha (List.mem_cons_self _ _)
    have hxpost : ∀ a ∈ post, a ≠ x := by
      intro a ha e
      subst e
      exact (List.nodup_cons.mp (List.nodup_append.mp hnodup).2.1).1 ha
    refine ⟨hf, ret, List.range' h.length rest.length, hrun, by simp, ?_, ?_, hdonor, ?_,
      hframe⟩
    · intro i a b hia hib
      cases i with
      | zero =>
        simp at hia hib
        subst hia
        subst hib
        exact ⟨c0, N1, hc0, hN1, hsc0⟩
      | succ j =>
        simp at hia hib
        have hj : j < rest.length := (List.getElem?_eq_some.mp hib).1
        rw [List.getElem?_range' _ _ hj] at hia
        simp at hia
        subst hia
        obtain ⟨c, n, hc, hn, hsc⟩ := hcopies j b hib
        exact ⟨c, n, hc, hn, hsc⟩
    · exact chain_congr (nHead :: n1 :: rest) _ _ hdonor ⟨rfl, hd, hhd, hNs⟩
    · intro a ha
      rcases List.mem_append.mp ha with hp | hp
      · exact hframe a (hlt a (List.mem_append_left _ hp)) (hxpre a hp)
      · exact hframe a (hlt a (List.mem_append_right _ (List.mem_cons_of_mem _ hp)))
          (hxpost a hp)

/-- Witness for C20: the Similar node at address `1` of the example heap and
the donor list `3 → 4 → 5`. -/
theorem replaceSim_copies_and_frames_witness :
    ∃ hf ret, replaceSim exampleHeap 1 3 2 = some (hf, ret) ∧
      chain hf (some 3) [3, 4, 5] none ∧ hf[4]? = exampleHeap[4]? := by
  obtain ⟨hf, ret, news, h1, _, _, h4, h5, _, _⟩ :=
    replaceSim_copies_and_frames exampleHeap (some 0) 1 3 [0] [2] [4, 5]
      ⟨COMP_SIM, 0, 1/2, "other", some 2⟩ 2
      (by simp [chain, exampleHeap]) (by simp [exampleHeap])
      (by simp [chain, exampleHeap]) (by simp) (by simp) (by simp)
  exact ⟨hf, ret, h1, h4, h5 4 (by simp)⟩

/-! ## Lemmas on expand -/

theorem expandEle_comp_next (AVAGADRO : ℚ) (eleLib : EleLib) (mix : Mixture)
    (self : Component) : (expandEle AVAGADRO eleLib mix self).comp.next = self.next := by
  unfold expandEle
  cases eleLib self.compName <;> rfl

theorem expandMat_comp_next (AVAGADRO volFracDefault : ℚ) (eleLib : EleLib)
    (uninit : MatLocals) (matLib : TokStream) (mix : Mixture) (self : Component)
    (fuel : Nat) (r : MatExpansion)
    (hr : expandMat AVAGADRO volFracDefault eleLib uninit matLib mix self fuel = some r) :
    r.comp.next = self.next := by
  unfold expandMat at hr
  simp only at hr
  split at hr
  · cases hr
    rfl
  · split at hr
    · cases hr
    · split at hr <;> (cases hr; rfl)
    · cases hr
      rfl
    · cases hr
      rfl

theorem nodesAt_cons {h : Heap} {a : Nat} {n : Component} (as : List Nat)
    (ha : h[a]? = some n) : nodesAt h (a :: as) = n :: nodesAt h as := by
  simp [nodesAt, List.filterMap_cons, ha]

theorem nodesAt_congr {h h2 : Heap} (as : List Nat) (hsame : ∀ a ∈ as, h2[a]? = h[a]?) :
    nodesAt h2 as = nodesAt h as := by
  induction as with
  | nil => rfl
  | cons a as ih =>
    have ha := hsame a (List.mem_cons_self _ _)
    have ih2 := ih (fun b hb => hsame b (List.mem_cons_of_mem _ hb))
    simp only [nodesAt, List.filterMap_cons] at ih2 ⊢
    rw [ha, ih2]

theorem nodeEntries_mat (env : ExpandEnv) (node : Component) (mix : Mixture)
    (matLib : TokStream) (ht : node.type = COMP_MAT) :
    nodeEntries env node mix matLib =
      (expandMat env.AVAGADRO env.volFracDefault env.eleLib env.uninit matLib mix node
        env.matFuel).map fun r => (r.outcome, r.mix, r.matLib) := by
  simp [nodeEntries, kindOf, ht, COMP_MAT, COMP_HEAD]

theorem nodeEntries_ele (env : ExpandEnv) (node : Component) (mix : Mixture)
    (matLib : TokStream) (ht : node.type = COMP_ELE ∨ node.type = TARGET_ELE) :
    nodeEntries env node mix matLib =
      some ((expandEle env.AVAGADRO env.eleLib mix node).outcome,
        (expandEle env.AVAGADRO env.eleLib mix node).mix, matLib) := by
  rcases ht with ht | ht <;>
    simp [nodeEntries, kindOf, ht, COMP_MAT, COMP_HEAD, COMP_ELE, TARGET_ELE, COMP_ISO, COMP_SIM]

theorem nodeEntries_iso (env : ExpandEnv) (node : Component) (mix : Mixture)
    (matLib : TokStream) (ht : node.type = TARGET_ISO) :
    nodeEntries env node mix matLib =
      some (Outcome.ok [⟨node.compName, node.density⟩], mix, matLib) := by
  simp [nodeEntries, kindOf, ht, COMP_MAT, COMP_HEAD, COMP_ELE, TARGET_ELE, COMP_ISO, COMP_SIM,
    TARGET_ISO]

theorem nodeEntries_other (env : ExpandEnv) (node : Component) (mix : Mixture)
    (matLib : TokStream) (h1 : node.type ≠ COMP_MAT)
    (h2 : ¬ (node.type = COMP_ELE ∨ node.type = TARGET_ELE)) (h3 : node.type ≠ TARGET_ISO) :
    nodeEntries env node mix matLib = some (Outcome.ok [], mix, matLib) := by
  have h2a : node.type ≠ COMP_ELE := fun e => h2 (Or.inl e)
  have h2b : node.type ≠ TARGET_ELE := fun e => h2 (Or.inr e)
  unfold nodeEntries kindOf
  split_ifs <;> rfl

theorem expandLoop_eq (env : ExpandEnv) :
    ∀ (addrs : List Nat) (h : Heap) (ptr : Nat) (mix : Mixture) (s : TokStream)
      (acc : List Root) (fuel : Nat),
      chain h (some ptr) (ptr :: addrs) none → addrs.length < fuel →
      (expandLoop env fuel h ptr mix s acc).map Pass.view =
        (expandByKind env (nodesAt h addrs) mix s).map
          fun r => (prependRoots acc r.1, r.2.1, r.2.2) := by
  intro addrs
  induction addrs with
  | nil =>
    intro h ptr mix s acc fuel hc hfuel
    obtain ⟨_, p, hp, hnext⟩ := hc
    have hnone : p.next = none := hnext
    cases fuel with
    | zero => simp at hfuel
    | succ f =>
      simp [expandLoop, hp, hnone, nodesAt, expandByKind, Pass.view, prependRoots, Root.merge]
  | cons a as ih =>
    intro h ptr mix s acc fuel hc hfuel
    have hnodup := chain_nodup _ _ hc
    obtain ⟨_, p, hp, hrest⟩ := hc
    obtain ⟨hpnext, c, hca, htail⟩ := hrest
    have hlt : a < h.length := getElem?_some_lt hca
    have hnotin : a ∉ as := (List.nodup_cons.mp (List.nodup_cons.mp hnodup).2).1
    cases fuel with
    | zero => simp at hfuel
    | succ f =>
      have hf : as.length < f := by simp at hfuel; omega
      -- the heap after the node at `a` has been rewritten
      have hstep : ∀ (c2 : Component), c2.next = c.next →
          chain (h.set a c2) (some a) (a :: as) none ∧
            nodesAt (h.set a c2) as = nodesAt h as := by
        intro c2 hc2
        have hsame : ∀ b ∈ as, (h.set a c2)[b]? = h[b]? := fun b hb =>
          List.getElem?_set_ne (fun e => hnotin (by rw [e]; exact hb))
        refine ⟨⟨rfl, c2, List.getElem?_set_self hlt, ?_⟩, nodesAt_congr as hsame⟩
        rw [hc2]
        exact chain_congr as _ _ hsame htail
      rw [nodesAt_cons as hca]
      by_cases hmat : c.type = COMP_MAT
      · simp only [expandLoop, hp, hpnext, hca, if_pos hmat, expandByKind,
          nodeEntries_mat env c mix s hmat]
        cases hr : expandMat env.AVAGADRO env.volFracDefault env.eleLib env.uninit s mix c
            env.matFuel with
        | none => simp
        | some r =>
          have hnx := expandMat_comp_next _ _ _ _ _ _ _ _ r hr
          obtain ⟨hch, hnodes⟩ := hstep r.comp hnx
          have hih := ih (h.set a r.comp) a r.mix r.matLib
          simp only [Option.map_some']
          cases hout : r.outcome with
          | ok roots =>
            simp only
            rw [hih (Root.merge acc roots) f hch hf, hnodes]
            cases expandByKind env (nodesAt h as) r.mix r.matLib with
            | none => rfl
            | some q =>
              obtain ⟨o, m2, s2⟩ := q
              cases o <;> simp [prependRoots, Root.merge, List.append_assoc]
          | fatal code => simp [Pass.view, prependRoots]
          | crash => simp [Pass.view, prependRoots]
      · by_cases hele : c.type = COMP_ELE ∨ c.type = TARGET_ELE
        · simp only [expandLoop, hp, hpnext, hca, if_neg hmat, if_pos hele, expandByKind,
            nodeEntries_ele env c mix s hele]
          have hnx := expandEle_comp_next env.AVAGADRO env.eleLib mix c
          obtain ⟨hch, hnodes⟩ := hstep _ hnx
          have hih := ih (h.set a (expandEle env.AVAGADRO env.eleLib mix c).comp) a
            (expandEle env.AVAGADRO env.eleLib mix c).mix s
          cases hout : (expandEle env.AVAGADRO env.eleLib mix c).outcome with
          | ok roots =>
            simp only
            rw [hih (Root.merge acc roots) f hch hf, hnodes]
            cases expandByKind env (nodesAt h as)
                (expandEle env.AVAGADRO env.eleLib mix c).mix s with
            | none => rfl
            | some q =>
              obtain ⟨o, m2, s2⟩ := q
              cases o <;> simp [prependRoots, Root.merge, List.append_assoc]
          | fatal code => simp [Pass.view, prependRoots]
          | crash => simp [Pass.view, prependRoots]
        · have hch : chain h (some a) (a :: as) none := ⟨rfl, c, hca, htail⟩
          by_cases hiso : c.type = TARGET_ISO
          · simp only [expandLoop, hp, hpnext, hca, if_neg hmat, if_neg hele, if_pos hiso,
              expandByKind, nodeEntries_iso env c mix s hiso]
            rw [ih h a mix s _ f hch hf]
            cases expandByKind env (nodesAt h as) mix s with
            | none => rfl
            | some q =>
              obtain ⟨o, m2, s2⟩ := q
              cases o <;> simp [prependRoots, Root.merge]
          · simp only [expandLoop, hp, hpnext, hca, if_neg hmat, if_neg hele, if_neg hiso,
              expandByKind, nodeEntries_other env c mix s hmat hele hiso]
            rw [ih h a mix s _ f hch hf]
            cases expandByKind env (nodesAt h as) mix s with
            | none => rfl
            | some q =>
              obtain ⟨o, m2, s2⟩ := q
              cases o <;> simp [prependRoots, Root.merge]

theorem expand_eq_expandByKind (env : ExpandEnv) (h : Heap) (self : Nat) (addrs : List Nat)
    (mix : Mixture) (matLib : TokStream) (fuel : Nat)
    (hc : chain h (some self) (self :: addrs) none) (hfuel : addrs.length < fuel) :
    (expand env h self mix matLib fuel).map Pass.view =
      expandByKind env (nodesAt h addrs) mix matLib := by
  unfold expand
  rw [expandLoop_eq env addrs h self mix matLib [] fuel hc hfuel]
  cases expandByKind env (nodesAt h addrs) mix matLib with
  | none => rfl
  | some q =>
    obtain ⟨o, m2, s2⟩ := q
    cases o <;> simp [prependRoots, Root.merge]

/-! ## Theorems: expand -/

/-- C16: on a list whose head is at `self` and whose real nodes are at
`addrs`, expand (given fuel for the walk) yields what the specification
words: the merge, in list order from the first real node to the tail, of
`expandMat` for each Material node, `expandEle` for each Element or
TargetElement node and one entry (name, density as it is) for each
TargetIsotope node, Isotope and Similar nodes adding no entry. -/
theorem expand_dispatch (env : ExpandEnv) (h : Heap) (self : Nat) (addrs : List Nat)
    (mix : Mixture) (matLib : TokStream) (fuel : Nat)
    (hc : chain h (some self) (self :: addrs) none) (hfuel : addrs.length < fuel) :
    (expand env h self mix matLib fuel).map Pass.view =
      expandByKind env (nodesAt h addrs) mix matLib ∧
    (∀ (node : Component) (m : Mixture) (s : TokStream), node.type = TARGET_ISO →
      nodeEntries env node m s = some (Outcome.ok [⟨node.compName, node.density⟩], m, s)) ∧
    (∀ (node : Component) (m : Mixture) (s : TokStream),
      node.type = COMP_ISO ∨ node.type = COMP_SIM →
      nodeEntries env node m s = some (Outcome.ok [], m, s)) := by
  refine ⟨expand_eq_expandByKind env h self addrs mix matLib fuel hc hfuel,
    fun node m s ht => nodeEntries_iso env node m s ht, ?_⟩
  · intro node m s ht
    apply nodeEntries_other
    · rcases ht with ht | ht <;> rw [ht] <;> decide
    · rcases ht with ht | ht <;> rw [ht] <;> decide
    · rcases ht with ht | ht <;> rw [ht] <;> decide

/-- Witness for C16: the example list with two Element nodes, an Isotope
node and a TargetIsotope node. -/
theorem expand_dispatch_witness :
    (expand exampleEnv exampleMixtureHeap 0 ⟨0, 0⟩ exampleMatStream 5).map Pass.view =
      expandByKind exampleEnv (nodesAt exampleMixtureHeap [1, 2, 3, 4]) ⟨0, 0⟩
        exampleMatStream :=
  (expand_dispatch exampleEnv exampleMixtureHeap 0 [1, 2, 3, 4] ⟨0, 0⟩ exampleMatStream 5
    (by simp [chain, exampleMixtureHeap]) (by decide)).1

theorem expandEle_outcome_colon (AVAGADRO : ℚ) (eleLib : EleLib) (mix : Mixture)
    (self : Component) (ele : EleLibEntry) (sfx : String)
    (hfound : eleLib self.compName = some ele)
    (hsfx : strSubstr self.compName (strFind self.compName.toList ':') = some sfx) :
    (expandEle AVAGADRO eleLib mix self).outcome =
      Outcome.ok (ele.isoList.map fun iso =>
        ⟨sfx ++ "-" ++ iso.1,
          iso.2 * (self.volFraction * resolveDensity self.density ele * AVAGADRO / ele.A) /
            100⟩) := by
  simp only [expandEle, hfound]
  rw [expandEleLoop_colon self.compName sfx _ hsfx]
  simp

theorem expandEle_mix_indep (AVAGADRO : ℚ) (eleLib : EleLib) (mix mix0 : Mixture)
    (self : Component) :
    (expandEle AVAGADRO eleLib mix self).outcome = (expandEle AVAGADRO eleLib mix0 self).outcome ∧
    (expandEle AVAGADRO eleLib mix self).comp = (expandEle AVAGADRO eleLib mix0 self).comp := by
  unfold expandEle
  cases eleLib self.compName <;> exact ⟨rfl, rfl⟩

theorem expandEle_found_mix (AVAGADRO : ℚ) (eleLib : EleLib) (mix : Mixture)
    (self : Component) (ele : EleLibEntry) (hfound : eleLib self.compName = some ele) :
    (expandEle AVAGADRO eleLib mix self).mix =
      ⟨mix.volFraction,
        mix.totalDensity + (expandEle AVAGADRO eleLib mix self).comp.density * self.volFraction⟩ := by
  simp [expandEle, hfound, Mixture.incrTotalDensity]

theorem expandEle_not_found (AVAGADRO : ℚ) (eleLib : EleLib) (mix : Mixture)
    (self : Component) (hnone : eleLib self.compName = none) :
    expandEle AVAGADRO eleLib mix self = ⟨Outcome.fatal 310, self, mix⟩ := by
  simp [expandEle, hnone]

theorem expandEle_ok_found (AVAGADRO : ℚ) (eleLib : EleLib) (mix : Mixture)
    (self : Component) (roots : List Root)
    (hok : (expandEle AVAGADRO eleLib mix self).outcome = Outcome.ok roots) :
    ∃ ele, eleLib self.compName = some ele := by
  cases hl : eleLib self.compName with
  | some ele => exact ⟨ele, rfl⟩
  | none =>
    rw [expandEle_not_found AVAGADRO eleLib mix self hl] at hok
    cases hok

theorem expandEle_ok_mix (env : ExpandEnv) (mix : Mixture) (self : Component)
    (roots : List Root)
    (hok : (expandEle env.AVAGADRO env.eleLib ⟨0, 0⟩ self).outcome = Outcome.ok roots) :
    (expandEle env.AVAGADRO env.eleLib mix self).outcome = Outcome.ok roots ∧
    (expandEle env.AVAGADRO env.eleLib mix self).mix =
      ⟨mix.volFraction, mix.totalDensity + elementContribution env self⟩ := by
  obtain ⟨ele, hfound⟩ := expandEle_ok_found _ _ _ _ _ hok
  obtain ⟨ho, hcomp⟩ := expandEle_mix_indep env.AVAGADRO env.eleLib mix ⟨0, 0⟩ self
  refine ⟨by rw [ho, hok], ?_⟩
  rw [expandEle_found_mix _ _ _ _ ele hfound, hcomp]
  rfl

theorem expandByKind_elements_ok (env : ExpandEnv) :
    ∀ (nodes : List Component) (mix : Mixture) (s : TokStream),
      (∀ n ∈ nodes, n.type = COMP_ELE) →
      (∀ n ∈ nodes, ∃ roots,
        (expandEle env.AVAGADRO env.eleLib ⟨0, 0⟩ n).outcome = Outcome.ok roots) →
      ∃ roots, expandByKind env nodes mix s =
        some (Outcome.ok roots,
          ⟨mix.volFraction, mix.totalDensity + (nodes.map (elementContribution env)).sum⟩, s)
  | [], mix, s, _, _ => ⟨[], by simp [expandByKind]⟩
  | n :: rest, mix, s, htype, hall => by
    obtain ⟨roots, hroots⟩ := hall n (List.mem_cons_self _ _)
    obtain ⟨hok, hmix⟩ := expandEle_ok_mix env mix n roots hroots
    obtain ⟨more, hmore⟩ := expandByKind_elements_ok env rest
      ⟨mix.volFraction, mix.totalDensity + elementContribution env n⟩ s
      (fun m hm => htype m (List.mem_cons_of_mem _ hm))
      (fun m hm => hall m (List.mem_cons_of_mem _ hm))
    refine ⟨Root.merge roots more, ?_⟩
    simp only [expandByKind,
      nodeEntries_ele env n mix s (Or.inl (htype n (List.mem_cons_self _ _))), hok, hmix, hmore,
      List.map_cons, List.sum_cons, add_assoc]

theorem expandByKind_elements_all_ok (env : ExpandEnv) :
    ∀ (nodes : List Component) (mix : Mixture) (s : TokStream) (roots : List Root)
      (mix2 : Mixture) (s2 : TokStream),
      (∀ n ∈ nodes, n.type = COMP_ELE) →
      expandByKind env nodes mix s = some (Outcome.ok roots, mix2, s2) →
      ∀ n ∈ nodes, ∃ r,
        (expandEle env.AVAGADRO env.eleLib ⟨0, 0⟩ n).outcome = Outcome.ok r
  | [], _, _, _, _, _, _, _ => fun n hn => by simp at hn
  | m :: rest, mix, s, roots, mix2, s2, htype, hrun => by
    simp only [expandByKind,
      nodeEntries_ele env m mix s (Or.inl (htype m (List.mem_cons_self _ _)))] at hrun
    cases hout : (expandEle env.AVAGADRO env.eleLib mix m).outcome with
    | ok r =>
      rw [hout] at hrun
      simp only at hrun
      cases hrest : expandByKind env rest (expandEle env.AVAGADRO env.eleLib mix m).mix s with
      | none =>
        rw [hrest] at hrun
        cases hrun
      | some q =>
        obtain ⟨o, m3, s3⟩ := q
        rw [hrest] at hrun
        cases o with
        | ok more =>
          intro n hn
          rcases List.mem_cons.mp hn with rfl | hmem
          · exact ⟨r, by rw [(expandEle_mix_indep env.AVAGADRO env.eleLib ⟨0, 0⟩ mix n).1, hout]⟩
          · exact expandByKind_elements_all_ok env rest _ s more m3 s3
              (fun k hk => htype k (List.mem_cons_of_mem _ hk)) hrest n hmem
        | fatal code =>
          simp at hrun
        | crash =>
          simp at hrun
    | fatal code =>
      rw [hout] at hrun
      simp at hrun
    | crash =>
      rw [hout] at hrun
      simp at hrun

theorem expandEle_copy (AVAGADRO : ℚ) (eleLib : EleLib) (mix : Mixture) (self : Component) :
    (expandEle AVAGADRO eleLib mix self.copy).outcome =
      (expandEle AVAGADRO eleLib mix self).outcome ∧
    (expandEle AVAGADRO eleLib mix self.copy).comp.density =
      (expandEle AVAGADRO eleLib mix self).comp.density := by
  unfold expandEle
  have hn : self.copy.compName = self.compName := rfl
  rw [hn]
  cases eleLib self.compName <;> exact ⟨rfl, rfl⟩

theorem elementContribution_copy (env : ExpandEnv) (node : Component) :
    elementContribution env node.copy = elementContribution env node := by
  unfold elementContribution
  rw [(expandEle_copy env.AVAGADRO env.eleLib ⟨0, 0⟩ node).2]
  rfl

theorem mem_of_copy_perm {l l2 : List Component}
    (hperm : (l2.map Component.copy).Perm (l.map Component.copy)) (n2 : Component)
    (hn2 : n2 ∈ l2) : ∃ n ∈ l, n.copy = n2.copy := by
  have hmem : n2.copy ∈ l.map Component.copy :=
    hperm.mem_iff.mp (List.mem_map_of_mem _ hn2)
  obtain ⟨n, hn, hcopy⟩ := List.mem_map.mp hmem
  exact ⟨n, hn, hcopy⟩

/-! ## Theorems: total density -/

/-- C19: a call of expandEle on a node found in the library adds to the
mixture's total density exactly (resolved density × volume fraction) of the
node; on a node absent from the library it raises error 310 and leaves
mixture and node as they were. Hence, when expand returns normally on a list
of Element nodes, the total density has grown by the sum of the nodes'
contributions, and expand on any list holding the same nodes (type, name,
density and volume fraction) in another order returns normally with the same
total density. -/
theorem expand_total_density (env : ExpandEnv) (h h2 : Heap) (self self2 : Nat)
    (addrs addrs2 : List Nat) (mix : Mixture) (s : TokStream) (fuel fuel2 : Nat)
    (roots : List Root) (mix1 : Mixture) (s1 : TokStream)
    (hc : chain h (some self) (self :: addrs) none)
    (hc2 : chain h2 (some self2) (self2 :: addrs2) none)
    (hele : ∀ n ∈ nodesAt h addrs, n.type = COMP_ELE)
    (hperm : ((nodesAt h2 addrs2).map Component.copy).Perm
      ((nodesAt h addrs).map Component.copy))
    (hfuel : addrs.length < fuel) (hfuel2 : addrs2.length < fuel2)
    (hrun : (expand env h self mix s fuel).map Pass.view = some (Outcome.ok roots, mix1, s1)) :
    (∀ (m : Mixture) (node : Component) (ele : EleLibEntry),
      env.eleLib node.compName = some ele →
      (expandEle env.AVAGADRO env.eleLib m node).mix.totalDensity =
        m.totalDensity +
          (expandEle env.AVAGADRO env.eleLib m node).comp.density * node.volFraction) ∧
    (∀ (m : Mixture) (node : Component), env.eleLib node.compName = none →
      expandEle env.AVAGADRO env.eleLib m node = ⟨Outcome.fatal 310, node, m⟩) ∧
    mix1.totalDensity =
      mix.totalDensity + ((nodesAt h addrs).map (elementContribution env)).sum ∧
    ∃ roots2, (expand env h2 self2 mix s fuel2).map Pass.view =
      some (Outcome.ok roots2, mix1, s1) := by
  rw [expand_eq_expandByKind env h self addrs mix s fuel hc hfuel] at hrun
  have hall := expandByKind_elements_all_ok env _ mix s roots mix1 s1 hele hrun
  obtain ⟨r1, hr1⟩ := expandByKind_elements_ok env (nodesAt h addrs) mix s hele hall
  rw [hr1] at hrun
  have hmix1 : mix1 = ⟨mix.volFraction,
      mix.totalDensity + ((nodesAt h addrs).map (elementContribution env)).sum⟩ := by
    cases hrun
    rfl
  have hs1 : s1 = s := by
    cases hrun
    rfl
  have hele2 : ∀ n2 ∈ nodesAt h2 addrs2, n2.type = COMP_ELE := by
    intro n2 hn2
    obtain ⟨n, hn, hcopy⟩ := mem_of_copy_perm hperm n2 hn2
    have ht : n.copy.type = n2.copy.type := by rw [hcopy]
    exact ht.symm.trans (hele n hn)
  have hall2 : ∀ n2 ∈ nodesAt h2 addrs2, ∃ r,
      (expandEle env.AVAGADRO env.eleLib ⟨0, 0⟩ n2).outcome = Outcome.ok r := by
    intro n2 hn2
    obtain ⟨n, hn, hcopy⟩ := mem_of_copy_perm hperm n2 hn2
    obtain ⟨r, hr⟩ := hall n hn
    refine ⟨r, ?_⟩
    rw [← (expandEle_copy env.AVAGADRO env.eleLib ⟨0, 0⟩ n2).1, ← hcopy,
      (expandEle_copy env.AVAGADRO env.eleLib ⟨0, 0⟩ n).1, hr]
  have hsum : ((nodesAt h2 addrs2).map (elementContribution env)).sum =
      ((nodesAt h addrs).map (elementContribution env)).sum := by
    have e : ∀ l : List Component, l.map (elementContribution env) =
        (l.map Component.copy).map (elementContribution env) := by
      intro l
      rw [List.map_map]
      exact List.map_congr_left (fun n _ => (elementContribution_copy env n).symm)
    rw [e (nodesAt h2 addrs2), e (nodesAt h addrs)]
    exact (hperm.map (elementContribution env)).sum_eq
  obtain ⟨r2, hr2⟩ := expandByKind_elements_ok env (nodesAt h2 addrs2) mix s hele2 hall2
  refine ⟨fun m node ele hfound => ?_, fun m node hnone => expandEle_not_found _ _ m node hnone,
    by rw [hmix1], r2, ?_⟩
  · rw [expandEle_found_mix _ _ m node ele hfound]
  · rw [expand_eq_expandByKind env h2 self2 addrs2 mix s fuel2 hc2 hfuel2, hr2, hmix1, hs1,
      hsum]

/-- Witness for C19: the two example lists hold the same two Element nodes
in opposite orders. -/
theorem expand_total_density_witness :
    ∃ roots roots2 mix1,
      (expand exampleEnv exampleElementsHeap 0 ⟨0, 0⟩ exampleMatStream 3).map Pass.view =
        some (Outcome.ok roots, mix1, exampleMatStream) ∧
      (expand exampleEnv exampleElementsHeapSwapped 0 ⟨0, 0⟩ exampleMatStream 3).map Pass.view =
        some (Outcome.ok roots2, mix1, exampleMatStream) := by
  have hcA : chain exampleElementsHeap (some 0) [0, 1, 2] none := by
    simp [chain, exampleElementsHeap]
  have hcB : chain exampleElementsHeapSwapped (some 0) [0, 2, 1] none := by
    simp [chain, exampleElementsHeapSwapped]
  have hnodes : nodesAt exampleElementsHeap [1, 2] =
      [⟨COMP_ELE, 1, 1 / 2, "m:fe", some 2⟩, ⟨COMP_ELE, -3, 1 / 4, "m:fe", none⟩] := by
    simp [nodesAt, exampleElementsHeap]
  have hnodesB : nodesAt exampleElementsHeapSwapped [2, 1] =
      [⟨COMP_ELE, -3, 1 / 4, "m:fe", some 1⟩, ⟨COMP_ELE, 1, 1 / 2, "m:fe", none⟩] := by
    simp [nodesAt, exampleElementsHeapSwapped]
  have hele : ∀ n ∈ nodesAt exampleElementsHeap [1, 2], n.type = COMP_ELE := by
    rw [hnodes]
    intro n hn
    simp at hn
    rcases hn with rfl | rfl <;> rfl
  have hall : ∀ n ∈ nodesAt exampleElementsHeap [1, 2], ∃ roots,
      (expandEle exampleEnv.AVAGADRO exampleEnv.eleLib ⟨0, 0⟩ n).outcome = Outcome.ok roots := by
    rw [hnodes]
    intro n hn
    simp at hn
    rcases hn with rfl | rfl <;>
      exact ⟨_, expandEle_outcome_colon _ _ _ _ ⟨56, 26, 787 / 100, 2, [("54", 6), ("56", 94)]⟩
        ":fe" (by rfl) (by rfl)⟩
  obtain ⟨roots, hr⟩ := expandByKind_elements_ok exampleEnv _ ⟨0, 0⟩ exampleMatStream hele hall
  rw [← expand_eq_expandByKind exampleEnv exampleElementsHeap 0 [1, 2] ⟨0, 0⟩ exampleMatStream 3
    hcA (by decide)] at hr
  obtain ⟨_, _, _, roots2, hr2⟩ := expand_total_density exampleEnv exampleElementsHeap
    exampleElementsHeapSwapped 0 0 [1, 2] [2, 1] ⟨0, 0⟩ exampleMatStream 3 3 roots _ _
    hcA hcB hele (by rw [hnodes, hnodesB]; exact List.Perm.swap _ _ _) (by decide) (by decide)
    hr
  exact ⟨roots, roots2, _, hr, hr2⟩

/-! ## Lemmas on expandMat -/

theorem synced_not_eof {s : TokStream} {t : Tok} {rest : List Tok} {T : Bool}
    (h : Synced s (t :: rest) T) : s.eofbit = false := by
  cases he : s.eofbit with
  | false => rfl
  | true => exact absurd (h.2.2.2 he).1 (List.cons_ne_nil _ _)

theorem synced_advance {s : TokStream} {t : Tok} {rest : List Tok} {T : Bool}
    (h : Synced s (t :: rest) T) : Synced (s.advance rest) rest T := by
  obtain ⟨_, htr, hfail, _⟩ := h
  refine ⟨rfl, htr, hfail, ?_⟩
  intro he
  simp only [TokStream.advance, Bool.and_eq_true, List.isEmpty_iff, Bool.not_eq_true'] at he
  exact ⟨he.1, by rw [← htr]; exact he.2⟩

theorem readCharBuf_synced {s : TokStream} {t : Tok} {rest : List Tok} {T : Bool}
    (cur : String) (h : Synced s (t :: rest) T) (hlen : t.text.length < 64) :
    readCharBuf s cur = some (s.advance rest, t.text) := by
  unfold readCharBuf
  rw [synced_not_eof h, h.2.2.1, h.1]
  simp [hlen]

theorem readDouble_synced {s : TokStream} {t : Tok} {rest : List Tok} {T : Bool}
    (cur x : ℚ) (h : Synced s (t :: rest) T) (hx : t.real = some x) :
    readDouble s cur = (s.advance rest, x) := by
  unfold readDouble
  rw [synced_not_eof h, h.2.2.1, h.1]
  simp [hx]

theorem readInt_synced {s : TokStream} {t : Tok} {rest : List Tok} {T : Bool}
    (cur n : Int) (h : Synced s (t :: rest) T) (hn : t.whole = some n) :
    readInt s cur = (s.advance rest, n) := by
  unfold readInt
  rw [synced_not_eof h, h.2.2.1, h.1]
  simp [hn]

theorem readMatElement_synced {s : TokStream} {rest : List Tok} {T : Bool}
    (e : String × ℚ × Int) (loc : MatLocals)
    (h : Synced s (elementToks e ++ rest) T) (hlen : e.1.length < 64) :
    ∃ s2, readMatElement s loc =
        some (s2, { loc with eleName := e.1, eleDens := e.2.1, eleZ := e.2.2 }) ∧
      Synced s2 rest T := by
  have h1 : Synced s (Tok.name e.1 :: ⟨"", some e.2.1, none⟩ ::
      ⟨"", some e.2.2, some e.2.2⟩ :: rest) T := h
  have h2 := synced_advance h1
  have h3 := synced_advance h2
  have h4 := synced_advance h3
  refine ⟨_, ?_, h4⟩
  simp only [readMatElement, clearComment]
  rw [readCharBuf_synced loc.eleName h1 (by simpa [Tok.name] using hlen)]
  simp only
  rw [readDouble_synced loc.eleDens e.2.1 h2 rfl]
  simp only
  rw [readInt_synced loc.eleZ e.2.2 h3 rfl]
  rfl

theorem readMatHeader_synced {s : TokStream} {rest : List Tok} {T : Bool}
    (r : MatRecord) (loc : MatLocals)
    (h : Synced s (r.toks ++ rest) T) (hlen : r.name.length < 64) :
    ∃ s2, readMatHeader s loc =
        some (s2, { loc with testName := r.name, matDens := r.density,
                             numEles := (r.elements.length : Int) }) ∧
      Synced s2 (r.elements.flatMap elementToks ++ rest) T ∧
      s2.eofbit = ((r.elements.flatMap elementToks ++ rest).isEmpty && !T) := by
  have h1 : Synced s (Tok.name r.name :: ⟨"", some r.density, none⟩ ::
      ⟨"", some (r.elements.length : Int), some (r.elements.length : Int)⟩ ::
      (r.elements.flatMap elementToks ++ rest)) T := by
    simpa [MatRecord.toks] using h
  have h2 := synced_advance h1
  have h3 := synced_advance h2
  have h4 := synced_advance h3
  refine ⟨_, ?_, h4, ?_⟩
  swap
  · simp only [TokStream.advance]
    rw [h1.2.1]
  simp only [readMatHeader, clearComment]
  rw [readCharBuf_synced loc.testName h1 (by simpa [Tok.name] using hlen)]
  simp only
  rw [readDouble_synced loc.matDens r.density h2 rfl]
  simp only
  rw [readInt_synced loc.numEles (r.elements.length : Int) h3 rfl]
  rfl

theorem skipMatElements_synced {T : Bool} {rest : List Tok} :
    ∀ (es : List (String × ℚ × Int)) (s : TokStream) (loc : MatLocals),
      Synced s (es.flatMap elementToks ++ rest) T → (∀ e ∈ es, e.1.length < 64) →
      ∃ s2 loc2, skipMatElements es.length s loc = some (s2, loc2) ∧ Synced s2 rest T ∧
        loc2.testName = loc.testName
  | [], s, loc, h, _ => ⟨s, loc, rfl, by simpa using h, rfl⟩
  | e :: es, s, loc, h, hlen => by
    have h1 : Synced s (elementToks e ++ (es.flatMap elementToks ++ rest)) T := by
      simpa [List.flatMap_cons, List.append_assoc] using h
    obtain ⟨s1, hread, hs1⟩ := readMatElement_synced e loc h1 (hlen e (List.mem_cons_self _ _))
    obtain ⟨s2, loc2, hskip, hs2, hname⟩ := skipMatElements_synced es s1
      { loc with eleName := e.1, eleDens := e.2.1, eleZ := e.2.2 } hs1
      (fun e2 he2 => hlen e2 (List.mem_cons_of_mem _ he2))
    exact ⟨s2, loc2, by simp only [List.length_cons, skipMatElements, hread, hskip], hs2, hname⟩

theorem synced_nonempty_not_eof {s : TokStream} {rest : List Tok} {T : Bool}
    (h : Synced s rest T) (hne : rest ≠ []) : s.eofbit = false := by
  cases he : s.eofbit with
  | false => rfl
  | true => exact absurd (h.2.2.2 he).1 hne

theorem matLibToks_cons (r : MatRecord) (post : List MatRecord) :
    matLibToks (r :: post) = r.toks ++ matLibToks post := by
  simp [matLibToks, List.flatMap_cons]

theorem matLibToks_cons_ne_nil (r : MatRecord) (post : List MatRecord) :
    matLibToks (r :: post) ≠ [] := by
  simp [matLibToks_cons, MatRecord.toks]

theorem scanMat_reaches (compName : String) (r : MatRecord) (post : List MatRecord) (T : Bool)
    (hr : r.name = compName) (hrlen : r.name.length < 64) :
    ∀ (more : List MatRecord) (cur : MatRecord) (s : TokStream) (loc : MatLocals) (fuel : Nat),
      cur.name ≠ compName → (∀ q ∈ more, q.name ≠ compName) →
      (∀ e ∈ cur.elements, e.1.length < 64) →
      (∀ q ∈ more, q.name.length < 64 ∧ ∀ e ∈ q.elements, e.1.length < 64) →
      loc.testName = cur.name → loc.numEles = (cur.elements.length : Int) →
      Synced s (cur.elements.flatMap elementToks ++ matLibToks (more ++ r :: post)) T →
      more.length + 1 < fuel →
      ∃ s2 loc2, scanMat compName fuel s loc = some (Outcome.ok (s2, loc2)) ∧
        loc2.testName = r.name ∧ loc2.matDens = r.density ∧
        loc2.numEles = (r.elements.length : Int) ∧
        Synced s2 (r.elements.flatMap elementToks ++ matLibToks post) T ∧
        s2.eofbit = ((r.elements.flatMap elementToks ++ matLibToks post).isEmpty && !T) := by
  intro more
  induction more with
  | nil =>
    intro cur s loc fuel hcur _ hcurlen _ hname hnum hsync hfuel
    obtain ⟨f, rfl⟩ : ∃ f, fuel = f + 2 := ⟨fuel - 2, by simp at hfuel; omega⟩
    have hne : cur.elements.flatMap elementToks ++ matLibToks ([] ++ r :: post) ≠ [] := by
      simp [matLibToks_cons, MatRecord.toks]
    have heof := synced_nonempty_not_eof hsync hne
    obtain ⟨s1, loc1, hskip, hs1, _⟩ := skipMatElements_synced cur.elements s loc hsync hcurlen
    rw [List.nil_append, matLibToks_cons] at hs1
    obtain ⟨s2, hhead, hs2, he2⟩ := readMatHeader_synced r
      { loc1 with numEles := numElesAfter loc.numEles } hs1 hrlen
    refine ⟨s2, { ({ loc1 with numEles := numElesAfter loc.numEles } : MatLocals) with
      testName := r.name, matDens := r.density, numEles := (r.elements.length : Int) },
      ?_, rfl, rfl, rfl, hs2, he2⟩
    have hcond : loc.testName ≠ compName ∧ s.eofbit = false := ⟨by rw [hname]; exact hcur, heof⟩
    have htoNat : loc.numEles.toNat = cur.elements.length := by rw [hnum]; simp
    simp only [scanMat]
    rw [if_pos hcond]
    simp only [htoNat, hskip, hhead]
    rw [if_neg (fun hc => hc.1 hr)]
  | cons m more ih =>
    intro cur s loc fuel hcur hmore hcurlen hmorelen hname hnum hsync hfuel
    obtain ⟨f, rfl⟩ : ∃ f, fuel = f + 1 := ⟨fuel - 1, by simp at hfuel; omega⟩
    have hne : cur.elements.flatMap elementToks ++ matLibToks ((m :: more) ++ r :: post) ≠ [] := by
      simp [matLibToks_cons, MatRecord.toks]
    have heof := synced_nonempty_not_eof hsync hne
    obtain ⟨s1, loc1, hskip, hs1, _⟩ := skipMatElements_synced cur.elements s loc hsync hcurlen
    rw [List.cons_append, matLibToks_cons] at hs1
    obtain ⟨s2, hhead, hs2, _⟩ := readMatHeader_synced m
      { loc1 with numEles := numElesAfter loc.numEles } hs1
      (hmorelen m (List.mem_cons_self _ _)).1
    obtain ⟨s3, loc3, hscan, h1, h2, h3, hs3, he3⟩ := ih m s2
      { ({ loc1 with numEles := numElesAfter loc.numEles } : MatLocals) with
        testName := m.name, matDens := m.density, numEles := (m.elements.length : Int) } f
      (hmore m (List.mem_cons_self _ _)) (fun q hq => hmore q (List.mem_cons_of_mem _ hq))
      (hmorelen m (List.mem_cons_self _ _)).2
      (fun q hq => hmorelen q (List.mem_cons_of_mem _ hq)) rfl rfl hs2
      (by simp at hfuel; omega)
    refine ⟨s3, loc3, ?_, h1, h2, h3, hs3, he3⟩
    have hcond : loc.testName ≠ compName ∧ s.eofbit = false := ⟨by rw [hname]; exact hcur, heof⟩
    have htoNat : loc.numEles.toNat = cur.elements.length := by rw [hnum]; simp
    simp only [scanMat]
    rw [if_pos hcond]
    simp only [htoNat, hskip, hhead]
    exact hscan

theorem expandMatElements_synced (AVAGADRO volFracDefault : ℚ) (eleLib : EleLib)
    (D volumeFraction : ℚ) {T : Bool} {rest : List Tok} :
    ∀ (es : List (String × ℚ × Int)) (s : TokStream) (loc : MatLocals) (mix : Mixture)
      (roots : List Root),
      Synced s (es.flatMap elementToks ++ rest) T → (∀ e ∈ es, e.1.length < 64) →
      ∃ s2, expandMatElements AVAGADRO volFracDefault eleLib D volumeFraction es.length s loc
          mix roots =
        (prependRoots roots
            (expandTransients AVAGADRO volFracDefault eleLib D volumeFraction es mix).1,
          s2, (expandTransients AVAGADRO volFracDefault eleLib D volumeFraction es mix).2)
  | [], s, loc, mix, roots, _, _ =>
    ⟨s, by simp [expandMatElements, expandTransients, prependRoots, Root.merge]⟩
  | e :: es, s, loc, mix, roots, h, hlen => by
    have h1 : Synced s (elementToks e ++ (es.flatMap elementToks ++ rest)) T := by
      simpa [List.flatMap_cons, List.append_assoc] using h
    obtain ⟨s1, hread, hs1⟩ := readMatElement_synced e loc h1 (hlen e (List.mem_cons_self _ _))
    have hd : e.2.1 * (-D * volumeFraction / 100) = -(e.2.1 * D * volumeFraction / 100) := by
      ring
    simp only [List.length_cons, expandMatElements, hread, transientElement, hd,
      expandTransients]
    cases hout : (expandEle AVAGADRO eleLib mix
        ⟨COMP_ELE, -(e.2.1 * D * volumeFraction / 100), volFracDefault, e.1, none⟩).outcome with
    | ok entries =>
      obtain ⟨s2, hrec⟩ := expandMatElements_synced AVAGADRO volFracDefault eleLib D
        volumeFraction es s1
        { testName := loc.testName, eleName := e.1, matDens := loc.matDens,
          eleDens := -(e.2.1 * D * volumeFraction / 100), numEles := loc.numEles,
          eleZ := e.2.2 }
        (expandEle AVAGADRO eleLib mix
          ⟨COMP_ELE, -(e.2.1 * D * volumeFraction / 100), volFracDefault, e.1, none⟩).mix
        (Root.merge roots entries) hs1 (fun e2 he2 => hlen e2 (List.mem_cons_of_mem _ he2))
      refine ⟨s2, ?_⟩
      simp only
      rw [hrec]
      cases expandTransients AVAGADRO volFracDefault eleLib D volumeFraction es
          (expandEle AVAGADRO eleLib mix
            ⟨COMP_ELE, -(e.2.1 * D * volumeFraction / 100), volFracDefault, e.1, none⟩).mix with
      | mk o m2 =>
        cases o <;> simp [prependRoots, Root.merge, List.append_assoc]
    | fatal code => exact ⟨s1, by simp [prependRoots]⟩
    | crash => exact ⟨s1, by simp [prependRoots]⟩

theorem prependRoots_nil (o : Outcome (List Root)) : prependRoots [] o = o := by
  cases o <;> simp [prependRoots, Root.merge]

theorem synced_seekg0 (matLib : TokStream) (hfail : matLib.failbit = false) :
    Synced matLib.seekg0 matLib.file matLib.trailing := by
  refine ⟨by simp [TokStream.seekg0, hfail], by simp [TokStream.seekg0, hfail],
    by simp [TokStream.seekg0, hfail], ?_⟩
  intro he
  simp [TokStream.seekg0, hfail] at he

theorem expandMat_scan (compName : String) (uninit : MatLocals) (matLib : TokStream)
    (pre post : List MatRecord) (r : MatRecord) (fuel : Nat)
    (hfile : matLib.file = matLibToks (pre ++ r :: post)) (hfail : matLib.failbit = false)
    (hpre : ∀ q ∈ pre, q.name ≠ compName) (hr : r.name = compName)
    (hnames : ∀ q ∈ pre ++ [r], q.name.length < 64 ∧ ∀ e ∈ q.elements, e.1.length < 64)
    (hfuel : pre.length < fuel) :
    ∃ s1 loc1 s2 loc2, readMatHeader matLib.seekg0 uninit = some (s1, loc1) ∧
      scanMat compName fuel s1 loc1 = some (Outcome.ok (s2, loc2)) ∧
      loc2.matDens = r.density ∧ loc2.numEles = (r.elements.length : Int) ∧
      Synced s2 (r.elements.flatMap elementToks ++ matLibToks post) matLib.trailing ∧
      s2.eofbit =
        ((r.elements.flatMap elementToks ++ matLibToks post).isEmpty && !matLib.trailing) := by
  have hs0 := synced_seekg0 matLib hfail
  rw [hfile] at hs0
  have hrlen : r.name.length < 64 := (hnames r (by simp)).1
  cases pre with
  | nil =>
    rw [List.nil_append, matLibToks_cons] at hs0
    obtain ⟨s1, hhead, hs1, he1⟩ := readMatHeader_synced r uninit hs0 hrlen
    obtain ⟨f, rfl⟩ : ∃ f, fuel = f + 1 := ⟨fuel - 1, by simp at hfuel; omega⟩
    refine ⟨s1, { uninit with testName := r.name, matDens := r.density,
                              numEles := (r.elements.length : Int) }, s1,
      { uninit with testName := r.name, matDens := r.density,
                    numEles := (r.elements.length : Int) }, hhead, ?_, rfl, rfl, hs1, he1⟩
    simp only [scanMat]
    rw [if_neg (fun hc => hc.1 hr)]
  | cons cur more =>
    rw [List.cons_append, matLibToks_cons] at hs0
    obtain ⟨s1, hhead, hs1, _⟩ := readMatHeader_synced cur uninit hs0
      (hnames cur (by simp)).1
    obtain ⟨s2, loc2, hscan, _, h2, h3, hs2, he2⟩ :=
      scanMat_reaches compName r post matLib.trailing
      hr hrlen more cur s1
      { uninit with testName := cur.name, matDens := cur.density,
                    numEles := (cur.elements.length : Int) } fuel
      (hpre cur (List.mem_cons_self _ _)) (fun q hq => hpre q (List.mem_cons_of_mem _ hq))
      (hnames cur (by simp)).2
      (fun q hq => hnames q (by simp [hq])) rfl rfl hs1 (by simp at hfuel; omega)
    exact ⟨s1, _, s2, loc2, hhead, hscan, h2, h3, hs2, he2⟩

theorem expandMat_found (AVAGADRO volFracDefault : ℚ) (eleLib : EleLib)
    (uninit : MatLocals) (matLib : TokStream) (mix : Mixture) (self : Component)
    (pre post : List MatRecord) (r : MatRecord) (fuel : Nat)
    (hfile : matLib.file = matLibToks (pre ++ r :: post)) (hfail : matLib.failbit = false)
    (hpre : ∀ q ∈ pre, q.name ≠ self.compName) (hr : r.name = self.compName)
    (hnames : ∀ q ∈ pre ++ [r], q.name.length < 64 ∧ ∀ e ∈ q.elements, e.1.length < 64)
    (hfound : r.elements ≠ [] ∨ post ≠ [] ∨ matLib.trailing = true)
    (hfuel : pre.length < fuel) :
    ∃ s2, expandMat AVAGADRO volFracDefault eleLib uninit matLib mix self fuel =
      some ⟨(expandTransients AVAGADRO volFracDefault eleLib (self.density * r.density)
              self.volFraction r.elements mix).1,
            { self with density := self.density * r.density },
            (expandTransients AVAGADRO volFracDefault eleLib (self.density * r.density)
              self.volFraction r.elements mix).2, s2⟩ := by
  obtain ⟨s1, loc1, s2, loc2, hhead, hscan, hdens, hnum, hs2, _⟩ :=
    expandMat_scan self.compName uninit matLib pre post r fuel hfile hfail hpre hr hnames hfuel
  have heof : s2.eofbit = false := by
    cases he : s2.eofbit with
    | false => rfl
    | true =>
      obtain ⟨hnil, hT⟩ := hs2.2.2.2 he
      rcases hfound with h1 | h1 | h1
      · cases hel : r.elements with
        | nil => exact absurd hel h1
        | cons e es =>
          rw [hel] at hnil
          simp [List.flatMap_cons, elementToks] at hnil
      · cases hp : post with
        | nil => exact absurd hp h1
        | cons q qs =>
          rw [hp] at hnil
          exact absurd (List.append_eq_nil.mp hnil).2 (matLibToks_cons_ne_nil q qs)
      · rw [h1] at hT
        cases hT
  have hs2' : Synced s2 (r.elements.flatMap elementToks ++ matLibToks post) matLib.trailing :=
    hs2
  obtain ⟨s3, hexp⟩ := expandMatElements_synced AVAGADRO volFracDefault eleLib
    (self.density * r.density) self.volFraction r.elements s2 loc2 mix [] hs2'
    (hnames r (by simp)).2
  refine ⟨s3, ?_⟩
  have htoNat : loc2.numEles.toNat = r.elements.length := by rw [hnum]; simp
  simp only [expandMat, hhead, hscan, heof, if_true, hdens, htoNat, hexp, prependRoots_nil]

theorem readMatHeader_at_end {s : TokStream} {T : Bool} (loc : MatLocals)
    (h : Synced s [] T) :
    ∃ s2, readMatHeader s loc = some (s2, loc) ∧ s2.eofbit = true := by
  obtain ⟨hrest, _, hfail, _⟩ := h
  cases he : s.eofbit with
  | true =>
    refine ⟨{ s with failbit := true }, ?_, he⟩
    simp [readMatHeader, clearComment, readCharBuf, readDouble, readInt, he]
  | false =>
    refine ⟨{ s with eofbit := true, failbit := true }, ?_, rfl⟩
    simp [readMatHeader, clearComment, readCharBuf, readDouble, readInt, he, hfail, hrest]

theorem scanMat_exhausts (compName : String) (T : Bool) :
    ∀ (more : List MatRecord) (cur : MatRecord) (s : TokStream) (loc : MatLocals) (fuel : Nat),
      cur.name ≠ compName → (∀ q ∈ more, q.name ≠ compName) →
      (∀ e ∈ cur.elements, e.1.length < 64) →
      (∀ q ∈ more, q.name.length < 64 ∧ ∀ e ∈ q.elements, e.1.length < 64) →
      loc.testName = cur.name → loc.numEles = (cur.elements.length : Int) →
      Synced s (cur.elements.flatMap elementToks ++ matLibToks more) T →
      more.length + 2 ≤ fuel →
      ∃ s2 loc2, scanMat compName fuel s loc = some (Outcome.ok (s2, loc2)) ∧
        s2.eofbit = true := by
  intro more
  induction more with
  | nil =>
    intro cur s loc fuel hcur _ hcurlen _ hname hnum hsync hfuel
    obtain ⟨f, rfl⟩ : ∃ f, fuel = f + 2 := ⟨fuel - 2, by simp at hfuel; omega⟩
    cases he : s.eofbit with
    | true =>
      refine ⟨s, loc, ?_, he⟩
      simp only [scanMat]
      rw [if_neg (fun hc => by rw [he] at hc; exact Bool.noConfusion hc.2)]
    | false =>
      obtain ⟨s1, loc1, hskip, hs1, hn1⟩ :=
        skipMatElements_synced cur.elements s loc hsync hcurlen
      have hs1' : Synced s1 [] T := by simpa [matLibToks] using hs1
      obtain ⟨s2, hhead, he2⟩ := readMatHeader_at_end
        { loc1 with numEles := numElesAfter loc.numEles } hs1'
      refine ⟨s2, { loc1 with numEles := numElesAfter loc.numEles }, ?_, he2⟩
      have hcond : loc.testName ≠ compName ∧ s.eofbit = false :=
        ⟨by rw [hname]; exact hcur, he⟩
      have htoNat : loc.numEles.toNat = cur.elements.length := by rw [hnum]; simp
      simp only [scanMat]
      rw [if_pos hcond]
      simp only [htoNat, hskip, hhead]
      rw [if_neg (fun hc => by rw [he2] at hc; exact Bool.noConfusion hc.2)]
  | cons m more ih =>
    intro cur s loc fuel hcur hmore hcurlen hmorelen hname hnum hsync hfuel
    obtain ⟨f, rfl⟩ : ∃ f, fuel = f + 1 := ⟨fuel - 1, by simp at hfuel; omega⟩
    have hne : cur.elements.flatMap elementToks ++ matLibToks (m :: more) ≠ [] := by
      simp [matLibToks_cons, MatRecord.toks]
    have heof := synced_nonempty_not_eof hsync hne
    obtain ⟨s1, loc1, hskip, hs1, _⟩ := skipMatElements_synced cur.elements s loc hsync hcurlen
    rw [matLibToks_cons] at hs1
    obtain ⟨s2, hhead, hs2, _⟩ := readMatHeader_synced m
      { loc1 with numEles := numElesAfter loc.numEles } hs1
      (hmorelen m (List.mem_cons_self _ _)).1
    obtain ⟨s3, loc3, hscan, he3⟩ := ih m s2
      { ({ loc1 with numEles := numElesAfter loc.numEles } : MatLocals) with
        testName := m.name, matDens := m.density, numEles := (m.elements.length : Int) } f
      (hmore m (List.mem_cons_self _ _)) (fun q hq => hmore q (List.mem_cons_of_mem _ hq))
      (hmorelen m (List.mem_cons_self _ _)).2
      (fun q hq => hmorelen q (List.mem_cons_of_mem _ hq)) rfl rfl hs2
      (by simp at hfuel; omega)
    refine ⟨s3, loc3, ?_, he3⟩
    have hcond : loc.testName ≠ compName ∧ s.eofbit = false := ⟨by rw [hname]; exact hcur, heof⟩
    have htoNat : loc.numEles.toNat = cur.elements.length := by rw [hnum]; simp
    simp only [scanMat]
    rw [if_pos hcond]
    simp only [htoNat, hskip, hhead]
    exact hscan

theorem expandMat_not_found (AVAGADRO volFracDefault : ℚ) (eleLib : EleLib)
    (uninit : MatLocals) (matLib : TokStream) (mix : Mixture) (self : Component)
    (records : List MatRecord) (fuel : Nat)
    (hfile : matLib.file = matLibToks records) (hfail : matLib.failbit = false)
    (hnone : ∀ q ∈ records, q.name ≠ self.compName)
    (hnames : ∀ q ∈ records, q.name.length < 64 ∧ ∀ e ∈ q.elements, e.1.length < 64)
    (hfuel : records.length + 1 ≤ fuel) :
    ∃ s2, expandMat AVAGADRO volFracDefault eleLib uninit matLib mix self fuel =
      some ⟨Outcome.fatal 311, self, mix, s2⟩ := by
  have hs0 := synced_seekg0 matLib hfail
  rw [hfile] at hs0
  cases records with
  | nil =>
    have hs0' : Synced matLib.seekg0 [] matLib.trailing := by simpa [matLibToks] using hs0
    obtain ⟨s1, hhead, he1⟩ := readMatHeader_at_end uninit hs0'
    obtain ⟨f, rfl⟩ : ∃ f, fuel = f + 1 := ⟨fuel - 1, by simp at hfuel; omega⟩
    refine ⟨s1, ?_⟩
    have hscan : scanMat self.compName (f + 1) s1 uninit = some (Outcome.ok (s1, uninit)) := by
      simp only [scanMat]
      rw [if_neg (fun hc => by rw [he1] at hc; exact Bool.noConfusion hc.2)]
    simp only [expandMat, hhead, hscan, he1]
    simp
  | cons cur more =>
    rw [matLibToks_cons] at hs0
    obtain ⟨s1, hhead, hs1, _⟩ := readMatHeader_synced cur uninit hs0
      (hnames cur (List.mem_cons_self _ _)).1
    obtain ⟨s2, loc2, hscan, he2⟩ := scanMat_exhausts self.compName matLib.trailing more cur s1
      { uninit with testName := cur.name, matDens := cur.density,
                    numEles := (cur.elements.length : Int) } fuel
      (hnone cur (List.mem_cons_self _ _)) (fun q hq => hnone q (List.mem_cons_of_mem _ hq))
      (hnames cur (List.mem_cons_self _ _)).2
      (fun q hq => hnames q (List.mem_cons_of_mem _ hq)) rfl rfl hs1
      (by simp at hfuel; omega)
    refine ⟨s2, ?_⟩
    simp only [expandMat, hhead, hscan, he2]
    simp

theorem expandMat_match_at_eof (AVAGADRO volFracDefault : ℚ) (eleLib : EleLib)
    (uninit : MatLocals) (matLib : TokStream) (mix : Mixture) (self : Component)
    (pre : List MatRecord) (r : MatRecord) (fuel : Nat)
    (hfile : matLib.file = matLibToks (pre ++ [r])) (hfail : matLib.failbit = false)
    (hpre : ∀ q ∈ pre, q.name ≠ self.compName) (hr : r.name = self.compName)
    (hnames : ∀ q ∈ pre ++ [r], q.name.length < 64 ∧ ∀ e ∈ q.elements, e.1.length < 64)
    (hempty : r.elements = []) (htrail : matLib.trailing = false)
    (hfuel : pre.length < fuel) :
    ∃ s2, expandMat AVAGADRO volFracDefault eleLib uninit matLib mix self fuel =
      some ⟨Outcome.fatal 311, self, mix, s2⟩ := by
  obtain ⟨s1, loc1, s2, loc2, hhead, hscan, _, _, _, he2⟩ :=
    expandMat_scan self.compName uninit matLib pre [] r fuel hfile hfail hpre hr hnames hfuel
  rw [hempty, htrail] at he2
  have he2' : s2.eofbit = true := by simpa [matLibToks] using he2
  refine ⟨s2, ?_⟩
  simp only [expandMat, hhead, hscan, he2']
  simp

theorem first_match (n : String) :
    ∀ (records : List MatRecord), (∀ q ∈ records, q.name ≠ n) ∨
      ∃ pre r post, records = pre ++ r :: post ∧ (∀ q ∈ pre, q.name ≠ n) ∧ r.name = n
  | [] => Or.inl (fun q hq => by simp at hq)
  | q :: rest => by
    by_cases hq : q.name = n
    · exact Or.inr ⟨[], q, rest, rfl, fun x hx => by simp at hx, hq⟩
    · rcases first_match n rest with hall | ⟨pre, r, post, hsplit, hpre, hr⟩
      · left
        intro x hx
        rcases List.mem_cons.mp hx with rfl | hmem
        · exact hq
        · exact hall x hmem
      · right
        refine ⟨q :: pre, r, post, by rw [hsplit]; rfl, ?_, hr⟩
        intro x hx
        rcases List.mem_cons.mp hx with rfl | hmem
        · exact hq
        · exact hpre x hmem

theorem expandMat_uninit_indep (AVAGADRO volFracDefault : ℚ) (eleLib : EleLib)
    (uninit uninit2 : MatLocals) (matLib : TokStream) (mix : Mixture) (self : Component)
    (records : List MatRecord) (fuel : Nat)
    (hfile : matLib.file = matLibToks records) (hfail : matLib.failbit = false)
    (hnames : ∀ q ∈ records, q.name.length < 64 ∧ ∀ e ∈ q.elements, e.1.length < 64)
    (hfuel : records.length + 1 ≤ fuel) :
    (expandMat AVAGADRO volFracDefault eleLib uninit matLib mix self fuel).isSome = true ∧
    (expandMat AVAGADRO volFracDefault eleLib uninit matLib mix self fuel).map
        (MatExpansion.summary mix) =
      (expandMat AVAGADRO volFracDefault eleLib uninit2 matLib mix self fuel).map
        (MatExpansion.summary mix) := by
  rcases first_match self.compName records with hnone | ⟨pre, r, post, hsplit, hpre, hr⟩
  · obtain ⟨s2, h2⟩ := expandMat_not_found AVAGADRO volFracDefault eleLib uninit matLib mix
      self records fuel hfile hfail hnone hnames hfuel
    obtain ⟨s3, h3⟩ := expandMat_not_found AVAGADRO volFracDefault eleLib uninit2 matLib mix
      self records fuel hfile hfail hnone hnames hfuel
    rw [h2, h3]
    exact ⟨rfl, rfl⟩
  · subst hsplit
    have hnames2 : ∀ q ∈ pre ++ [r], q.name.length < 64 ∧ ∀ e ∈ q.elements, e.1.length < 64 := by
      intro q hq
      apply hnames q
      rcases List.mem_append.mp hq with h | h
      · exact List.mem_append_left _ h
      · exact List.mem_append_right _ (by simp at h; simp [h])
    have hfuel2 : pre.length < fuel := by simp at hfuel; omega
    by_cases hfound : r.elements ≠ [] ∨ post ≠ [] ∨ matLib.trailing = true
    · obtain ⟨s2, h2⟩ := expandMat_found AVAGADRO volFracDefault eleLib uninit matLib mix self
        pre post r fuel hfile hfail hpre hr hnames2 hfound hfuel2
      obtain ⟨s3, h3⟩ := expandMat_found AVAGADRO volFracDefault eleLib uninit2 matLib mix self
        pre post r fuel hfile hfail hpre hr hnames2 hfound hfuel2
      rw [h2, h3]
      exact ⟨rfl, rfl⟩
    · have hempty : r.elements = [] := by
        by_contra hne
        exact hfound (Or.inl hne)
      have hpost : post = [] := by
        by_contra hne
        exact hfound (Or.inr (Or.inl hne))
      have htrail : matLib.trailing = false := by
        cases ht : matLib.trailing with
        | false => rfl
        | true => exact absurd (Or.inr (Or.inr ht)) hfound
      subst hpost
      obtain ⟨s2, h2⟩ := expandMat_match_at_eof AVAGADRO volFracDefault eleLib uninit matLib mix
        self pre r fuel hfile hfail hpre hr hnames2 hempty htrail hfuel2
      obtain ⟨s3, h3⟩ := expandMat_match_at_eof AVAGADRO volFracDefault eleLib uninit2 matLib
        mix self pre r fuel hfile hfail hpre hr hnames2 hempty htrail hfuel2
      rw [h2, h3]
      exact ⟨rfl, rfl⟩

/-! ## Theorems: expandMat -/

theorem expandEle_mix_shift (AVAGADRO : ℚ) (eleLib : EleLib) (mix mix0 : Mixture)
    (self : Component) :
    (expandEle AVAGADRO eleLib mix self).mix.totalDensity - mix.totalDensity =
      (expandEle AVAGADRO eleLib mix0 self).mix.totalDensity - mix0.totalDensity := by
  unfold expandEle
  cases eleLib self.compName with
  | none => simp
  | some ele => simp [Mixture.incrTotalDensity]

theorem expandMatElements_mix_shift (AVAGADRO volFracDefault : ℚ) (eleLib : EleLib)
    (D volumeFraction : ℚ) :
    ∀ (n : Nat) (s : TokStream) (loc : MatLocals) (mix mix0 : Mixture) (roots : List Root),
      (expandMatElements AVAGADRO volFracDefault eleLib D volumeFraction n s loc mix roots).1 =
        (expandMatElements AVAGADRO volFracDefault eleLib D volumeFraction n s loc mix0 roots).1 ∧
      (expandMatElements AVAGADRO volFracDefault eleLib D volumeFraction n s loc mix roots).2.1 =
        (expandMatElements AVAGADRO volFracDefault eleLib D volumeFraction n s loc mix0
          roots).2.1 ∧
      (expandMatElements AVAGADRO volFracDefault eleLib D volumeFraction n s loc mix
          roots).2.2.totalDensity - mix.totalDensity =
        (expandMatElements AVAGADRO volFracDefault eleLib D volumeFraction n s loc mix0
          roots).2.2.totalDensity - mix0.totalDensity
  | 0, s, loc, mix, mix0, roots => by simp [expandMatElements]
  | n + 1, s, loc, mix, mix0, roots => by
    simp only [expandMatElements]
    cases hread : readMatElement s loc with
    | none => simp
    | some q =>
      obtain ⟨s1, loc1⟩ := q
      simp only
      have hout := (expandEle_mix_indep AVAGADRO eleLib mix mix0
        (transientElement volFracDefault loc1.eleName
          (loc1.eleDens * (-D * volumeFraction / 100)))).1
      have hshift := expandEle_mix_shift AVAGADRO eleLib mix mix0
        (transientElement volFracDefault loc1.eleName
          (loc1.eleDens * (-D * volumeFraction / 100)))
      rw [hout]
      cases (expandEle AVAGADRO eleLib mix0
        (transientElement volFracDefault loc1.eleName
          (loc1.eleDens * (-D * volumeFraction / 100)))).outcome with
      | ok entries =>
        simp only
        obtain ⟨h1, h2, h3⟩ := expandMatElements_mix_shift AVAGADRO volFracDefault eleLib D
          volumeFraction n s1
          { loc1 with eleDens := loc1.eleDens * (-D * volumeFraction / 100) }
          (expandEle AVAGADRO eleLib mix
            (transientElement volFracDefault loc1.eleName
              (loc1.eleDens * (-D * volumeFraction / 100)))).mix
          (expandEle AVAGADRO eleLib mix0
            (transientElement volFracDefault loc1.eleName
              (loc1.eleDens * (-D * volumeFraction / 100)))).mix
          (Root.merge roots entries)
        refine ⟨h1, h2, ?_⟩
        linarith
      | fatal code => exact ⟨rfl, rfl, hshift⟩
      | crash => exact ⟨rfl, rfl, hshift⟩

theorem seekg0_eq (s1 s2 : TokStream) (hfile : s1.file = s2.file)
    (htrail : s1.trailing = s2.trailing) (hf1 : s1.failbit = false)
    (hf2 : s2.failbit = false) : s1.seekg0 = s2.seekg0 := by
  cases s1
  cases s2
  simp only at hfile htrail hf1 hf2
  simp [TokStream.seekg0, hfile, htrail, hf1, hf2]

theorem summary_of_view (x : Option MatExpansion) (mix : Mixture) :
    (x.map (MatExpansion.view mix)).map (fun v => (v.1, v.2.1, v.2.2.1)) =
      x.map (MatExpansion.summary mix) := by
  cases x <;> rfl

/-- C15: for two Material nodes with the same name, density and volume
fraction, and two states of the material library stream over the same file
(any positions, `eofbit` set or not, `failbit` clear), expandMat gives the
same outcome (labels and densities of the emitted entries), the same
resolved density, the same increment of the total density and leaves the
stream in the same state. When the file is a well-formed library (a sequence
of records whose names fit the 64-character buffers) the call returns, and
outcome, resolved density and increment are the same also from other values
of the uninitialised locals. -/
theorem expandMat_rewind_invariant (AVAGADRO volFracDefault : ℚ) (eleLib : EleLib)
    (uninit : MatLocals) (s1 s2 : TokStream) (mix1 mix2 : Mixture) (c1 c2 : Component)
    (fuel : Nat) (hfile : s1.file = s2.file) (htrail : s1.trailing = s2.trailing)
    (hf1 : s1.failbit = false) (hf2 : s2.failbit = false)
    (hname : c1.compName = c2.compName) (hdens : c1.density = c2.density)
    (hvf : c1.volFraction = c2.volFraction) :
    ((expandMat AVAGADRO volFracDefault eleLib uninit s1 mix1 c1 fuel).map
        (MatExpansion.view mix1) =
      (expandMat AVAGADRO volFracDefault eleLib uninit s2 mix2 c2 fuel).map
        (MatExpansion.view mix2)) ∧
    ∀ (records : List MatRecord) (uninit2 : MatLocals),
      s2.file = matLibToks records →
      (∀ q ∈ records, q.name.length < 64 ∧ ∀ e ∈ q.elements, e.1.length < 64) →
      records.length + 1 ≤ fuel →
      (expandMat AVAGADRO volFracDefault eleLib uninit s1 mix1 c1 fuel).isSome = true ∧
      (expandMat AVAGADRO volFracDefault eleLib uninit s1 mix1 c1 fuel).map
          (MatExpansion.summary mix1) =
        (expandMat AVAGADRO volFracDefault eleLib uninit2 s2 mix2 c2 fuel).map
          (MatExpansion.summary mix2) := by
  have hview : (expandMat AVAGADRO volFracDefault eleLib uninit s1 mix1 c1 fuel).map
        (MatExpansion.view mix1) =
      (expandMat AVAGADRO volFracDefault eleLib uninit s2 mix2 c2 fuel).map
        (MatExpansion.view mix2) := by
    have hseek := seekg0_eq s1 s2 hfile htrail hf1 hf2
    simp only [expandMat, hseek, hname, hdens, hvf]
    cases readMatHeader s2.seekg0 uninit with
    | none => simp [MatExpansion.view, hdens]
    | some q =>
      obtain ⟨t1, loc1⟩ := q
      simp only
      cases scanMat c2.compName fuel t1 loc1 with
      | none => rfl
      | some o =>
        cases o with
        | ok st =>
          obtain ⟨t2, loc2⟩ := st
          simp only
          by_cases heof : t2.eofbit = false
          · simp only [heof, if_true, Option.map_some', MatExpansion.view]
            obtain ⟨h1, h2, h3⟩ := expandMatElements_mix_shift AVAGADRO volFracDefault eleLib
              (c2.density * loc2.matDens) c2.volFraction loc2.numEles.toNat t2 loc2 mix1 mix2 []
            rw [h1, h2, h3]
          · simp [heof, MatExpansion.view, hdens]
        | fatal code => simp [MatExpansion.view, hdens]
        | crash => simp [MatExpansion.view, hdens]
  refine ⟨hview, ?_⟩
  intro records uninit2 hrec hnames hfuel
  obtain ⟨hsome, hind⟩ := expandMat_uninit_indep AVAGADRO volFracDefault eleLib uninit uninit2
    s2 mix2 c2 records fuel hrec hf2 hnames hfuel
  have hsum := congrArg (Option.map (fun v : Outcome (List Root) × ℚ × ℚ × TokStream =>
    (v.1, v.2.1, v.2.2.1))) hview
  rw [summary_of_view, summary_of_view] at hsum
  refine ⟨?_, hsum.trans hind⟩
  have hiso := congrArg Option.isSome hview
  simp only [Option.isSome_map'] at hiso
  rw [hiso]
  exact hsome

/-- Witness for C15: the node `steel` looked up once on the freshly opened
library and once on the stream left at the end of the file by an earlier
lookup, from nodes that differ in their successor, and from two different
values of the uninitialised locals. -/
theorem expandMat_rewind_invariant_witness :
    ((expandMat 1 1 exampleMatEleLib exampleLocals exampleMatStreamFresh ⟨0, 0⟩
        ⟨COMP_MAT, 1, 1 / 2, "steel", none⟩ 10).map (MatExpansion.view ⟨0, 0⟩) =
      (expandMat 1 1 exampleMatEleLib exampleLocals exampleMatStreamAtEnd ⟨0, 5⟩
        ⟨COMP_MAT, 1, 1 / 2, "steel", some 3⟩ 10).map (MatExpansion.view ⟨0, 5⟩)) ∧
    (expandMat 1 1 exampleMatEleLib exampleLocals exampleMatStreamFresh ⟨0, 0⟩
        ⟨COMP_MAT, 1, 1 / 2, "steel", none⟩ 10).isSome = true ∧
    (expandMat 1 1 exampleMatEleLib exampleLocals exampleMatStreamFresh ⟨0, 0⟩
        ⟨COMP_MAT, 1, 1 / 2, "steel", none⟩ 10).map (MatExpansion.summary ⟨0, 0⟩) =
      (expandMat 1 1 exampleMatEleLib exampleLocalsOther exampleMatStreamAtEnd ⟨0, 5⟩
        ⟨COMP_MAT, 1, 1 / 2, "steel", some 3⟩ 10).map (MatExpansion.summary ⟨0, 5⟩) :=
  ⟨(expandMat_rewind_invariant 1 1 exampleMatEleLib exampleLocals exampleMatStreamFresh
      exampleMatStreamAtEnd ⟨0, 0⟩ ⟨0, 5⟩ ⟨COMP_MAT, 1, 1 / 2, "steel", none⟩
      ⟨COMP_MAT, 1, 1 / 2, "steel", some 3⟩ 10 rfl rfl rfl rfl rfl rfl rfl).1,
    (expandMat_rewind_invariant 1 1 exampleMatEleLib exampleLocals exampleMatStreamFresh
      exampleMatStreamAtEnd ⟨0, 0⟩ ⟨0, 5⟩ ⟨COMP_MAT, 1, 1 / 2, "steel", none⟩
      ⟨COMP_MAT, 1, 1 / 2, "steel", some 3⟩ 10 rfl rfl rfl rfl rfl rfl rfl).2
      exampleMatLib exampleLocalsOther rfl (by decide) (by decide)⟩

/-! ## Lemmas on the accesses of the transpose loops -/

theorem forLoopFrom_erase {σ τ : Type} (body : Int → σ → Outcome σ)
    (body2 : Int → σ × τ → Outcome (σ × τ))
    (hbody : ∀ (j : Int) (st st2 : σ × τ), body2 j st = Outcome.ok st2 →
      body j st.1 = Outcome.ok st2.1) :
    ∀ (n : Nat) (i : Int) (st st2 : σ × τ), forLoopFrom body2 n i st = Outcome.ok st2 →
      forLoopFrom body n i st.1 = Outcome.ok st2.1
  | 0, _, st, st2, hrun => by
    simp only [forLoopFrom] at hrun
    cases hrun
    rfl
  | n + 1, i, st, st2, hrun => by
    simp only [forLoopFrom] at hrun
    cases hb : body2 i st with
    | ok t =>
      rw [hb] at hrun
      simp only [forLoopFrom, hbody i st t hb, Outcome.bind]
      exact forLoopFrom_erase body body2 hbody n (i + 1) t st2 hrun
    | fatal code =>
      rw [hb] at hrun
      simp [Outcome.bind] at hrun
    | crash =>
      rw [hb] at hrun
      simp [Outcome.bind] at hrun

theorem transposeValueLogged_erase (fluxIn : List ℚ) (ninti skip numGrps gNum volNum : Int)
    (st st2 : List ℚ × List (Int × Int))
    (h : transposeValueLogged fluxIn ninti skip numGrps gNum volNum st = Outcome.ok st2) :
    transposeValue fluxIn ninti skip numGrps gNum volNum st.1 = Outcome.ok st2.1 := by
  unfold transposeValueLogged at h
  unfold transposeValue
  cases hg : getI fluxIn (wrapInt (gNum * ninti + (volNum + skip))) with
  | none => simp [hg] at h
  | some v =>
    simp only [hg] at h ⊢
    cases hs : setI st.1 (wrapInt (volNum * numGrps + gNum)) v with
    | none => simp [hs] at h
    | some m =>
      simp only [hs] at h ⊢
      cases h
      rfl

theorem transposeDataLogged_erase (fluxIn M : List ℚ) (ninti skip numVols numGrps : Int)
    (st2 : List ℚ × List (Int × Int))
    (h : transposeDataLogged fluxIn ninti skip numVols numGrps M = Outcome.ok st2) :
    transposeData fluxIn ninti skip numVols numGrps M = Outcome.ok st2.1 := by
  unfold transposeDataLogged forLoop at h
  unfold transposeData forLoop
  exact forLoopFrom_erase
    (fun gNum => forLoopFrom (transposeValue fluxIn ninti skip numGrps gNum) numVols.toNat 0)
    (fun gNum => forLoopFrom (transposeValueLogged fluxIn ninti skip numGrps gNum)
      numVols.toNat 0)
    (fun j st st3 hb => forLoopFrom_erase (transposeValue fluxIn ninti skip numGrps j)
      (transposeValueLogged fluxIn ninti skip numGrps j)
      (fun v u u2 hv => transposeValueLogged_erase fluxIn ninti skip numGrps j v u u2 hv)
      numVols.toNat 0 st st3 hb)
    numGrps.toNat 0 (M, []) st2 h

theorem transposeDataLogged_spec (fluxIn M : List ℚ) (ninti ngrp skip numVols numGrps : Int)
    (hskip : 0 ≤ skip) (hgrp : numGrps ≤ ngrp) (hint : skip + numVols ≤ ninti)
    (hsize : fitsInt (ninti * ngrp))
    (hbuf : (fluxIn.length : Int) = ninti * ngrp)
    (hM : (M.length : Int) = numVols * numGrps) :
    ∃ out log, transposeDataLogged fluxIn ninti skip numVols numGrps M = Outcome.ok (out, log) ∧
      (∀ a ∈ log, ∃ g v : Int, 0 ≤ g ∧ g < numGrps ∧ 0 ≤ v ∧ v < numVols ∧
        a = (g * ninti + (v + skip), v * numGrps + g)) ∧
      (∀ g v : Int, 0 ≤ g → g < numGrps → 0 ≤ v → v < numVols →
        (g * ninti + (v + skip), v * numGrps + g) ∈ log) ∧
      (log.map Prod.snd).Nodup := by
  have hsrc : ∀ (vol g : Int), 0 ≤ vol → vol < numVols → 0 ≤ g → g < numGrps →
      ∃ v, getI fluxIn (g * ninti + (vol + skip)) = some v := by
    intro vol g h1 h2 h3 h4
    obtain ⟨hb1, hb2⟩ := index_bound ninti ngrp g (vol + skip) h3 (by omega) (by omega)
      (by omega)
    exact getI_lt hb1 (by rw [hbuf, mul_comm ninti ngrp]; exact hb2)
  obtain ⟨⟨out, log⟩, hrun, _, hform, hcov, hnd⟩ := forLoop_inv numGrps
    (fun gNum => forLoop numVols (transposeValueLogged fluxIn ninti skip numGrps gNum))
    (fun j (st : List ℚ × List (Int × Int)) => st.1.length = M.length ∧
      (∀ a ∈ st.2, ∃ g v : Int, 0 ≤ g ∧ g < j ∧ 0 ≤ v ∧ v < numVols ∧
        a = (g * ninti + (v + skip), v * numGrps + g)) ∧
      (∀ g v : Int, 0 ≤ g → g < j → 0 ≤ v → v < numVols →
        (g * ninti + (v + skip), v * numGrps + g) ∈ st.2) ∧
      (st.2.map Prod.snd).Nodup)
    (M, []) ⟨rfl, fun a ha => by simp at ha, fun g v h1 h2 _ _ => by omega, by simp⟩
    (by
      intro j t hj0 hj1 hI
      obtain ⟨hIlen, hIform, hIcov, hInd⟩ := hI
      obtain ⟨t2, hrun2, hlen2, hform2, hcov2, hnd2⟩ := forLoop_inv numVols
        (transposeValueLogged fluxIn ninti skip numGrps j)
        (fun w (st : List ℚ × List (Int × Int)) => st.1.length = M.length ∧
          (∀ a ∈ st.2, ∃ g v : Int, 0 ≤ g ∧ 0 ≤ v ∧ v < numVols ∧
            (g < j ∨ (g = j ∧ v < w)) ∧ a = (g * ninti + (v + skip), v * numGrps + g)) ∧
          (∀ g v : Int, 0 ≤ g → 0 ≤ v → v < numVols → (g < j ∨ (g = j ∧ v < w)) →
            (g * ninti + (v + skip), v * numGrps + g) ∈ st.2) ∧
          (st.2.map Prod.snd).Nodup)
        t
        ⟨hIlen,
          fun a ha => by
            obtain ⟨g, v, h1, h2, h3, h4, h5⟩ := hIform a ha
            exact ⟨g, v, h1, h3, h4, Or.inl h2, h5⟩,
          fun g v h1 h2 h3 h4 => by
            rcases h4 with h4 | ⟨_, h4⟩
            · exact hIcov g v h1 h4 h2 h3
            · omega,
          hInd⟩
        (by
          intro w u hw0 hw1 hJ
          obtain ⟨hJlen, hJform, hJcov, hJnd⟩ := hJ
          obtain ⟨val, hval⟩ := hsrc w j hw0 hw1 hj0 hj1
          obtain ⟨hd1, hd2⟩ := index_bound numGrps numVols w j hw0 hw1 hj0 hj1
          have hset := setI_lt (l := u.1) val hd1 (by rw [hJlen, hM]; exact hd2)
          obtain ⟨hx1, hx2⟩ := index_fits ninti ngrp skip numVols numGrps w j hskip hgrp hint
            hsize hw0 hw1 hj0 hj1
          refine ⟨(u.1.set (w * numGrps + j).toNat val,
            u.2 ++ [(j * ninti + (w + skip), w * numGrps + j)]), ?_, ?_, ?_, ?_, ?_⟩
          · simp only [transposeValueLogged, hx1, hx2, hval, hset]
          · show (u.1.set (w * numGrps + j).toNat val).length = M.length
            simp [hJlen]
          · intro a ha
            rcases List.mem_append.mp ha with ha | ha
            · obtain ⟨g, v, h1, h2, h3, h4, h5⟩ := hJform a ha
              refine ⟨g, v, h1, h2, h3, ?_, h5⟩
              rcases h4 with h4 | ⟨h4, h6⟩
              · exact Or.inl h4
              · exact Or.inr ⟨h4, by omega⟩
            · rw [List.mem_singleton] at ha
              exact ⟨j, w, hj0, hw0, hw1, Or.inr ⟨rfl, by omega⟩, ha⟩
          · intro g v h1 h2 h3 h4
            apply List.mem_append.mpr
            by_cases hnew : g = j ∧ v = w
            · right
              rw [hnew.1, hnew.2]
              exact List.mem_singleton.mpr rfl
            · left
              apply hJcov g v h1 h2 h3
              rcases h4 with h4 | ⟨h4, h6⟩
              · exact Or.inl h4
              · right
                refine ⟨h4, ?_⟩
                by_contra hge
                exact hnew ⟨h4, by omega⟩
          · show ((u.2 ++ [(j * ninti + (w + skip), w * numGrps + j)]).map Prod.snd).Nodup
            rw [List.map_append, List.nodup_append]
            refine ⟨hJnd, by simp, ?_⟩
            intro k hk1 hk2
            simp only [List.map_cons, List.map_nil, List.mem_singleton] at hk2
            obtain ⟨b, hb, hbk⟩ := List.mem_map.mp hk1
            obtain ⟨g, v, h1, h2, h3, h4, h5⟩ := hJform b hb
            have hkey : v * numGrps + g = w * numGrps + j := by
              rw [← hk2, ← hbk, h5]
            have hgn : g < numGrps := by
              rcases h4 with h4 | ⟨h4, _⟩ <;> omega
            obtain ⟨e1, e2⟩ := index_inj numGrps v w g j h1 hgn hj0 hj1 hkey
            rcases h4 with h4 | ⟨_, h4⟩ <;> omega)
      refine ⟨t2, hrun2, hlen2, ?_, ?_, hnd2⟩
      · intro a ha
        obtain ⟨g, v, h1, h2, h3, h4, h5⟩ := hform2 a ha
        refine ⟨g, v, h1, ?_, h2, h3, h5⟩
        rcases h4 with h4 | ⟨h4, _⟩ <;> omega
      · intro g v h1 h2 h3 h4
        apply hcov2 g v h1 h3 h4
        by_cases hg : g = j
        · exact Or.inr ⟨hg, lt_of_lt_of_le h4 (le_max_left _ _)⟩
        · exact Or.inl (by omega))
  refine ⟨out, log, hrun, ?_, ?_, hnd⟩
  · intro a ha
    obtain ⟨g, v, h1, h2, h3, h4, h5⟩ := hform a ha
    refine ⟨g, v, h1, ?_, h3, h4, h5⟩
    rcases le_total numGrps 0 with hn | hn
    · rw [max_eq_right hn] at h2
      omega
    · rw [max_eq_left hn] at h2
      exact h2
  · intro g v h1 h2 h3 h4
    exact hcov g v h1 (lt_of_lt_of_le h2 (le_max_left _ _)) h3 h4

theorem index_split (n m k : Int) (hn : 0 ≤ m ∨ 0 ≤ n) (hk0 : 0 ≤ k) (hk : k < m * n) :
    ∃ g v : Int, 0 ≤ g ∧ g < n ∧ 0 ≤ v ∧ v < m ∧ k = v * n + g := by
  have hpos : 0 < n := by
    by_contra hle
    have hn0 : n ≤ 0 := by omega
    rcases hn with h | h
    · have := mul_nonneg h (show (0 : Int) ≤ -n by omega)
      nlinarith
    · have : n = 0 := by omega
      subst this
      simp at hk
      omega
  refine ⟨k % n, k / n, Int.emod_nonneg k (by omega), Int.emod_lt_of_pos k hpos,
    Int.ediv_nonneg hk0 (by omega), Int.ediv_lt_of_lt_mul hpos hk, ?_⟩
  have := Int.ediv_add_emod k n
  rw [mul_comm] at this
  exact this.symm

/-! ## Lemmas on the stream left by expandMat -/

theorem readCharBuf_file {s s2 : TokStream} {cur x : String}
    (h : readCharBuf s cur = some (s2, x)) : s2.file = s.file := by
  unfold readCharBuf at h
  split at h
  · cases h
    rfl
  · split at h
    · cases h
      rfl
    · split at h
      · cases h
        rfl
      · cases h

theorem readDouble_file (s : TokStream) (cur : ℚ) : (readDouble s cur).1.file = s.file := by
  unfold readDouble
  split
  · rfl
  · split
    · rfl
    · split <;> rfl

theorem readInt_file (s : TokStream) (cur : Int) : (readInt s cur).1.file = s.file := by
  unfold readInt
  split
  · rfl
  · split
    · rfl
    · split <;> rfl

theorem readMatElement_file {s s2 : TokStream} {loc loc2 : MatLocals}
    (h : readMatElement s loc = some (s2, loc2)) : s2.file = s.file := by
  unfold readMatElement at h
  cases hc : readCharBuf (clearComment s) loc.eleName with
  | none => simp [hc] at h
  | some p =>
    obtain ⟨s1, n⟩ := p
    simp only [hc, Option.some.injEq, Prod.mk.injEq] at h
    rw [← h.1, readInt_file, readDouble_file, readCharBuf_file hc]
    rfl

theorem readMatHeader_file {s s2 : TokStream} {loc loc2 : MatLocals}
    (h : readMatHeader s loc = some (s2, loc2)) : s2.file = s.file := by
  unfold readMatHeader at h
  cases hc : readCharBuf (clearComment s) loc.testName with
  | none => simp [hc] at h
  | some p =>
    obtain ⟨s1, n⟩ := p
    simp only [hc, Option.some.injEq, Prod.mk.injEq] at h
    rw [← h.1, readInt_file, readDouble_file, readCharBuf_file hc]
    rfl

theorem skipMatElements_file :
    ∀ (n : Nat) (s s2 : TokStream) (loc loc2 : MatLocals),
      skipMatElements n s loc = some (s2, loc2) → s2.file = s.file
  | 0, s, s2, loc, loc2, h => by
    simp only [skipMatElements, Option.some.injEq, Prod.mk.injEq] at h
    rw [← h.1]
  | n + 1, s, s2, loc, loc2, h => by
    simp only [skipMatElements] at h
    cases hr : readMatElement s loc with
    | none => simp [hr] at h
    | some p =>
      obtain ⟨s1, loc1⟩ := p
      simp only [hr] at h
      rw [skipMatElements_file n s1 s2 loc1 loc2 h, readMatElement_file hr]

theorem scanMat_file (compName : String) :
    ∀ (fuel : Nat) (s s2 : TokStream) (loc loc2 : MatLocals),
      scanMat compName fuel s loc = some (Outcome.ok (s2, loc2)) → s2.file = s.file
  | 0, s, s2, loc, loc2, h => by simp [scanMat] at h
  | fuel + 1, s, s2, loc, loc2, h => by
    simp only [scanMat] at h
    split at h
    · cases hk : skipMatElements loc.numEles.toNat s loc with
      | none => simp [hk] at h
      | some p =>
        obtain ⟨s1, loc1⟩ := p
        simp only [hk] at h
        cases hh : readMatHeader s1 { loc1 with numEles := numElesAfter loc.numEles } with
        | none => simp [hh] at h
        | some q =>
          obtain ⟨s3, loc3⟩ := q
          simp only [hh] at h
          rw [scanMat_file compName fuel s3 s2 loc3 loc2 h, readMatHeader_file hh,
            skipMatElements_file _ _ _ _ _ hk]
    · simp only [Option.some.injEq, Outcome.ok.injEq, Prod.mk.injEq] at h
      rw [← h.1]

theorem expandMatElements_file (AVAGADRO volFracDefault : ℚ) (eleLib : EleLib)
    (D volumeFraction : ℚ) :
    ∀ (n : Nat) (s : TokStream) (loc : MatLocals) (mix : Mixture) (roots : List Root),
      (expandMatElements AVAGADRO volFracDefault eleLib D volumeFraction n s loc mix
        roots).2.1.file = s.file
  | 0, s, loc, mix, roots => rfl
  | n + 1, s, loc, mix, roots => by
    simp only [expandMatElements]
    cases hr : readMatElement s loc with
    | none => rfl
    | some p =>
      obtain ⟨s1, loc1⟩ := p
      simp only
      cases hE : (expandEle AVAGADRO eleLib mix
          (transientElement volFracDefault loc1.eleName
            (loc1.eleDens * (-D * volumeFraction / 100)))).outcome with
      | ok entries =>
        simp only
        rw [expandMatElements_file AVAGADRO volFracDefault eleLib D volumeFraction n,
          readMatElement_file hr]
      | fatal code => exact readMatElement_file hr
      | crash => exact readMatElement_file hr

theorem expandMatElements_ok_synced (AVAGADRO volFracDefault : ℚ) (eleLib : EleLib)
    (D volumeFraction : ℚ) {T : Bool} {rest : List Tok} :
    ∀ (es : List (String × ℚ × Int)) (s : TokStream) (loc : MatLocals) (mix : Mixture)
      (roots out : List Root),
      Synced s (es.flatMap elementToks ++ rest) T → (∀ e ∈ es, e.1.length < 64) →
      (expandMatElements AVAGADRO volFracDefault eleLib D volumeFraction es.length s loc
        mix roots).1 = Outcome.ok out →
      Synced (expandMatElements AVAGADRO volFracDefault eleLib D volumeFraction es.length s
        loc mix roots).2.1 rest T
  | [], s, loc, mix, roots, out, h, _, _ => by
    simpa [expandMatElements] using h
  | e :: es, s, loc, mix, roots, out, h, hlen, hout => by
    have h1 : Synced s (elementToks e ++ (es.flatMap elementToks ++ rest)) T := by
      simpa [List.flatMap_cons, List.append_assoc] using h
    obtain ⟨s1, hread, hs1⟩ := readMatElement_synced e loc h1 (hlen e (List.mem_cons_self _ _))
    simp only [List.length_cons, expandMatElements, hread] at hout ⊢
    cases hE : (expandEle AVAGADRO eleLib mix
        (transientElement volFracDefault e.1 (e.2.1 * (-D * volumeFraction / 100)))).outcome with
    | ok entries =>
      simp only [hE] at hout ⊢
      exact expandMatElements_ok_synced AVAGADRO volFracDefault eleLib D volumeFraction es s1
        _ _ _ out hs1 (fun e2 he2 => hlen e2 (List.mem_cons_of_mem _ he2)) hout
    | fatal code =>
      rw [hE] at hout
      simp at hout
    | crash =>
      rw [hE] at hout
      simp at hout

theorem seekg0_file (s : TokStream) : s.seekg0.file = s.file := by
  unfold TokStream.seekg0
  split <;> rfl

theorem synced_found_not_eof {s : TokStream} {T : Bool} (r : MatRecord)
    (post : List MatRecord)
    (h : Synced s (r.elements.flatMap elementToks ++ matLibToks post) T)
    (hfound : r.elements ≠ [] ∨ post ≠ [] ∨ T = true) : s.eofbit = false := by
  cases he : s.eofbit with
  | false => rfl
  | true =>
    obtain ⟨hnil, hT⟩ := h.2.2.2 he
    rcases hfound with h1 | h1 | h1
    · cases hel : r.elements with
      | nil => exact absurd hel h1
      | cons e es =>
        rw [hel] at hnil
        simp [List.flatMap_cons, elementToks] at hnil
    · cases hp : post with
      | nil => exact absurd hp h1
      | cons q qs =>
        rw [hp] at hnil
        exact absurd (List.append_eq_nil.mp hnil).2 (matLibToks_cons_ne_nil q qs)
    · rw [h1] at hT
      cases hT

theorem expandMat_found_stream (AVAGADRO volFracDefault : ℚ) (eleLib : EleLib)
    (uninit : MatLocals) (matLib : TokStream) (mix : Mixture) (self : Component)
    (pre post : List MatRecord) (r : MatRecord) (fuel : Nat) (r0 : MatExpansion)
    (out : List Root)
    (hfile : matLib.file = matLibToks (pre ++ r :: post)) (hfail : matLib.failbit = false)
    (hpre : ∀ q ∈ pre, q.name ≠ self.compName) (hr : r.name = self.compName)
    (hnames : ∀ q ∈ pre ++ [r], q.name.length < 64 ∧ ∀ e ∈ q.elements, e.1.length < 64)
    (hfound : r.elements ≠ [] ∨ post ≠ [] ∨ matLib.trailing = true)
    (hfuel : pre.length < fuel)
    (hr0 : expandMat AVAGADRO volFracDefault eleLib uninit matLib mix self fuel = some r0)
    (hok : r0.outcome = Outcome.ok out) :
    r0.matLib.file = matLib.file ∧ Synced r0.matLib (matLibToks post) matLib.trailing := by
  obtain ⟨s1, loc1, s2, loc2, hhead, hscan, hdens, hnum, hs2, _⟩ :=
    expandMat_scan self.compName uninit matLib pre post r fuel hfile hfail hpre hr hnames hfuel
  have heof := synced_found_not_eof r post hs2 hfound
  have htoNat : loc2.numEles.toNat = r.elements.length := by rw [hnum]; simp
  simp only [expandMat, hhead, hscan, heof, if_true, hdens, htoNat] at hr0
  have hr0' := Option.some.inj hr0
  subst hr0'
  refine ⟨?_, ?_⟩
  · show (expandMatElements AVAGADRO volFracDefault eleLib (self.density * r.density)
      self.volFraction r.elements.length s2 loc2 mix []).2.1.file = matLib.file
    rw [expandMatElements_file, scanMat_file _ _ _ _ _ _ hscan, readMatHeader_file hhead,
      seekg0_file]
  · exact expandMatElements_ok_synced AVAGADRO volFracDefault eleLib
      (self.density * r.density) self.volFraction r.elements s2 loc2 mix [] out hs2
      (hnames r (by simp)).2 hok

theorem expandMat_ok_resolved (AVAGADRO volFracDefault : ℚ) (eleLib : EleLib)
    (uninit : MatLocals) (matLib : TokStream) (mix : Mixture) (self : Component)
    (records : List MatRecord) (fuel : Nat)
    (hfile : matLib.file = matLibToks records) (hfail : matLib.failbit = false)
    (hnames : ∀ q ∈ records, q.name.length < 64 ∧ ∀ e ∈ q.elements, e.1.length < 64)
    (hfuel : records.length + 1 ≤ fuel) :
    ∃ r0, expandMat AVAGADRO volFracDefault eleLib uninit matLib mix self fuel = some r0 ∧
      ∀ out, r0.outcome = Outcome.ok out →
        ∃ pre m post, records = pre ++ m :: post ∧ (∀ q ∈ pre, q.name ≠ self.compName) ∧
          m.name = self.compName ∧
          (m.elements ≠ [] ∨ post ≠ [] ∨ matLib.trailing = true) ∧
          r0.comp = { self with density := self.density * m.density } ∧
          r0.matLib.file = matLib.file ∧ r0.matLib.trailing = matLib.trailing ∧
          r0.matLib.failbit = false := by
  rcases first_match self.compName records with hnone | ⟨pre, r, post, hsplit, hpre, hr⟩
  · obtain ⟨s2, h2⟩ := expandMat_not_found AVAGADRO volFracDefault eleLib uninit matLib mix
      self records fuel hfile hfail hnone hnames hfuel
    refine ⟨_, h2, ?_⟩
    intro out hok
    cases hok
  · subst hsplit
    have hnames2 : ∀ q ∈ pre ++ [r], q.name.length < 64 ∧ ∀ e ∈ q.elements, e.1.length < 64 := by
      intro q hq
      apply hnames q
      rcases List.mem_append.mp hq with h | h
      · exact List.mem_append_left _ h
      · exact List.mem_append_right _ (by simp at h; simp [h])
    have hfuel2 : pre.length < fuel := by simp at hfuel; omega
    by_cases hfound : r.elements ≠ [] ∨ post ≠ [] ∨ matLib.trailing = true
    · obtain ⟨s2, h2⟩ := expandMat_found AVAGADRO volFracDefault eleLib uninit matLib mix self
        pre post r fuel hfile hfail hpre hr hnames2 hfound hfuel2
      refine ⟨_, h2, ?_⟩
      intro out hok
      obtain ⟨hf, hsync⟩ := expandMat_found_stream AVAGADRO volFracDefault eleLib uninit matLib
        mix self pre post r fuel _ out hfile hfail hpre hr hnames2 hfound hfuel2 h2 hok
      exact ⟨pre, r, post, rfl, hpre, hr, hfound, rfl, hf, hsync.2.1, hsync.2.2.1⟩
    · have hempty : r.elements = [] := by
        by_contra hne
        exact hfound (Or.inl hne)
      have hpost : post = [] := by
        by_contra hne
        exact hfound (Or.inr (Or.inl hne))
      have htrail : matLib.trailing = false := by
        cases ht : matLib.trailing with
        | false => rfl
        | true => exact absurd (Or.inr (Or.inr ht)) hfound
      subst hpost
      obtain ⟨s2, h2⟩ := expandMat_match_at_eof AVAGADRO volFracDefault eleLib uninit matLib mix
        self pre r fuel hfile hfail hpre hr hnames2 hempty htrail hfuel2
      refine ⟨_, h2, ?_⟩
      intro out hok
      cases hok

/-! ## Theorems: index safety of the transpose -/

/-- C21 (as written, refuted): the header with `ngrp = ninti = 65536` passes
validation for one interval and one group with `skip = 0`, and the index
`0*ninti + (0 + 0) = 0` lies in `[0, ninti × ngrp)`; but the buffer size
`ninti*ngrp` wraps to 0 as an `int`, the buffer has no entry, and the first
access of the transpose reads outside it. For group 32768 the index
`32768*ninti` itself wraps to a negative `int`. -/
theorem readRTFLUX_transpose_index_overflow :
    checkHeader exampleHuge.ndim exampleHuge.ngrp exampleHuge.ninti 0 1 1 = none ∧
    (0 : Int) * exampleHuge.ninti + (0 + 0) < exampleHuge.ninti * exampleHuge.ngrp ∧
    newDoubles (fun _ => 0) (wrapInt (exampleHuge.ninti * exampleHuge.ngrp)) = some [] ∧
    getI [] (wrapInt (0 * exampleHuge.ninti + (0 + 0))) = none ∧
    transposeDataLogged [] exampleHuge.ninti 0 1 1 [0] = Outcome.crash ∧
    transposeData [] exampleHuge.ninti 0 1 1 [0] = Outcome.crash ∧
    wrapInt (32768 * exampleHuge.ninti + (0 + 0)) = -2147483648 := by
  refine ⟨by decide, by decide, by rfl, by rfl, by rfl, by rfl, by decide⟩

/-- C21 (amended): when `ngrp ≥ numGrps`, `ninti ≥ skip + numVols`, `skip ≥ 0`
and the buffer size `ninti × ngrp` is representable as `int`, on the buffer
`fluxIn` of `ninti × ngrp` values filled by the block loop and an output
storage of `numVols × numGrps` entries, the transpose loops of readRTFLUX run
to their end without an access out of bounds (and the whole of readRTFLUX
returns normally when also `ndim ≤ 1` and `skip + numVols` is representable).
The accesses they make are exactly the pairs
(`group*ninti + (interval + skip)` read, `interval*numGrps + group` written)
for `0 ≤ group < numGrps` and `0 ≤ interval < numVols`; every index read lies
in `[0, ninti × ngrp)`, every index written lies in `[0, numVols × numGrps)`,
no index is written twice, and (the two counts not both negative) every
index of `[0, numVols × numGrps)` is written exactly once. -/
theorem readRTFLUX_transpose_index_safety (uninit : Nat → ℚ) (f : RTFLUXFile)
    (skip numVols numGrps : Int) (M fluxIn unread : List ℚ)
    (hgrp : numGrps ≤ f.ngrp) (hint : skip + numVols ≤ f.ninti) (hskip : 0 ≤ skip)
    (hsize : fitsInt (f.ninti * f.ngrp))
    (hbuf : readBlocks uninit f.ngrp f.nblok f.ninti f.data = Outcome.ok (fluxIn, unread))
    (hM : (M.length : Int) = numVols * numGrps) :
    ∃ out log,
      transposeDataLogged fluxIn f.ninti skip numVols numGrps M = Outcome.ok (out, log) ∧
      transposeData fluxIn f.ninti skip numVols numGrps M = Outcome.ok out ∧
      (f.ndim ≤ 1 → fitsInt (skip + numVols) →
        readRTFLUX uninit (some f) skip M numVols numGrps = ⟨Outcome.ok (), out, unread⟩) ∧
      (∀ a ∈ log, ∃ group interval : Int, 0 ≤ group ∧ group < numGrps ∧ 0 ≤ interval ∧
        interval < numVols ∧
        a = (group * f.ninti + (interval + skip), interval * numGrps + group)) ∧
      (∀ group interval : Int, 0 ≤ group → group < numGrps → 0 ≤ interval →
        interval < numVols →
        (group * f.ninti + (interval + skip), interval * numGrps + group) ∈ log) ∧
      (∀ a ∈ log, 0 ≤ a.1 ∧ a.1 < f.ninti * f.ngrp ∧ a.1 < fluxIn.length ∧
        0 ≤ a.2 ∧ a.2 < numVols * numGrps ∧ a.2 < M.length) ∧
      (log.map Prod.snd).Nodup ∧
      ((0 ≤ numVols ∨ 0 ≤ numGrps) → ∀ k : Int, 0 ≤ k → k < numVols * numGrps →
        (log.map Prod.snd).count k = 1) := by
  have hlen := readBlocks_length hbuf
  rw [wrapInt_of_fits hsize] at hlen
  obtain ⟨out, log, hrun, hform, hcov, hnd⟩ := transposeDataLogged_spec fluxIn M f.ninti
    f.ngrp skip numVols numGrps hskip hgrp hint hsize hlen hM
  have hplain := transposeDataLogged_erase fluxIn M f.ninti skip numVols numGrps _ hrun
  refine ⟨out, log, hrun, hplain, ?_, hform, hcov, ?_, hnd, ?_⟩
  · intro hdim hsum
    have hcheck := (checkHeader_none_iff f.ndim f.ngrp f.ninti skip numVols numGrps hsum).mpr
      ⟨hdim, hgrp, hint⟩
    simp [readRTFLUX, hcheck, hbuf, hplain]
  · intro a ha
    obtain ⟨g, v, h1, h2, h3, h4, h5⟩ := hform a ha
    obtain ⟨hb1, hb2⟩ := index_bound f.ninti f.ngrp g (v + skip) h1 (by omega) (by omega)
      (by omega)
    obtain ⟨hd1, hd2⟩ := index_bound numGrps numVols v g h3 h4 h1 h2
    rw [h5]
    refine ⟨hb1, ?_, ?_, hd1, hd2, ?_⟩
    · rw [mul_comm f.ninti f.ngrp]
      exact hb2
    · rw [hlen, mul_comm f.ninti f.ngrp]
      exact hb2
    · rw [hM]
      exact hd2
  · intro hsign k hk0 hk1
    obtain ⟨g, v, h1, h2, h3, h4, h5⟩ := index_split numGrps numVols k hsign hk0 hk1
    have hmem : k ∈ log.map Prod.snd := by
      rw [h5]
      exact List.mem_map.mpr ⟨_, hcov g v h1 h2 h3 h4, rfl⟩
    exact List.count_eq_one_of_mem hnd hmem

/-- Witness for C21: the file with `ninti = 5`, `ngrp = 2`, `nblok = 1`, read
with `skip = 1` into a `3 × 2` matrix; the six assignments read the indices
1, 2, 3, 6, 7, 8 of the buffer of ten values and write the indices 0, 2, 4,
1, 3, 5 of the storage. -/
theorem readRTFLUX_transpose_index_safety_witness :
    transposeDataLogged [10, 11, 12, 13, 14, 20, 21, 22, 23, 24] 5 1 3 2 [0, 0, 0, 0, 0, 0] =
      Outcome.ok ([11, 21, 12, 22, 13, 23],
        [(1, 0), (2, 2), (3, 4), (6, 1), (7, 3), (8, 5)]) ∧
    ∃ out log,
      transposeDataLogged [10, 11, 12, 13, 14, 20, 21, 22, 23, 24] 5 1 3 2
          [0, 0, 0, 0, 0, 0] = Outcome.ok (out, log) ∧
      readRTFLUX (fun _ => 0) (some exampleRTFLUX) 1 [0, 0, 0, 0, 0, 0] 3 2 =
        ⟨Outcome.ok (), out, []⟩ ∧
      (∀ a ∈ log, 0 ≤ a.1 ∧ a.1 < 5 * 2 ∧ 0 ≤ a.2 ∧ a.2 < 3 * 2) ∧
      (log.map Prod.snd).Nodup ∧ (log.map Prod.snd).count 5 = 1 := by
  obtain ⟨out, log, h1, _, h3, _, _, h6, h7, h8⟩ := readRTFLUX_transpose_index_safety
    (fun _ => 0) exampleRTFLUX 1 3 2 [0, 0, 0, 0, 0, 0]
    [10, 11, 12, 13, 14, 20, 21, 22, 23, 24] [] (by decide) (by decide) (by decide)
    (by decide) (by rfl) (by decide)
  refine ⟨by rfl, out, log, h1, h3 (by decide) (by decide), ?_, h7,
    h8 (Or.inl (by decide)) 5 (by decide) (by decide)⟩
  intro a ha
  obtain ⟨g1, g2, _, g4, g5, _⟩ := h6 a ha
  exact ⟨g1, g2, g4, g5⟩

/-! ## Theorems: the node after an expansion -/

/-- C22: expansion writes the node it is called on. After an expandEle that
returned normally the node's density is the density resolved by the code
(`resolveDensity`), the one the total density and the isotope entries were
computed from, and after an expandMat that returned normally on a
well-formed library it is the original density times the reference density
of the first record bearing the node's name; kind, name, volume fraction and
successor are unchanged. A second expansion of the same node, in the state
the first one left, starts from the density already written: it leaves
`resolveDensity` applied twice, respectively the original density times the
reference density twice. -/
theorem expansion_writes_node_density (AVAGADRO volFracDefault : ℚ) (eleLib : EleLib)
    (uninit uninit2 : MatLocals) (matLib : TokStream) (mix : Mixture) (self : Component)
    (records : List MatRecord) (fuel : Nat) :
    (∀ roots, (expandEle AVAGADRO eleLib mix self).outcome = Outcome.ok roots →
      ∃ ele, eleLib self.compName = some ele ∧
        (expandEle AVAGADRO eleLib mix self).comp =
          { self with density := resolveDensity self.density ele } ∧
        (expandEle AVAGADRO eleLib mix self).mix =
          mix.incrTotalDensity
            ((expandEle AVAGADRO eleLib mix self).comp.density * self.volFraction) ∧
        (expandEle AVAGADRO eleLib mix self).outcome =
          expandEleLoop self.compName
            (self.volFraction * (expandEle AVAGADRO eleLib mix self).comp.density * AVAGADRO /
              ele.A) ele.isoList [] ∧
        (expandEle AVAGADRO eleLib (expandEle AVAGADRO eleLib mix self).mix
            (expandEle AVAGADRO eleLib mix self).comp).comp =
          { self with density := resolveDensity (resolveDensity self.density ele) ele }) ∧
    (matLib.file = matLibToks records → matLib.failbit = false →
      (∀ q ∈ records, q.name.length < 64 ∧ ∀ e ∈ q.elements, e.1.length < 64) →
      records.length + 1 ≤ fuel →
      ∃ r, expandMat AVAGADRO volFracDefault eleLib uninit matLib mix self fuel = some r ∧
        ∀ roots, r.outcome = Outcome.ok roots →
          ∃ pre m post, records = pre ++ m :: post ∧
            (∀ q ∈ pre, q.name ≠ self.compName) ∧ m.name = self.compName ∧
            r.comp = { self with density := self.density * m.density } ∧
            ∃ r2, expandMat AVAGADRO volFracDefault eleLib uninit2 r.matLib r.mix r.comp
                fuel = some r2 ∧
              r2.comp = { self with density := self.density * m.density * m.density }) := by
  refine ⟨?_, ?_⟩
  · intro roots hok
    obtain ⟨ele, hfound⟩ := expandEle_ok_found AVAGADRO eleLib mix self roots hok
    refine ⟨ele, hfound, ?_, ?_, ?_, ?_⟩
    · simp [expandEle, hfound]
    · simp [expandEle, hfound]
    · simp [expandEle, hfound]
    · simp [expandEle, hfound]
  · intro hfile hfail hnames hfuel
    obtain ⟨r, hr, hres⟩ := expandMat_ok_resolved AVAGADRO volFracDefault eleLib uninit matLib
      mix self records fuel hfile hfail hnames hfuel
    refine ⟨r, hr, ?_⟩
    intro roots hok
    obtain ⟨pre, m, post, hsplit, hpre, hm, hfound, hcomp, hf2, ht2, hfb2⟩ := hres roots hok
    refine ⟨pre, m, post, hsplit, hpre, hm, hcomp, ?_⟩
    have hnames2 : ∀ q ∈ pre ++ [m], q.name.length < 64 ∧ ∀ e ∈ q.elements, e.1.length < 64 := by
      intro q hq
      apply hnames q
      rw [hsplit]
      rcases List.mem_append.mp hq with h | h
      · exact List.mem_append_left _ h
      · exact List.mem_append_right _ (by simp at h; simp [h])
    have hname2 : r.comp.compName = self.compName := by rw [hcomp]
    obtain ⟨s3, h3⟩ := expandMat_found AVAGADRO volFracDefault eleLib uninit2 r.matLib r.mix
      r.comp pre post m fuel (by rw [hf2, hfile, hsplit]) hfb2
      (by rw [hname2]; exact hpre) (by rw [hname2]; exact hm) hnames2
      (by rw [ht2]; exact hfound) (by rw [hsplit] at hfuel; simp at hfuel; omega)
    refine ⟨_, h3, ?_⟩
    rw [hcomp]

/-- Witness for C22: the Element node `m:fe` of density 2 holds `2 × 7.87`
after one expansion and `2 × 7.87 × 7.87` after a second one; the Material node
`steel` of density 1 holds `7.8` after one expansion against the example
library and `7.8 × 7.8` after a second one. -/
theorem expansion_writes_node_density_witness :
    ((expandEle 1 exampleMatEleLib ⟨0, 0⟩ ⟨COMP_ELE, 2, 1, "m:fe", some 4⟩).comp =
        ⟨COMP_ELE, 2 * (787 / 100), 1, "m:fe", some 4⟩ ∧
      (expandEle 1 exampleMatEleLib
          (expandEle 1 exampleMatEleLib ⟨0, 0⟩ ⟨COMP_ELE, 2, 1, "m:fe", some 4⟩).mix
          (expandEle 1 exampleMatEleLib ⟨0, 0⟩ ⟨COMP_ELE, 2, 1, "m:fe", some 4⟩).comp).comp =
        ⟨COMP_ELE, 2 * (787 / 100) * (787 / 100), 1, "m:fe", some 4⟩) ∧
    ∃ r r2, expandMat 1 1 exampleMatEleLib exampleLocals exampleMatStream ⟨0, 0⟩
        ⟨COMP_MAT, 1, 1 / 2, "steel", some 4⟩ 10 = some r ∧
      r.comp = ⟨COMP_MAT, 1 * (78 / 10), 1 / 2, "steel", some 4⟩ ∧
      expandMat 1 1 exampleMatEleLib exampleLocalsOther r.matLib r.mix r.comp 10 = some r2 ∧
      r2.comp = ⟨COMP_MAT, 1 * (78 / 10) * (78 / 10), 1 / 2, "steel", some 4⟩ := by
  have hthm := expansion_writes_node_density 1 1 exampleMatEleLib exampleLocals
    exampleLocalsOther exampleMatStream ⟨0, 0⟩ ⟨COMP_ELE, 2, 1, "m:fe", some 4⟩
    exampleMatLib 10
  have hthm2 := expansion_writes_node_density 1 1 exampleMatEleLib exampleLocals
    exampleLocalsOther exampleMatStream ⟨0, 0⟩ ⟨COMP_MAT, 1, 1 / 2, "steel", some 4⟩
    exampleMatLib 10
  refine ⟨?_, ?_⟩
  · obtain ⟨ele, hele, h1, _, _, h2⟩ := hthm.1 _ (by rfl)
    have he : ele = ⟨56, 26, 787 / 100, 2, [("54", 6), ("56", 94)]⟩ := by
      have h0 : exampleMatEleLib "m:fe" =
          some ⟨56, 26, 787 / 100, 2, [("54", 6), ("56", 94)]⟩ := by rfl
      rw [h0] at hele
      exact (Option.some.inj hele).symm
    subst he
    have hd1 : resolveDensity 2 ⟨56, 26, 787 / 100, 2, [("54", 6), ("56", 94)]⟩ =
        2 * (787 / 100) := by
      norm_num [resolveDensity]
    have hd2 : resolveDensity (2 * (787 / 100))
        ⟨56, 26, 787 / 100, 2, [("54", 6), ("56", 94)]⟩ = 2 * (787 / 100) * (787 / 100) := by
      norm_num [resolveDensity]
    have hd3 : resolveDensity (resolveDensity 2 ⟨56, 26, 787 / 100, 2, [("54", 6), ("56", 94)]⟩)
        ⟨56, 26, 787 / 100, 2, [("54", 6), ("56", 94)]⟩ = 2 * (787 / 100) * (787 / 100) := by
      rw [hd1, hd2]
    exact ⟨h1.trans (congrArg (fun d => (⟨COMP_ELE, d, 1, "m:fe", some 4⟩ : Component)) hd1),
      h2.trans (congrArg (fun d => (⟨COMP_ELE, d, 1, "m:fe", some 4⟩ : Component)) hd3)⟩
  · obtain ⟨r, hr, hres⟩ := hthm2.2 (by rfl) (by rfl) (by decide) (by decide)
    have hout : ∃ roots, (expandMat 1 1 exampleMatEleLib exampleLocals exampleMatStream ⟨0, 0⟩
        ⟨COMP_MAT, 1, 1 / 2, "steel", some 4⟩ 10).map (fun r => r.outcome) =
          some (Outcome.ok roots) := ⟨_, by rfl⟩
    obtain ⟨roots, hroots⟩ := hout
    rw [hr] at hroots
    have hok : r.outcome = Outcome.ok roots := by simpa using hroots
    obtain ⟨pre, m, post, hsplit, hpre, hm, hcomp, r2, hr2, hcomp2⟩ := hres roots hok
    have hm2 : m = ⟨"steel", 78 / 10, [("m:fe", 100, 26)]⟩ := by
      cases pre with
      | nil =>
        simp only [exampleMatLib, List.nil_append, List.cons.injEq] at hsplit
        exact hsplit.1.symm
      | cons q qs =>
        simp only [exampleMatLib, List.cons_append, List.cons.injEq] at hsplit
        have hq : q.name = "steel" := by rw [← hsplit.1]
        exact absurd hq (hpre q (List.mem_cons_self _ _))
    subst hm2
    exact ⟨r, r2, hr, hcomp, hr2, hcomp2⟩

end ALARA
